import Mathlib

/-!
# Reflection: a Transmission-RPC front end for a qBittorrent backend

A shallow embedding of `src/main/main.go` and the properties of its translation
engine.

Conventions of the embedding

* Go `int` and `uint` values are `Int` and `Nat`.  The conversions
  `float64(n)`, `math.Ceil`, `math.Floor` and `uint(x)` of `MakePiecesBitArray`
  are the exact integer operations: `float64(n) / 8` is exact for every count
  below `2^53`, far beyond any slice that `make` can allocate.  The one product of
  two `int` values, `haveValid` in `MapPropsGeneral`, is reduced to 64 bits
  (`wrapInt`), as Go does on a 64-bit platform.
* A Go `string` is a `String`, a sequence of runes.  `strings.ToLower` maps it rune
  by rune: the ASCII runes by the fixed rule, the others by the table of
  `unicode.ToLower`, which is taken from outside (`Ext.unicodeToLower`).
* A Go slice is a `List`; an indexed store outside the slice panics, which is
  `none` here.  `Check(err)` with a non-nil error aborts the request in the same
  way.
* A `map[string]interface{}` (`JsonMap`) is an association list with one entry
  per key; the order of the entries carries no meaning.
* The global `qBTConn` is passed explicitly (`Connection`), the backend behind it
  is an oracle (`Backend`) and every call that reaches it is recorded in a trace.
-/

namespace Reflection

/-! ## Bytes and `encoding/base64` -/

/-- The alphabet of `base64.StdEncoding`. -/
def b64Alphabet : List Char :=
  "ABCDEFGHIJKLMNOPQRSTUVWXYZabcdefghijklmnopqrstuvwxyz0123456789+/".toList

/-- The character of a six-bit group. -/
def b64Char (n : Nat) : Char := b64Alphabet.getD n '='

/-- Standard base64 with padding, three bytes to four characters. -/
def base64Chars : List Nat → List Char
  | [] => []
  | [a] => [b64Char (a / 4), b64Char (a % 4 * 16), '=', '=']
  | [a, b] => [b64Char (a / 4), b64Char (a % 4 * 16 + b / 16), b64Char (b % 16 * 4), '=']
  | a :: b :: c :: rest =>
    b64Char (a / 4) :: b64Char (a % 4 * 16 + b / 16) :: b64Char (b % 16 * 4 + c / 64)
      :: b64Char (c % 64) :: base64Chars rest

/-- The function `base64.StdEncoding.EncodeToString`. -/
def EncodeToString (bs : List Nat) : String := String.mk (base64Chars bs)

/-! ## `MakePiecesBitArray` -/

/-- The value `math.Ceil(float64(n) / 8)`. -/
def ceilDiv8 (n : Int) : Int := -((-n) / 8)

/-- The value `math.Floor(float64(n) / 8)`. -/
def floorDiv8 (n : Int) : Int := n / 8

/-- The store `arr[i] = v`; it panics outside the slice. -/
def storeByte (arr : List Nat) (i v : Nat) : Option (List Nat) :=
  if i < arr.length then some (arr.set i v) else none

/-- The update `arr[i] |= m` on a byte slice; it panics outside the slice. -/
def orByte (arr : List Nat) (i m : Nat) : Option (List Nat) :=
  if h : i < arr.length then some (arr.set i ((arr[i] ||| m) % 256)) else none

/-- The loop `for i := uint(0); i < n; i++ { body }`. -/
def forRange {σ : Type} (n : Nat) (body : σ → Nat → Option σ) (s : σ) : Option σ :=
  (List.range n).foldlM body s

/-- The loop `for i, value := range xs { result[i] = f(value) }` whose body may abort. -/
def mapCheck {α β : Type} (f : α → Option β) : List α → Option (List β)
  | [] => some []
  | a :: l =>
    match f a with
    | none => none
    | some b => (mapCheck f l).map fun r => b :: r

/-- The byte slice `arr` of `MakePiecesBitArray` at the point where it is encoded
(lines 180-189), for non-negative arguments. -/
def piecesBytes (total have_ : Int) : Option (List Nat) :=
  let arrLen : Nat := (ceilDiv8 total).toNat
  let arr : List Nat := List.replicate arrLen 0
  let fullBytes : Nat := (floorDiv8 have_).toNat
  (forRange fullBytes (fun a i => storeByte a i 255) arr).bind fun arr1 =>
    forRange (have_.toNat - fullBytes * 8) (fun a i => orByte a fullBytes (128 >>> i)) arr1

/-- The function `MakePiecesBitArray` (lines 176-192). -/
def MakePiecesBitArray (total have_ : Int) : Option String :=
  if total < 0 ∨ have_ < 0 then some ""
  else (piecesBytes total have_).map EncodeToString

/-- Piece `k` of a bitfield: byte `k / 8` under the mask `128 >> (k mod 8)`. -/
def pieceBit (bs : List Nat) (k : Nat) : Bool :=
  (bs.getD (k / 8) 0) &&& (128 >>> (k % 8)) != 0

/-- The byte that `c` rounds of `arr[i] |= 128 >> k` leave from a zero byte. -/
def topBits (c : Nat) : Nat := (List.range c).foldl (fun b k => (b ||| (128 >>> k)) % 256) 0

/-! ## JSON values and `JsonMap` -/

/-- A value held in an `interface{}`: what `encoding/json` decodes and encodes.
`num` is a `float64` (decoded JSON numbers are of this kind), `int` a Go integer. -/
inductive JVal where
  | null
  | bool (b : Bool)
  | int (i : Int)
  | num (q : Rat)
  | str (s : String)
  | arr (l : List JVal)
  | obj (m : List (String × JVal))

/-- The type `JsonMap`, a `map[string]interface{}`. -/
abbrev JsonMap := List (String × JVal)

/-- The read `m[k]` with its presence flag. -/
def mapGet : JsonMap → String → Option JVal
  | [], _ => none
  | (k1, v) :: m, k => if k1 = k then some v else mapGet m k

/-- The built-in `delete(m, k)`. -/
def mapDelete (m : JsonMap) (k : String) : JsonMap := m.filter fun e => decide (e.1 ≠ k)

/-- The store `m[k] = v`. -/
def mapSet (m : JsonMap) (k : String) (v : JVal) : JsonMap := (k, v) :: mapDelete m k

/-- The keys of a map. -/
def mapKeys (m : JsonMap) : List String := m.map Prod.fst

/-- The loop `for key, value := range src { dst[key] = value }`. -/
def mapCopy (src dst : JsonMap) : JsonMap := src.foldl (fun d e => mapSet d e.1 e.2) dst

/-- The conversion `int(x)` of a `float64`: truncation toward zero. -/
def truncInt (q : Rat) : Int := Int.tdiv q.num q.den

/-! ## Records of package `qBT` and the collaborators of `main.go` -/

/-- The fields of `qBT.TorrentsList` that `main.go` reads. -/
structure TorrentsList where
  Hash : String
  Name : String
  Progress : Rat
  Size : Int
  Dlspeed : Int
  Upspeed : Int
  Ratio : Rat
  Eta : Int
  State : String
  Num_leechs : Int
  Num_seeds : Int

/-- The zero value `var src qBT.TorrentsList`. -/
def TorrentsList.zero : TorrentsList :=
  ⟨"", "", 0, 0, 0, 0, 0, 0, "", 0, 0⟩

/-- The fields of `qBT.PropertiesGeneral` that `main.go` reads. -/
structure PropertiesGeneral where
  Save_path : String
  Piece_size : Int
  Pieces_num : Int
  Pieces_have : Int
  Addition_date : Int
  Comment : String
  Creation_date : Int
  Created_by : String
  Completion_date : Int
  Total_size : Int
  Total_downloaded : Int
  Total_uploaded : Int
  Total_wasted : Int
  Peers : Int
  Up_limit : Int
  Dl_limit : Int
  Nb_connections_limit : Int

/-- The field of `qBT.PropertiesTrackers` that `main.go` reads. -/
structure PropertiesTrackers where
  Url : String

/-- The fields of `qBT.PropertiesFiles` that `main.go` reads. -/
structure PropertiesFiles where
  Name : String
  Size : Int
  Progress : Rat
  Priority : Int

/-- The type `transmission.GetRequest`. -/
structure GetRequest where
  Ids : Option String
  Fields : List String

/-- The type `transmission.TorrentAddRequest`. -/
structure TorrentAddRequest where
  Metainfo : Option String
  Filename : Option String
  Download_dir : Option String
  Cookies : Option String
  Paused : Option JVal

/-- The anonymous request struct of `TorrentDelete`. -/
structure DeleteRequest where
  Ids : String
  Delete_local_data : JVal

/-- The anonymous request struct of `parseActionArgument`. -/
structure ActionRequest where
  Ids : String

/-- The anonymous request struct of `TorrentSet`. -/
structure SetRequest where
  Ids : Option String
  Files_wanted : Option (List Int)
  Files_unwanted : Option (List Int)

/-- The type `transmission.RPCRequest`. -/
structure RPCRequest where
  Method : String
  Arguments : String
  Tag : Option JVal

/-- The fields of `qBT.TransferInfo` that `main.go` reads. -/
structure TransferInfo where
  Dl_info_speed : Int
  Up_info_speed : Int
  Dl_info_data : Int
  Up_info_data : Int

/-- What `handler` reads of the `http.Request`: the body and the result of
`r.BasicAuth()`. -/
structure HttpRequest where
  Body : String
  BasicAuth : Option (String × String)

/-- What `handler` writes: the status (200 unless `WriteHeader` is called), the
content type and the envelope that is marshalled into the body. -/
structure HttpResponse where
  status : Nat
  contentType : Option String
  body : Option JsonMap

/-- What `main.go` takes from outside its own file: the constant tables of package
`transmission`, the decoders of `encoding/json`, `encoding/base64` and `net/url`,
the metainfo decoder, the HTTP fetch, and the table of `unicode.ToLower` for the runes
from U+0080 on.  A `json.RawMessage` is its text; a decoder answers `none` where the Go
call returns an error. -/
structure Ext where
  TorrentGetBase : JsonMap
  TrackerStatsTemplate : JsonMap
  SessionGetBase : JsonMap
  SessionStatsTemplate : JsonMap
  Unmarshal : String → Option JVal
  UnmarshalGetRequest : String → Option GetRequest
  UnmarshalTorrentAddRequest : String → Option TorrentAddRequest
  UnmarshalDeleteRequest : String → Option DeleteRequest
  UnmarshalActionRequest : String → Option ActionRequest
  UnmarshalSetRequest : String → Option SetRequest
  UnmarshalJsonMap : String → Option JsonMap
  UnmarshalRPCRequest : String → Option RPCRequest
  DecodeString : String → Option (List Nat)
  ReadTorrentMetaInfoFile : List Nat → String × String
  ParseQuery : String → Option (List (String × List String))
  DoGetWithCookies : String → Option String → List Nat
  unicodeToLower : Char → Char

/-- The backend behind `qBTConn`, as an oracle: the listing answered to the `n`-th
listing request, the property groups of an id, and the verdict on a login. -/
structure Backend where
  GetTorrentList : Nat → List TorrentsList
  GetPropsGeneral : Int → PropertiesGeneral
  GetPropsTrackers : Int → List PropertiesTrackers
  GetPropsFiles : Int → List PropertiesFiles
  GetPreferencesSavePath : String
  GetVersion : String
  GetTransferInfo : TransferInfo
  Login : String → String → Bool

/-- One part of a multipart body. -/
inductive Part where
  | file (field filename : String) (data : List Nat)
  | field (name value : String)
deriving DecidableEq

/-- A request sent to the backend. -/
inductive Call where
  | GetTorrentList
  | GetPropsGeneral (id : Int)
  | GetPropsTrackers (id : Int)
  | GetPropsFiles (id : Int)
  | GetPreferences
  | GetVersion
  | GetTransferInfo
  | PostForm (path : String) (params : List (String × String))
  | DoPOST (path : String) (body : List Part)
  | Login (username password : String)
deriving DecidableEq

/-- The member `qBTConn.Auth`. -/
structure Auth where
  Required : Bool
  LoggedIn : Bool
  Username : String
  Password : String
deriving DecidableEq

/-- The state of a run: the identity table `qBTConn.HashIds`, `qBTConn.Auth`, and
the requests sent to the backend so far, oldest first. -/
structure Connection where
  HashIds : List String
  Auth : Auth
  trace : List Call
deriving DecidableEq

/-! ## The identity table -/

/-- Modelled from the spec: `qBT.Connection.GetHashNum`, the number of slots of the
identity table ("the table's size"). -/
def GetHashNum (c : Connection) : Int := c.HashIds.length

/-- Modelled from the spec: `qBT.Connection.GetHashForId`, `resolve(id)`: "returns the
hash at that position, or an empty/absent result if the slot is tombstoned or out
of range; never errors on out-of-range".  Positions are 1-based. -/
def GetHashForId (c : Connection) (id : Int) : String :=
  if 1 ≤ id then c.HashIds.getD (id - 1).toNat "" else ""

/-- Modelled from the spec: `qBT.Connection.GetIdOfHash`, `idOf(hash)`: the 1-based
position of the slot holding the hash, an error (`none`) when no slot holds it. -/
def GetIdOfHash (c : Connection) (hash : String) : Option Int :=
  if hash ∈ c.HashIds then some ((c.HashIds.indexOf hash : Nat) + 1) else none

/-- Modelled from the spec: `qBT.Connection.FillIDs`, `reconcile(liveHashes)`: "assigns
a fresh ID to every hash not yet present (appending positions; never reusing
tombstoned slots for a different hash), and returns exactly the hashes that were
newly assigned in this call". -/
def FillIDs (c : Connection) (torrentsList : List TorrentsList) : Connection × List String :=
  torrentsList.foldl
    (fun (acc : Connection × List String) t =>
      match GetIdOfHash acc.1 t.Hash with
      | some _ => acc
      | none => ({ acc.1 with HashIds := acc.1.HashIds ++ [t.Hash] }, acc.2 ++ [t.Hash]))
    (c, [])

/-- The call `qBTConn.GetTorrentList()`: the answer depends on how many listings
were requested before. -/
def GetTorrentList (be : Backend) (c : Connection) : Connection × List TorrentsList :=
  ({ c with trace := c.trace ++ [Call.GetTorrentList] },
    be.GetTorrentList (c.trace.count Call.GetTorrentList))

/-- The call `qBTConn.PostForm(qBTConn.MakeRequestURL(path), params)`. -/
def PostForm (c : Connection) (path : String) (params : List (String × String)) : Connection :=
  { c with trace := c.trace ++ [Call.PostForm path params] }

/-! ## Parsing the `ids` argument -/

/-- The ids `1 .. GetHashNum()` built by the two counting loops of `parseIDsField`. -/
def allIds (c : Connection) : List Int :=
  (List.range (GetHashNum c).toNat).map fun (i : Nat) => (i : Int) + 1

/-- One element of an `ids` array (lines 83-89): a number is converted, a string is
looked up as a hash (`Check` aborts when it is unknown), anything else leaves 0. -/
def idOfElement (c : Connection) : JVal → Option Int
  | .num q => some (truncInt q)
  | .str s => GetIdOfHash c s
  | _ => some 0

/-- The function `parseIDsField` (lines 61-103); `args` is `none` for a nil pointer. -/
def parseIDsField (ext : Ext) (c : Connection) (args : Option String) : Option (List Int) :=
  match args with
  | none => some (allIds c)
  | some raw =>
    match ext.Unmarshal raw with
    | none => none
    | some (.num q) => some [truncInt q]
    | some (.arr ids) => mapCheck (idOfElement c) ids
    | some (.str _) => some (allIds c)
    | some _ => some []

/-- The function `parseIDsArgument` (lines 50-59). -/
def parseIDsArgument (ext : Ext) (c : Connection) (args : Option String) : Option (List Int) :=
  (parseIDsField ext c args).map fun allIds =>
    allIds.filter fun id => decide (GetHashForId c id ≠ "")

/-! ## Translation of a torrent -/

/-- The first `switch src.State` of `MapTorrentList` (lines 139-156): `dst["status"]`. -/
def statusOfState (state : String) : Int :=
  if state = "pausedUP" ∨ state = "pausedDL" then 0 -- TR_STATUS_STOPPED
  else if state = "checkingUP" ∨ state = "checkingDL" then 2 -- TR_STATUS_CHECK
  else if state = "queuedDL" then 3 -- TR_STATUS_DOWNLOAD_WAIT
  else if state = "downloading" ∨ state = "stalledDL" then 4 -- TR_STATUS_DOWNLOAD
  else if state = "queuedUP" then 5 -- TR_STATUS_SEED_WAIT
  else if state = "uploading" ∨ state = "stalledUP" then 6 -- TR_STATUS_SEED
  else if state = "error" then 0 -- TR_STATUS_STOPPED
  else 0 -- TR_STATUS_STOPPED

/-- The test `if src.State == "error"` (lines 157-161): `dst["error"]`. -/
def errorOfState (state : String) : Int :=
  if state = "error" then 3 -- TR_STAT_LOCAL_ERROR
  else 0 -- TR_STAT_OK

/-- The second `switch src.State` (lines 162-167): `dst["isStalled"]`. -/
def isStalledOfState (state : String) : Bool :=
  if state = "stalledDL" ∨ state = "stalledUP" then true else false

/-- The search loop of `MapTorrentList` (lines 121-126): the last record of the
listing whose hash is the one of `id`, the zero record when there is none. -/
def findSrc (c : Connection) (torrentsList : List TorrentsList) (id : Int) : TorrentsList :=
  torrentsList.foldl
    (fun src value => if value.Hash = GetHashForId c id then value else src)
    TorrentsList.zero

/-- The function `MapTorrentList` (lines 120-174). -/
def MapTorrentList (ext : Ext) (c : Connection) (dst : JsonMap)
    (torrentsList : List TorrentsList) (id : Int) : JsonMap :=
  let src := findSrc c torrentsList id
  let dst := mapCopy ext.TorrentGetBase dst
  let dst := mapSet dst "hashString" (.str src.Hash)
  let dst := mapSet dst "name" (.str src.Name)
  let dst := mapSet dst "recheckProgress" (.num src.Progress)
  let dst := mapSet dst "sizeWhenDone" (.int src.Size)
  let dst := mapSet dst "rateDownload" (.int src.Dlspeed)
  let dst := mapSet dst "rateUpload" (.int src.Upspeed)
  let dst := mapSet dst "uploadRatio" (.num src.Ratio)
  let dst := mapSet dst "eta" (.int src.Eta)
  let dst := mapSet dst "status" (.int (statusOfState src.State))
  let dst := mapSet dst "error" (.int (errorOfState src.State))
  let dst := mapSet dst "isStalled" (.bool (isStalledOfState src.State))
  let dst := mapSet dst "percentDone" (.num src.Progress)
  let dst := mapSet dst "peersGettingFromUs" (.int src.Num_leechs)
  let dst := mapSet dst "peersSendingToUs" (.int src.Num_seeds)
  let dst := mapSet dst "leftUntilDone" (.num ((src.Size : Rat) * (1 - src.Progress)))
  let dst := mapSet dst "desiredAvailable" (.num ((src.Size : Rat) * (1 - src.Progress)))
  mapSet dst "haveUnchecked" (.int 0)

/-- The value of an `int` expression whose exact value is `x`: Go reduces it to 64-bit
two's complement. -/
def wrapInt (x : Int) : Int := (x + 2 ^ 63) % 2 ^ 64 - 2 ^ 63

/-- The value stored under `"pieces"`: a run of `MakePiecesBitArray` that panics
yields no value. -/
def piecesValue (total have_ : Int) : Option JVal := (MakePiecesBitArray total have_).map JVal.str

/-- The function `MapPropsGeneral` (lines 194-230); `none` when `MakePiecesBitArray`
panics. -/
def MapPropsGeneral (dst : JsonMap) (propGeneral : PropertiesGeneral) : Option JsonMap :=
  let dst := mapSet dst "downloadDir" (.str propGeneral.Save_path)
  let dst := mapSet dst "pieceSize" (.int propGeneral.Piece_size)
  let dst := mapSet dst "pieceCount" (.int propGeneral.Pieces_num)
  let dst := mapSet dst "addedDate" (.int propGeneral.Addition_date)
  let dst := mapSet dst "startDate" (.int propGeneral.Addition_date)
  let dst := mapSet dst "comment" (.str propGeneral.Comment)
  let dst := mapSet dst "dateCreated" (.int propGeneral.Creation_date)
  let dst := mapSet dst "creator" (.str propGeneral.Created_by)
  let dst := mapSet dst "doneDate" (.int propGeneral.Completion_date)
  let dst := mapSet dst "totalSize" (.int propGeneral.Total_size)
  let dst := mapSet dst "haveValid"
    (.int (wrapInt (propGeneral.Piece_size * propGeneral.Pieces_have)))
  let dst := mapSet dst "downloadedEver" (.int propGeneral.Total_downloaded)
  let dst := mapSet dst "uploadedEver" (.int propGeneral.Total_uploaded)
  (piecesValue propGeneral.Pieces_num propGeneral.Pieces_have).map fun pieces =>
    let dst := mapSet dst "pieces" pieces
    let dst := mapSet dst "peersConnected" (.int propGeneral.Peers)
    let dst := mapSet dst "corruptEver" (.int propGeneral.Total_wasted)
    let dst :=
      if propGeneral.Up_limit ≥ 0 then
        mapSet (mapSet dst "uploadLimited" (.bool true)) "uploadLimit" (.int propGeneral.Up_limit)
      else
        mapSet (mapSet dst "uploadLimited" (.bool false)) "uploadLimit" (.int 0)
    let dst :=
      if propGeneral.Dl_limit ≥ 0 then
        mapSet (mapSet dst "downloadLimited" (.bool true)) "downloadLimit"
          (.int propGeneral.Dl_limit)
      else
        mapSet (mapSet dst "downloadLimited" (.bool false)) "downloadLimit" (.int 0)
    let dst := mapSet dst "maxConnectedPeers" (.int propGeneral.Nb_connections_limit)
    mapSet dst "peer-limit" (.int propGeneral.Nb_connections_limit)

/-- The entry `trackersList[i]` built by `MapPropsTrackers`. -/
def trackerEntry (i : Nat) (value : PropertiesTrackers) : JsonMap :=
  let m : JsonMap := []
  let m := mapSet m "announce" (.str value.Url)
  let m := mapSet m "id" (.int i)
  let m := mapSet m "scrape" (.str value.Url)
  mapSet m "tier" (.int 0)

/-- The entry `trackerStats[i]` built by `MapPropsTrackers`. -/
def trackerStatsEntry (ext : Ext) (i : Nat) (value : PropertiesTrackers) : JsonMap :=
  let m := mapCopy ext.TrackerStatsTemplate []
  let m := mapSet m "announce" (.str value.Url)
  let m := mapSet m "id" (.int i)
  let m := mapSet m "scrape" (.str "")
  mapSet m "tier" (.int 0)

/-- The function `MapPropsTrackers` (lines 232-255). -/
def MapPropsTrackers (ext : Ext) (dst : JsonMap) (trackers : List PropertiesTrackers) : JsonMap :=
  let trackersList := trackers.enum.map fun e => JVal.obj (trackerEntry e.1 e.2)
  let trackerStats := trackers.enum.map fun e => JVal.obj (trackerStatsEntry ext e.1 e.2)
  let dst := mapSet dst "trackers" (.arr trackersList)
  mapSet dst "trackerStats" (.arr trackerStats)

/-- The entry `files[i]` built by `MapPropsFiles`. -/
def fileEntry (value : PropertiesFiles) : JsonMap :=
  let m : JsonMap := []
  let m := mapSet m "bytesCompleted" (.num ((value.Size : Rat) * value.Progress))
  let m := mapSet m "length" (.int value.Size)
  mapSet m "name" (.str value.Name)

/-- The entry `fileStats[i]` built by `MapPropsFiles`. -/
def fileStatsEntry (value : PropertiesFiles) : JsonMap :=
  let m : JsonMap := []
  let m := mapSet m "bytesCompleted" (.num ((value.Size : Rat) * value.Progress))
  let m := mapSet m "wanted" (.bool (if value.Priority = 0 then false else true))
  mapSet m "priority" (.int 0)

/-- The function `MapPropsFiles` (lines 257-287). -/
def MapPropsFiles (dst : JsonMap) (filesInfo : List PropertiesFiles) : JsonMap :=
  let files := filesInfo.map fun value => JVal.obj (fileEntry value)
  let fileStats := filesInfo.map fun value => JVal.obj (fileStatsEntry value)
  let priorities := filesInfo.map fun _ => JVal.int 0
  let wanted := filesInfo.map fun value => JVal.int (if value.Priority = 0 then 0 else 1)
  let dst := mapSet dst "files" (.arr files)
  let dst := mapSet dst "fileStats" (.arr fileStats)
  let dst := mapSet dst "priorities" (.arr priorities)
  mapSet dst "wanted" (.arr wanted)

/-- The list `deprecatedFields` (lines 30-37). -/
def deprecatedFields : List String :=
  ["announceResponse", "seeders", "leechers", "downloadLimitMode", "uploadLimitMode",
    "nextAnnounceTime"]

/-- The function `IsFieldDeprecated` (lines 41-48). -/
def IsFieldDeprecated (field : String) : Bool := deprecatedFields.any fun value => value == field

/-- Modelled from the spec: the helper `Any(fields, key)` of package `main`, whether
`key` is "on the requested list". -/
def Any (fields : List String) (key : String) : Bool := fields.any fun value => value == key

/-- The object `translated` of `TorrentGet` before projection (lines 306-316). -/
def translate (ext : Ext) (be : Backend) (c : Connection) (torrentList : List TorrentsList)
    (id : Int) : Option JsonMap :=
  let translated : JsonMap := []
  let translated := MapTorrentList ext c translated torrentList id
  (MapPropsGeneral translated (be.GetPropsGeneral id)).map fun translated =>
    let translated := MapPropsTrackers ext translated (be.GetPropsTrackers id)
    let translated := MapPropsFiles translated (be.GetPropsFiles id)
    mapSet translated "id" (.int id)

/-- The fields that line 320 logs as unsupported. -/
def unsupportedFields (fields : List String) (translated : JsonMap) : List String :=
  fields.filter fun field => (mapGet translated field).isNone && !IsFieldDeprecated field

/-- The loop `for key := range translated` (lines 324-329): every key is visited once
and deleted when it is not requested. -/
def dropUnneeded (fields : List String) (translated : JsonMap) : JsonMap :=
  (mapKeys translated).foldl
    (fun m key => if !Any fields key then mapDelete m key else m) translated

/-- The three property requests of one round of the loop of `TorrentGet`. -/
def propsCalls (id : Int) : List Call :=
  [Call.GetPropsGeneral id, Call.GetPropsTrackers id, Call.GetPropsFiles id]

/-- The listing and the conditional fill that open `TorrentGet` (lines 294-299). -/
def listAndFill (be : Backend) (c : Connection) : Connection × List TorrentsList :=
  let (c, torrentList) := GetTorrentList be c
  let c := if GetHashNum c = 0 then (FillIDs c torrentList).1 else c
  (c, torrentList)

/-- The function `TorrentGet` (lines 289-333): the state after the call, the
arguments object and the result string; `none` when the request aborts. -/
def TorrentGet (ext : Ext) (be : Backend) (c : Connection) (args : String) :
    Option (Connection × JsonMap × String) :=
  (ext.UnmarshalGetRequest args).bind fun req =>
    let (c, torrentList) := listAndFill be c
    (parseIDsArgument ext c req.Ids).bind fun ids =>
      (mapCheck (fun id => (translate ext be c torrentList id).map (dropUnneeded req.Fields))
          ids).map fun resultList =>
        ({ c with trace := c.trace ++ ids.flatMap propsCalls },
          [("torrents", JVal.arr (resultList.map JVal.obj))], "success")

/-! ## Adding a torrent -/

/-- The function `strings.HasPrefix`. -/
def startsWith (s pre : String) : Bool := pre.toList.isPrefixOf s.toList

/-- The function `strings.TrimPrefix`. -/
def trimStart (s pre : String) : String :=
  if startsWith s pre then String.mk (s.toList.drop pre.length) else s

/-- The function `unicode.ToLower`: an ASCII rune from `A` to `Z` moves to its small
letter and every other ASCII rune stays; a rune from U+0080 on is looked up in the
Unicode table. -/
def lowerRune (ext : Ext) (c : Char) : Char :=
  if c.toNat < 128 then Char.toLower c else ext.unicodeToLower c

/-- The function `strings.ToLower`: `unicode.ToLower` on every rune. -/
def ToLower (ext : Ext) (s : String) : String := String.mk (s.toList.map (lowerRune ext))

/-- A text of ASCII runes only. -/
def isASCII (s : String) : Bool := s.toList.all fun c => decide (c.toNat < 128)

/-- A text with every ASCII letter from `a` to `z` written as a capital, the other
runes kept: the way a link spells a hash in upper case. -/
def asciiUpper (s : String) : String := String.mk (s.toList.map Char.toUpper)

/-- The read `params[key]` of a `url.Values` with its presence flag. -/
def valuesGet (params : List (String × List String)) (key : String) : Option (List String) :=
  (params.find? fun e => e.1 = key).map Prod.snd

/-- The function `UploadTorrent` (lines 448-476): one multipart request to
`/command/upload`. -/
def UploadTorrent (c : Connection) (metainfo : Option (List Nat)) (urls destDir : Option String) :
    Connection :=
  let parts : List Part :=
    (match metainfo with
      | some data => [Part.file "torrents" "example.torrent" data]
      | none => []) ++
    (match urls with
      | some u => [Part.field "urls" u]
      | none => []) ++
    (match destDir with
      | some d => [Part.field "savepath" d]
      | none => []) ++
    [Part.field "cookie" "", Part.field "label" ""]
  { c with trace := c.trace ++ [Call.DoPOST "/command/upload" parts] }

/-- The function `ParseMagnetLink` (lines 478-494); `none` when `ParseQuery` fails or
the link has no `xt` value. -/
def ParseMagnetLink (ext : Ext) (link : String) : Option (String × String) :=
  let path := trimStart link "magnet:?"
  (ext.ParseQuery path).bind fun params =>
    ((valuesGet params "xt").getD []).head?.bind fun xt0 =>
      let trimmed := trimStart xt0 "urn:btih:"
      let newHash := ToLower ext trimmed
      match valuesGet params "dn" with
      | some name => name.head?.map fun n => (newHash, n)
      | none => some (newHash, "Torrent name")

/-- The function `ParseMetainfo` (lines 496-508): the hash in hexadecimal and the name
that the metainfo decoder reads. -/
def ParseMetainfo (ext : Ext) (metainfo : List Nat) : String × String :=
  ext.ReadTorrentMetaInfoFile metainfo

/-- The submission part of `TorrentAdd` (lines 527-555): the state after it, `newHash`
and `newName`. -/
def submitTorrent (ext : Ext) (c : Connection) (req : TorrentAddRequest) :
    Option (Connection × String × String) :=
  match req.Metainfo with
  | some text =>
    (ext.DecodeString text).map fun metainfo =>
      let parsed := ParseMetainfo ext metainfo
      (UploadTorrent c (some metainfo) none req.Download_dir, parsed.1, parsed.2)
  | none =>
    match req.Filename with
    | some path =>
      if startsWith path "magnet:?" then
        (ParseMagnetLink ext path).map fun parsed =>
          match req.Download_dir with
          | some dir =>
            (PostForm c "/command/download" [("urls", path), ("savepath", dir)],
              parsed.1, parsed.2)
          | none => (PostForm c "/command/download" [("urls", path)], parsed.1, parsed.2)
      else if startsWith path "http" then
        let metainfo := ext.DoGetWithCookies path req.Cookies
        let parsed := ParseMetainfo ext metainfo
        some (UploadTorrent c (some metainfo) none none, parsed.1, parsed.2)
      else some (c, "", "")
    | none => some (c, "", "")

/-- The function `GetIdOfNewHash` (lines 510-517); `none` is a non-nil error.  A hash
of `newHashes` is in the table, so the lookup of line 513 succeeds. -/
def GetIdOfNewHash (c : Connection) (newHashes : List String) (newHash : String) : Option Int :=
  if newHashes.any (fun hash => hash == newHash) then GetIdOfHash c newHash else none

/-- One polling attempt (lines 576-577): a listing and a reconcile. -/
def pollStep (be : Backend) (c : Connection) : Connection × List String :=
  let (c, torrentList) := GetTorrentList be c
  FillIDs c torrentList

/-- The polling loop of `TorrentAdd` (lines 572-591) with `n` attempts left: the state
it ends in and `newId`, which is -1 when every attempt failed. -/
def pollNewId (be : Backend) (newHash : String) : Nat → Connection → Connection × Int
  | 0, c => (c, -1)
  | n + 1, c =>
    let (c, newHashes) := pollStep be c
    match GetIdOfNewHash c newHashes newHash with
    | some newId => (c, newId)
    | none => pollNewId be newHash n c

/-- The variable `paused` of `TorrentAdd` (lines 597-606). -/
def pausedOf (p : Option JVal) : Bool :=
  match p with
  | some (.num value) => decide (value ≠ 0)
  | some (.bool value) => value
  | _ => false

/-- The object `{"id": ..., "name": ..., "hashString": ...}` of both answers. -/
def torrentRef (newId : Int) (newName newHash : String) : JsonMap :=
  [("id", .int newId), ("name", .str newName), ("hashString", .str newHash)]

/-- The listing and the reconcile that open `TorrentAdd` (lines 524-525). -/
def addInit (be : Backend) (c : Connection) : Connection :=
  let (c, torrentList) := GetTorrentList be c
  (FillIDs c torrentList).1

/-- The function `TorrentAdd` (lines 519-628). -/
def TorrentAdd (ext : Ext) (be : Backend) (c : Connection) (args : String) :
    Option (Connection × JsonMap × String) :=
  (ext.UnmarshalTorrentAddRequest args).bind fun req =>
    let c := addInit be c
    (submitTorrent ext c req).map fun (c, newHash, newName) =>
      match GetIdOfHash c newHash with
      | some newId =>
        (c, [("torrent-duplicate", JVal.obj (torrentRef newId newName newHash))], "success")
      | none =>
        let (c, newId) := pollNewId be newHash 100 c
        if newId = -1 then (c, [], "Torrent-add timeout")
        else
          let c :=
            if pausedOf req.Paused then PostForm c "/command/pause" [("hash", newHash)]
            else PostForm c "/command/resume" [("hash", newHash)]
          (c, [("torrent-added", JVal.obj (torrentRef newId newName newHash))], "success")

/-- The state after `k` polling attempts that all failed. -/
def afterAttempts (be : Backend) (c : Connection) : Nat → Connection
  | 0 => c
  | k + 1 => (pollStep be (afterAttempts be c k)).1

/-- The newly assigned hashes that attempt `k + 1` receives after `k` failed attempts. -/
def newHashesAt (be : Backend) (c : Connection) (k : Nat) : List String :=
  (pollStep be (afterAttempts be c k)).2

/-- The requests of a trace that change the backend: form posts and uploads. -/
def mutations (trace : List Call) : List Call :=
  trace.filter fun call =>
    match call with
    | .PostForm _ _ => true
    | .DoPOST _ _ => true
    | _ => false

/-- Whether a torrent-add request has one of the three forms: metainfo, magnet link or
URL. -/
def isAddForm (req : TorrentAddRequest) : Bool :=
  match req.Metainfo, req.Filename with
  | some _, _ => true
  | none, some path => startsWith path "magnet:?" || startsWith path "http"
  | none, none => false

/-- The path of a request that changes the backend. -/
def callPath : Call → String
  | .PostForm path _ => path
  | .DoPOST path _ => path
  | _ => ""

/-! ## Removing torrents -/

/-- The store `qBTConn.HashIds[value-1] = ""` (line 422); it panics outside the table. -/
def clearSlot (c : Connection) (value : Int) : Option Connection :=
  if 1 ≤ value ∧ (value - 1).toNat < c.HashIds.length then
    some { c with HashIds := c.HashIds.set (value - 1).toNat "" }
  else none

/-- The loop of `TorrentDelete` (lines 420-423): the state after it and `hashes`. -/
def collectAndClear : Connection → List Int → Option (Connection × List String)
  | c, [] => some (c, [])
  | c, value :: ids =>
    let hash := GetHashForId c value
    (clearSlot c value).bind fun c =>
      (collectAndClear c ids).map fun r => (r.1, hash :: r.2)

/-- The variable `deleteFiles` of `TorrentDelete` (lines 427-433). -/
def deleteFilesOf (v : JVal) : Bool :=
  match v with
  | .bool val => val
  | .num val => decide (val ≠ 0)
  | _ => false

/-- The function `strings.Join(hashes, "|")`. -/
def joinHashes (hashes : List String) : String := "|".intercalate hashes

/-- The function `TorrentDelete` (lines 410-446). -/
def TorrentDelete (ext : Ext) (c : Connection) (args : String) :
    Option (Connection × JsonMap × String) :=
  (ext.UnmarshalDeleteRequest args).bind fun req =>
    (parseIDsArgument ext c (some req.Ids)).bind fun ids =>
      (collectAndClear c ids).map fun (c, hashes) =>
        let joinedHashes := joinHashes hashes
        let c :=
          if deleteFilesOf req.Delete_local_data then
            PostForm c "/command/deletePerm" [("hashes", joinedHashes)]
          else PostForm c "/command/delete" [("hashes", joinedHashes)]
        (c, [], "success")

/-! ## The other methods -/

/-- The function `parseActionArgument` (lines 105-118). -/
def parseActionArgument (ext : Ext) (c : Connection) (args : String) : Option (List String) :=
  (ext.UnmarshalActionRequest args).bind fun req =>
    (parseIDsArgument ext c (some req.Ids)).map fun ids => ids.map (GetHashForId c)

/-- The body shared by `TorrentPause`, `TorrentResume` and `TorrentRecheck`: one form
post per hash. -/
def postEach (ext : Ext) (c : Connection) (args path : String) :
    Option (Connection × JsonMap × String) :=
  (parseActionArgument ext c args).map fun hashes =>
    (hashes.foldl (fun c hash => PostForm c path [("hash", hash)]) c, [], "success")

/-- The function `TorrentPause` (lines 377-386). -/
def TorrentPause (ext : Ext) (c : Connection) (args : String) :
    Option (Connection × JsonMap × String) :=
  postEach ext c args "/command/pause"

/-- The function `TorrentResume` (lines 388-397). -/
def TorrentResume (ext : Ext) (c : Connection) (args : String) :
    Option (Connection × JsonMap × String) :=
  postEach ext c args "/command/resume"

/-- The function `TorrentRecheck` (lines 399-408). -/
def TorrentRecheck (ext : Ext) (c : Connection) (args : String) :
    Option (Connection × JsonMap × String) :=
  postEach ext c args "/command/recheck"

/-- The function `SessionGet` (lines 335-347). -/
def SessionGet (ext : Ext) (be : Backend) (c : Connection) : Connection × JsonMap × String :=
  let session := mapCopy ext.SessionGetBase []
  let c := { c with trace := c.trace ++ [Call.GetPreferences] }
  let session := mapSet session "download-dir" (.str be.GetPreferencesSavePath)
  let c := { c with trace := c.trace ++ [Call.GetVersion] }
  let session := mapSet session "version" (.str ("2.84 (really qBT " ++ be.GetVersion ++ ")"))
  (c, session, "success")

/-- The function `FreeSpace` (lines 349-360). -/
def FreeSpace (ext : Ext) (c : Connection) (args : String) :
    Option (Connection × JsonMap × String) :=
  (ext.UnmarshalJsonMap args).map fun req =>
    let path := (mapGet req "path").getD .null
    (c, [("path", path), ("size-bytes", .num (100 * 2 ^ 30))], "success")

/-- The function `SessionStats` (lines 362-375); the type assertion on
`session["current-stats"]` panics when the template holds no map there. -/
def SessionStats (ext : Ext) (be : Backend) (c : Connection) :
    Option (Connection × JsonMap × String) :=
  let session := mapCopy ext.SessionStatsTemplate []
  let c := { c with trace := c.trace ++ [Call.GetTransferInfo] }
  let info := be.GetTransferInfo
  let session := mapSet session "downloadSpeed" (.int info.Dl_info_speed)
  let session := mapSet session "uploadSpeed" (.int info.Up_info_speed)
  match mapGet session "current-stats" with
  | some (.obj stats) =>
    let stats := mapSet stats "downloadedBytes" (.int info.Dl_info_data)
    let stats := mapSet stats "uploadedBytes" (.int info.Up_info_data)
    let session := mapSet session "current-stats" (.obj stats)
    let session := mapSet session "cumulative-stats" (.obj stats)
    some (c, session, "success")
  | _ => none

/-- The store `newFilesPriorities[fileId] = priority` of `TorrentSet`. -/
def prioSet (m : List (Int × Int)) (fileId priority : Int) : List (Int × Int) :=
  if m.any (fun e => e.1 == fileId) then
    m.map fun e => if e.1 = fileId then (fileId, priority) else e
  else m ++ [(fileId, priority)]

/-- The map `newFilesPriorities` of `TorrentSet` (lines 647-659). -/
def newFilesPriorities (wanted unwanted : Option (List Int)) : List (Int × Int) :=
  let m := (wanted.getD []).foldl (fun m fileId => prioSet m fileId 1) []
  (unwanted.getD []).foldl (fun m fileId => prioSet m fileId 0) m

/-- The function `TorrentSet` (lines 630-675).  The loop over `newFilesPriorities`
visits the file ids in an order that Go leaves open; here it is the order of first
insertion. -/
def TorrentSet (ext : Ext) (c : Connection) (args : String) :
    Option (Connection × JsonMap × String) :=
  (ext.UnmarshalSetRequest args).bind fun req =>
    if req.Files_wanted.isSome || req.Files_unwanted.isSome then
      (parseIDsField ext c req.Ids).map fun ids =>
        match ids with
        | [id] =>
          let c := (newFilesPriorities req.Files_wanted req.Files_unwanted).foldl
            (fun c e =>
              PostForm c "/command/setFilePrio"
                [("hash", GetHashForId c id), ("id", toString e.1), ("priority", toString e.2)])
            c
          (c, [], "success")
        | _ => (c, [], "Unsupported torrent-set request")
    else some (c, [], "success")

/-! ## The handler -/

/-- The function `Login` (lines 677-687). -/
def Login (be : Backend) (c : Connection) (username password : String) : Connection × Bool :=
  let c := { c with trace := c.trace ++ [Call.Login username password] }
  if be.Login username password then
    ({ c with Auth := ⟨c.Auth.Required, true, username, password⟩ }, true)
  else (c, false)

/-- The authentication block of `handler` (lines 696-712): the state after it and
whether the request goes on to dispatch; `false` is the answer 401. -/
def authenticate (be : Backend) (c : Connection) (r : HttpRequest) : Connection × Bool :=
  if c.Auth.Required then
    match r.BasicAuth with
    | none => (c, false)
    | some (username, password) =>
      if !c.Auth.LoggedIn then Login be c username password
      else (c, decide (c.Auth.Username = username) && decide (c.Auth.Password = password))
  else (c, true)

/-- The `switch req.Method` of `handler` (lines 714-741): `resp` is `none` for the nil
map that the `default` arm leaves, and `result` is then the empty string. -/
def dispatch (ext : Ext) (be : Backend) (c : Connection) (req : RPCRequest) :
    Option (Connection × Option JsonMap × String) :=
  let wrap := fun (r : Connection × JsonMap × String) => (r.1, some r.2.1, r.2.2)
  if req.Method = "session-get" then some (wrap (SessionGet ext be c))
  else if req.Method = "free-space" then (FreeSpace ext c req.Arguments).map wrap
  else if req.Method = "torrent-get" then (TorrentGet ext be c req.Arguments).map wrap
  else if req.Method = "session-stats" then (SessionStats ext be c).map wrap
  else if req.Method = "torrent-stop" then (TorrentPause ext c req.Arguments).map wrap
  else if req.Method = "torrent-start" then (TorrentResume ext c req.Arguments).map wrap
  else if req.Method = "torrent-start-now" then (TorrentResume ext c req.Arguments).map wrap
  else if req.Method = "torrent-verify" then (TorrentRecheck ext c req.Arguments).map wrap
  else if req.Method = "torrent-remove" then (TorrentDelete ext c req.Arguments).map wrap
  else if req.Method = "torrent-add" then (TorrentAdd ext be c req.Arguments).map wrap
  else if req.Method = "torrent-set" then (TorrentSet ext c req.Arguments).map wrap
  else some (c, none, "")

/-- The envelope `response` of `handler` (lines 742-748); a nil `resp` is the JSON
`null`. -/
def envelope (resp : Option JsonMap) (result : String) (tag : Option JVal) : JsonMap :=
  let response : JsonMap :=
    [("result", .str result),
      ("arguments", match resp with
        | some m => .obj m
        | none => .null)]
  match tag with
  | some t => mapSet response "tag" t
  | none => response

/-- The function `handler` (lines 689-754): the state after the request and what was
written; `none` when `Check` aborts the request. -/
def handler (ext : Ext) (be : Backend) (c : Connection) (r : HttpRequest) :
    Option (Connection × HttpResponse) :=
  (ext.UnmarshalRPCRequest r.Body).bind fun req =>
    let (c, authOK) := authenticate be c r
    if !authOK then some (c, ⟨401, none, none⟩)
    else
      (dispatch ext be c req).map fun (c, resp, result) =>
        (c, ⟨200, some "application/json; charset=UTF-8", some (envelope resp result req.Tag)⟩)

/-! ## The tables of the claims -/

/-- The backend states that the status table names. -/
def knownStates : List String :=
  ["pausedUP", "pausedDL", "error", "checkingUP", "checkingDL", "queuedDL", "downloading",
    "stalledDL", "queuedUP", "uploading", "stalledUP"]

/-- The status column of the reference table, state by state. -/
def refStatusTable : List (String × Int) :=
  [("pausedUP", 0), ("pausedDL", 0), ("error", 0), ("checkingUP", 2), ("checkingDL", 2),
    ("queuedDL", 3), ("downloading", 4), ("stalledDL", 4), ("queuedUP", 5), ("uploading", 6),
    ("stalledUP", 6)]

/-- The reference triple `(status, error, isStalled)` of a state: the status of the
table and 0 for a state it does not list, error 3 for `"error"` alone, stalled for the
two stalled states alone. -/
def refTriple (s : String) : Int × Int × Bool :=
  (((refStatusTable.find? fun e => s = e.1).map Prod.snd).getD 0,
    (if s = "error" then 3 else 0),
    decide (s = "stalledDL" ∨ s = "stalledUP"))

/-- The eleven method names that `handler` dispatches. -/
def supportedMethods : List String :=
  ["session-get", "free-space", "torrent-get", "session-stats", "torrent-stop", "torrent-start",
    "torrent-start-now", "torrent-verify", "torrent-remove", "torrent-add", "torrent-set"]

/-- Whether the credentials of a request are good: there are Basic credentials, and they
equal the cached pair when a login is cached, or pass the login of the backend when
none is. -/
def credentialsPass (be : Backend) (c : Connection) (r : HttpRequest) : Bool :=
  match r.BasicAuth with
  | none => false
  | some (username, password) =>
    if c.Auth.LoggedIn then
      decide ((username, password) = (c.Auth.Username, c.Auth.Password))
    else be.Login username password

/-- What `handler` writes after a dispatch that returned `resp` and `result`. -/
def okResponse (resp : Option JsonMap) (result : String) (tag : Option JVal) : HttpResponse :=
  ⟨200, some "application/json; charset=UTF-8", some (envelope resp result tag)⟩

/-- An environment for the examples: empty tables, a JSON decoder that knows three
texts, and no other decoder.  Its texts are ASCII, so the table of `unicode.ToLower` is
never consulted; it is the identity here. -/
def sampleExt : Ext where
  TorrentGetBase := [("isFinished", .bool false), ("status", .int 7)]
  TrackerStatsTemplate := []
  SessionGetBase := []
  SessionStatsTemplate := [("current-stats", .obj [])]
  UnmarshalActionRequest := fun _ => none
  UnmarshalSetRequest := fun _ => none
  UnmarshalJsonMap := fun _ => none
  UnmarshalRPCRequest := fun raw =>
    if raw = "get" then some ⟨"torrent-get", "two", none⟩
    else if raw = "other" then some ⟨"session-close", "", some (.num 7)⟩
    else none
  Unmarshal := fun raw =>
    if raw = "[1,1]" then some (.arr [.num 1, .num 1])
    else if raw = "\"recently-active\"" then some (.str "recently-active")
    else if raw = "null" then some .null
    else none
  UnmarshalGetRequest := fun raw =>
    if raw = "two" then some ⟨none, ["hashString", "status"]⟩ else none
  UnmarshalTorrentAddRequest := fun raw =>
    if raw = "magnet-abc" then some ⟨none, some "magnet:?xt=urn:btih:ABC", none, none, none⟩
    else if raw = "magnet-def" then
      some ⟨none, some "magnet:?xt=urn:btih:DEF&dn=Film", none, none, some (JVal.bool true)⟩
    else none
  UnmarshalDeleteRequest := fun raw =>
    if raw = "twice" then some ⟨"[1,1]", .null⟩ else none
  DecodeString := fun _ => none
  ReadTorrentMetaInfoFile := fun _ => ("", "")
  ParseQuery := fun query =>
    if query = "xt=urn:btih:ABC" then some [("xt", ["urn:btih:ABC"])]
    else if query = "xt=urn:btih:DEF&dn=Film" then
      some [("xt", ["urn:btih:DEF"]), ("dn", ["Film"])]
    else none
  DoGetWithCookies := fun _ _ => []
  unicodeToLower := fun c => c

/-- A listing entry for the examples. -/
def sampleTorrent (hash state : String) : TorrentsList :=
  ⟨hash, "name", 0, 0, 0, 0, 0, 0, state, 0, 0⟩

/-- A backend for the examples: the same one-torrent listing at every request. -/
def sampleBackend : Backend where
  GetTorrentList := fun _ => [sampleTorrent "abc" "stalledDL"]
  GetPropsGeneral := fun _ => ⟨"", 0, 10, 10, 0, "", 0, "", 0, 0, 0, 0, 0, 0, 0, 0, 0⟩
  GetPropsTrackers := fun _ => []
  GetPropsFiles := fun _ => []
  GetPreferencesSavePath := "/downloads"
  GetVersion := "v3.3"
  GetTransferInfo := ⟨0, 0, 0, 0⟩
  Login := fun u p => decide (u = "admin" ∧ p = "secret")

/-- A backend for the examples whose listing gains a second torrent at the fourth
listing request. -/
def lateBackend : Backend where
  GetTorrentList := fun n =>
    if n < 3 then [sampleTorrent "abc" "stalledDL"]
    else [sampleTorrent "abc" "stalledDL", sampleTorrent "def" "downloading"]
  GetPropsGeneral := sampleBackend.GetPropsGeneral
  GetPropsTrackers := fun _ => []
  GetPropsFiles := fun _ => []
  GetPreferencesSavePath := "/downloads"
  GetVersion := "v3.3"
  GetTransferInfo := ⟨0, 0, 0, 0⟩
  Login := fun _ _ => true

/-- The environment of the examples with a torrent-set request: files 1 and 2 wanted,
files 2 and 5 unwanted, on the id 1. -/
def setExt : Ext :=
  { sampleExt with
    Unmarshal := fun raw => if raw = "[1]" then some (.arr [.num 1]) else sampleExt.Unmarshal raw
    UnmarshalSetRequest := fun raw =>
      if raw = "files" then some ⟨some "[1]", some [1, 2], some [2, 5]⟩ else none }

/-- A general-properties record for the examples: no upload limit, a download limit. -/
def sampleProps : PropertiesGeneral :=
  ⟨"/downloads", 16384, 10, 4, 0, "", 0, "", 0, 0, 0, 0, 0, 0, -1, 5, 0⟩

/-- A connection with the given identity table, no login and no request sent. -/
def sampleConn (hashIds : List String) : Connection :=
  ⟨hashIds, ⟨false, false, "", ""⟩, []⟩

/-- A connection that requires auth and has `admin` / `secret` cached from a login. -/
def loggedInConn : Connection :=
  ⟨["abc"], ⟨true, true, "admin", "secret"⟩, []⟩

/-- A general-properties record whose `Pieces_have` lies beyond the byte slice of
`Pieces_num` pieces; it has the upload limit 3. -/
def panicProps : PropertiesGeneral :=
  ⟨"/downloads", 16384, 8, 16, 0, "", 0, "", 0, 0, 0, 0, 0, 0, 3, 5, 0⟩

/-- A general-properties record whose `Piece_size * Pieces_have` is `2^64`: the piece
size `2^62` and four pieces, all of them there. -/
def overflowProps : PropertiesGeneral :=
  ⟨"/downloads", 4611686018427387904, 4, 4, 0, "", 0, "", 0, 0, 0, 0, 0, 0, -1, -1, 0⟩

/-- The environment of the examples with a `torrent-get` request whose `arguments` do
not decode into a `GetRequest`, as `{"fields": 5}` does not: the body `get-bad`. -/
def abortExt : Ext :=
  { sampleExt with
    UnmarshalRPCRequest := fun raw =>
      if raw = "get-bad" then some ⟨"torrent-get", "bad", some (.num 7)⟩
      else sampleExt.UnmarshalRPCRequest raw }

/-- The environment of the examples with `url.ParseQuery` on a query whose `dn` value
holds the invalid escape `%zz`: the Go call returns the error `invalid URL escape`. -/
def escapeExt : Ext :=
  { sampleExt with
    ParseQuery := fun query =>
      if query = "xt=urn:btih:ABC&dn=%zz" then none else sampleExt.ParseQuery query }

/-- The magnet request of the examples for the hash `abc`. -/
def magnetAbc : TorrentAddRequest := ⟨none, some "magnet:?xt=urn:btih:ABC", none, none, none⟩

/-- The magnet request of the examples for the hash `def`, to be added paused. -/
def magnetDef : TorrentAddRequest :=
  ⟨none, some "magnet:?xt=urn:btih:DEF&dn=Film", none, none, some (.bool true)⟩

/-- The state of the examples after the submission of `magnetAbc`. -/
def sentAbc (be : Backend) : Connection :=
  PostForm (addInit be (sampleConn ["abc"])) "/command/download"
    [("urls", "magnet:?xt=urn:btih:ABC")]

/-- The state of the examples after the submission of `magnetDef`. -/
def sentDef (be : Backend) : Connection :=
  PostForm (addInit be (sampleConn ["abc"])) "/command/download"
    [("urls", "magnet:?xt=urn:btih:DEF&dn=Film")]

/-! # Properties -/

/-! ### The two loops -/

theorem forRange_succ {σ : Type} (n : Nat) (body : σ → Nat → Option σ) (s : σ) :
    forRange (n + 1) body s = (forRange n body s).bind fun t => body t n := by
  unfold forRange
  rw [List.range_succ, List.foldlM_append]
  cases List.foldlM body s (List.range n) <;> simp [List.foldlM]

/-- The first loop fills the leading `n` bytes and keeps the rest. -/
theorem fill_loop (arr : List Nat) (n : Nat) (hn : n ≤ arr.length) :
    ∃ r, forRange n (fun a i => storeByte a i 255) arr = some r ∧ r.length = arr.length ∧
      ∀ j, r.getD j 0 = if j < n then 255 else arr.getD j 0 := by
  induction n with
  | zero => exact ⟨arr, by simp [forRange], rfl, by simp⟩
  | succ n ih =>
    obtain ⟨r, hr, hlen, hget⟩ := ih (by omega)
    refine ⟨r.set n 255, ?_, by simp [hlen], ?_⟩
    · have hlt : n < r.length := by omega
      rw [forRange_succ, hr]
      simp [storeByte, hlt]
    · intro j
      have hj := hget j
      simp only [List.getD_eq_getElem?_getD, List.getElem?_set] at hj ⊢
      by_cases hjn : n = j
      · subst hjn
        have hlt : n < r.length := by omega
        simp [hlt]
      · rw [if_neg hjn, hj]
        by_cases h1 : j < n
        · rw [if_pos h1, if_pos (Nat.lt_succ_of_lt h1)]
        · have h2 : ¬ j < n + 1 := by omega
          rw [if_neg h1, if_neg h2]

theorem topBits_succ (c : Nat) : topBits (c + 1) = (topBits c ||| (128 >>> c)) % 256 := by
  simp [topBits, List.range_succ, List.foldl_append]

/-- The second loop touches byte `i` only. -/
theorem or_loop (arr : List Nat) (i c : Nat) (hi : i < arr.length) (h0 : arr.getD i 0 = 0) :
    ∃ r, forRange c (fun a k => orByte a i (128 >>> k)) arr = some r ∧ r.length = arr.length ∧
      ∀ j, r.getD j 0 = if j = i then topBits c else arr.getD j 0 := by
  induction c with
  | zero =>
    refine ⟨arr, by simp [forRange], rfl, ?_⟩
    intro j
    by_cases hj : j = i
    · subst hj
      rw [if_pos rfl, h0]
      rfl
    · simp [hj]
  | succ c ih =>
    obtain ⟨r, hr, hlen, hget⟩ := ih
    have hir : i < r.length := by omega
    refine ⟨r.set i ((r[i] ||| (128 >>> c)) % 256), ?_, by simp [hlen], ?_⟩
    · rw [forRange_succ, hr]
      simp [orByte, hir]
    · intro j
      have hri : r[i] = topBits c := by
        have := hget i
        simpa [List.getD_eq_getElem?_getD, hir] using this
      by_cases hj : j = i
      · subst hj
        simp [List.getD_eq_getElem?_getD, List.getElem?_set, hir, hri, topBits_succ]
      · have := hget j
        simp only [List.getD_eq_getElem?_getD, List.getElem?_set] at this ⊢
        simp [hj, Ne.symm hj, this]

theorem topBits_mask : ∀ r < 8, ∀ m < 8,
    (topBits r &&& (128 >>> m) != 0) = decide (m < r) := by decide

theorem full_mask : ∀ m < 8, (255 &&& (128 >>> m) != 0) = true := by decide

theorem topBits_lt : ∀ r < 8, topBits r < 256 := by decide

theorem replicate_zero_getD (n j : Nat) : (List.replicate n 0).getD j 0 = 0 := by
  rw [List.getD_eq_getElem?_getD, List.getElem?_replicate]
  split <;> rfl

/-- The bytes of `piecesBytes`, read position by position. -/
theorem piecesBytes_getD (total have_ : Int) (h0 : 0 ≤ have_) (h1 : have_ ≤ total) :
    ∃ bytes, piecesBytes total have_ = some bytes ∧
      bytes.length = ((total + 7) / 8).toNat ∧
      ∀ j, j < bytes.length → bytes.getD j 0 =
        if j < (have_ / 8).toNat then 255
        else if j = (have_ / 8).toNat then topBits (have_ % 8).toNat else 0 := by
  have hlen : (ceilDiv8 total).toNat = ((total + 7) / 8).toNat := by
    unfold ceilDiv8; congr 1; omega
  have hfb : (have_ / 8).toNat ≤ ((total + 7) / 8).toNat := by omega
  have hrem : have_.toNat - (have_ / 8).toNat * 8 = (have_ % 8).toNat := by omega
  obtain ⟨a1, ha1, hl1, hg1⟩ :=
    fill_loop (List.replicate ((total + 7) / 8).toNat 0) (have_ / 8).toNat (by simpa using hfb)
  have hl1' : a1.length = ((total + 7) / 8).toNat := by simpa using hl1
  by_cases hr : (have_ % 8).toNat = 0
  · refine ⟨a1, ?_, hl1', ?_⟩
    · simp only [piecesBytes, floorDiv8, hlen, ha1, Option.some_bind, hrem, hr]
      rfl
    · intro j hj
      rw [hg1 j, replicate_zero_getD, hr]
      by_cases hjf : j < (have_ / 8).toNat
      · rw [if_pos hjf, if_pos hjf]
      · rw [if_neg hjf, if_neg hjf]
        split <;> rfl
  · have hlt : (have_ / 8).toNat < a1.length := by omega
    have hz : a1.getD (have_ / 8).toNat 0 = 0 := by
      rw [hg1, replicate_zero_getD]
      simp
    obtain ⟨a2, ha2, hl2, hg2⟩ := or_loop a1 (have_ / 8).toNat (have_ % 8).toNat hlt hz
    refine ⟨a2, ?_, by omega, ?_⟩
    · simp only [piecesBytes, floorDiv8, hlen, ha1, Option.some_bind, hrem, ha2]
    · intro j _
      rw [hg2 j, hg1 j, replicate_zero_getD]
      by_cases hjf : j < (have_ / 8).toNat
      · have : j ≠ (have_ / 8).toNat := by omega
        rw [if_neg this, if_pos hjf, if_pos hjf]
      · rw [if_neg hjf, if_neg hjf]

/-- C1: for `0 <= have <= total` the encoder returns the base64 text of a slice of
`ceil(total/8)` bytes whose bit `k`, counted from the most significant bit of byte 0,
is set exactly when `k < have`. -/
theorem MakePiecesBitArray_bits (total have_ : Int) (h0 : 0 ≤ have_) (h1 : have_ ≤ total) :
    ∃ bytes : List Nat,
      piecesBytes total have_ = some bytes ∧
      MakePiecesBitArray total have_ = some (EncodeToString bytes) ∧
      (bytes.length : Int) = (total + 7) / 8 ∧
      (∀ j, j < bytes.length → bytes.getD j 0 < 256) ∧
      ∀ k : Nat, k < 8 * bytes.length → (pieceBit bytes k = true ↔ (k : Int) < have_) := by
  obtain ⟨bytes, hb, hlen, hget⟩ := piecesBytes_getD total have_ h0 h1
  have hr8 : (have_ % 8).toNat < 8 := by omega
  refine ⟨bytes, hb, ?_, by omega, ?_, ?_⟩
  · have hneg : ¬ (total < 0 ∨ have_ < 0) := by omega
    simp [MakePiecesBitArray, hneg, hb]
  · intro j hj
    rw [hget j hj]
    split
    · decide
    · split
      · exact topBits_lt _ hr8
      · decide
  · intro k hk
    have hk8 : k / 8 < bytes.length := by omega
    have hm : k % 8 < 8 := Nat.mod_lt _ (by decide)
    unfold pieceBit
    rw [hget (k / 8) hk8]
    by_cases hjf : k / 8 < (have_ / 8).toNat
    · rw [if_pos hjf, full_mask _ hm]
      simp only [true_iff]
      omega
    · rw [if_neg hjf]
      by_cases hje : k / 8 = (have_ / 8).toNat
      · rw [if_pos hje, topBits_mask _ hr8 _ hm]
        simp only [decide_eq_true_eq]
        omega
      · rw [if_neg hje]
        have : ¬ ((k : Int) < have_) := by omega
        simp [this]

/-- C1 at `total = 10`, `have = 10`: the bytes `0xFF, 0xC0`. -/
theorem MakePiecesBitArray_bits_witness :
    (0 : Int) ≤ 10 ∧ (10 : Int) ≤ 10 ∧ piecesBytes 10 10 = some [255, 192] ∧
      MakePiecesBitArray 10 10 = some "/8A=" ∧
      ∃ bytes : List Nat,
        piecesBytes 10 10 = some bytes ∧
        MakePiecesBitArray 10 10 = some (EncodeToString bytes) ∧
        (bytes.length : Int) = (10 + 7) / 8 ∧
        (∀ j, j < bytes.length → bytes.getD j 0 < 256) ∧
        ∀ k : Nat, k < 8 * bytes.length → (pieceBit bytes k = true ↔ (k : Int) < 10) :=
  ⟨by decide, by decide, by decide, by decide,
    MakePiecesBitArray_bits 10 10 (by decide) (by decide)⟩

/-! ### Maps -/

theorem mapGet_mapSet_same (m : JsonMap) (k : String) (v : JVal) :
    mapGet (mapSet m k v) k = some v := by
  simp [mapSet, mapGet]

theorem mapGet_mapDelete_ne (m : JsonMap) (k k1 : String) (h : k ≠ k1) :
    mapGet (mapDelete m k) k1 = mapGet m k1 := by
  induction m with
  | nil => rfl
  | cons e m ih =>
    obtain ⟨a, b⟩ := e
    by_cases ha : a = k
    · subst ha
      simp [mapDelete, mapGet, h] at ih ⊢
      exact ih
    · by_cases hb : a = k1
      · subst hb
        simp [mapDelete, mapGet, ha]
      · simp [mapDelete, mapGet, ha, hb] at ih ⊢
        exact ih

theorem mapGet_mapSet_ne (m : JsonMap) (k k1 : String) (v : JVal) (h : k ≠ k1) :
    mapGet (mapSet m k v) k1 = mapGet m k1 := by
  simp [mapSet, mapGet, h, mapGet_mapDelete_ne]

/-! ### The status mapping -/

theorem stateTriple_eq_ref (s : String) :
    (statusOfState s, errorOfState s, isStalledOfState s) = refTriple s := by
  by_cases h1 : s = "pausedUP"
  · subst h1; decide
  by_cases h2 : s = "pausedDL"
  · subst h2; decide
  by_cases h3 : s = "error"
  · subst h3; decide
  by_cases h4 : s = "checkingUP"
  · subst h4; decide
  by_cases h5 : s = "checkingDL"
  · subst h5; decide
  by_cases h6 : s = "queuedDL"
  · subst h6; decide
  by_cases h7 : s = "downloading"
  · subst h7; decide
  by_cases h8 : s = "stalledDL"
  · subst h8; decide
  by_cases h9 : s = "queuedUP"
  · subst h9; decide
  by_cases h10 : s = "uploading"
  · subst h10; decide
  by_cases h11 : s = "stalledUP"
  · subst h11; decide
  simp [statusOfState, errorOfState, isStalledOfState, refTriple, refStatusTable, List.find?, *]

theorem stateTriple_unknown (s : String) (h : s ∉ knownStates) :
    (statusOfState s, errorOfState s, isStalledOfState s) = (0, 0, false) := by
  simp only [knownStates, List.mem_cons, List.mem_singleton, List.not_mem_nil, not_or,
    or_false] at h
  simp [statusOfState, errorOfState, isStalledOfState, h]

/-- C2: the status mapping of `MapTorrentList` is the reference table: for every state
string the triple `(status, error, isStalled)` is the table's, an unlisted string
(the empty one too) gives `(0, 0, false)`, and these are the values that
`MapTorrentList` stores under `"status"`, `"error"` and `"isStalled"`. -/
theorem status_mapping_table (s : String) :
    (statusOfState s, errorOfState s, isStalledOfState s) = refTriple s ∧
    (s ∉ knownStates →
      (statusOfState s, errorOfState s, isStalledOfState s) = (0, 0, false)) ∧
    ∀ (ext : Ext) (c : Connection) (dst : JsonMap) (torrentsList : List TorrentsList) (id : Int),
      (findSrc c torrentsList id).State = s →
        mapGet (MapTorrentList ext c dst torrentsList id) "status"
            = some (.int (refTriple s).1) ∧
        mapGet (MapTorrentList ext c dst torrentsList id) "error"
            = some (.int (refTriple s).2.1) ∧
        mapGet (MapTorrentList ext c dst torrentsList id) "isStalled"
            = some (.bool (refTriple s).2.2) := by
  refine ⟨stateTriple_eq_ref s, stateTriple_unknown s, ?_⟩
  intro ext c dst torrentsList id hs
  rw [← stateTriple_eq_ref s, ← hs]
  refine ⟨?_, ?_, ?_⟩ <;>
    simp [MapTorrentList, mapGet_mapSet_ne, mapGet_mapSet_same]

/-- C2 on the empty state string and on a listing whose torrent is `"stalledDL"`. -/
theorem status_mapping_table_witness :
    ("" ∉ knownStates ∧
      (statusOfState "", errorOfState "", isStalledOfState "") = (0, 0, false)) ∧
    ((findSrc (sampleConn ["abc"]) [sampleTorrent "abc" "stalledDL"] 1).State = "stalledDL" ∧
      mapGet (MapTorrentList sampleExt (sampleConn ["abc"]) []
          [sampleTorrent "abc" "stalledDL"] 1) "status" = some (.int 4) ∧
      mapGet (MapTorrentList sampleExt (sampleConn ["abc"]) []
          [sampleTorrent "abc" "stalledDL"] 1) "error" = some (.int 0) ∧
      mapGet (MapTorrentList sampleExt (sampleConn ["abc"]) []
          [sampleTorrent "abc" "stalledDL"] 1) "isStalled" = some (.bool true)) :=
  ⟨⟨by decide, (status_mapping_table "").2.1 (by decide)⟩,
    ⟨by decide,
      (status_mapping_table "stalledDL").2.2 sampleExt (sampleConn ["abc"]) []
        [sampleTorrent "abc" "stalledDL"] 1 (by decide)⟩⟩

/-! ### Field projection -/

theorem Any_iff (fields : List String) (key : String) : Any fields key = true ↔ key ∈ fields := by
  simp [Any, List.any_eq_true]

theorem dropLoop_eq (fields : List String) (ks : List String) (m : JsonMap) :
    ks.foldl (fun m key => if !Any fields key then mapDelete m key else m) m
      = m.filter fun e => decide (e.1 ∈ ks → e.1 ∈ fields) := by
  induction ks generalizing m with
  | nil => simp
  | cons k ks ih =>
    rw [List.foldl_cons, ih]
    by_cases hk : k ∈ fields
    · have hA : Any fields k = true := (Any_iff fields k).2 hk
      simp only [hA, Bool.not_true, Bool.false_eq_true, if_false]
      apply List.filter_congr
      intro e _
      by_cases he : e.1 = k
      · simp [he, hk]
      · simp [he]
    · have hA : Any fields k = false := by
        rw [← Bool.not_eq_true, Any_iff]; exact hk
      simp only [hA, Bool.not_false, if_true, mapDelete, List.filter_filter]
      apply List.filter_congr
      intro e _
      by_cases he : e.1 = k
      · simp [he, hk]
      · simp [he]

theorem dropUnneeded_eq (fields : List String) (m : JsonMap) :
    dropUnneeded fields m = m.filter fun e => decide (e.1 ∈ fields) := by
  unfold dropUnneeded
  rw [dropLoop_eq]
  apply List.filter_congr
  intro e he
  have : e.1 ∈ mapKeys m := List.mem_map_of_mem _ he
  simp [this]

theorem mapGet_filter (p : String → Bool) (m : JsonMap) (k : String) :
    mapGet (m.filter fun e => p e.1) k = if p k then mapGet m k else none := by
  induction m with
  | nil => simp [mapGet]
  | cons e m ih =>
    obtain ⟨a, b⟩ := e
    by_cases ha : a = k
    · subst ha
      by_cases hp : p a
      · simp [List.filter, hp, mapGet]
      · simp [List.filter, hp, mapGet] at ih ⊢
        exact ih
    · by_cases hp : p a
      · simp [List.filter, hp, mapGet, ha] at ih ⊢
        exact ih
      · simp [List.filter, hp, mapGet, ha] at ih ⊢
        exact ih

theorem mapGet_dropUnneeded (fields : List String) (m : JsonMap) (k : String) :
    mapGet (dropUnneeded fields m) k = if k ∈ fields then mapGet m k else none := by
  rw [dropUnneeded_eq, mapGet_filter (fun a => decide (a ∈ fields))]
  simp

theorem mapKeys_dropUnneeded (fields : List String) (m : JsonMap) (k : String) :
    k ∈ mapKeys (dropUnneeded fields m) ↔ k ∈ fields ∧ k ∈ mapKeys m := by
  rw [dropUnneeded_eq]
  simp only [mapKeys, List.mem_map, List.mem_filter, decide_eq_true_eq]
  constructor
  · rintro ⟨e, ⟨he, hf⟩, rfl⟩
    exact ⟨hf, e, he, rfl⟩
  · rintro ⟨hf, e, he, rfl⟩
    exact ⟨e, ⟨he, hf⟩, rfl⟩

theorem mem_mapKeys_iff (m : JsonMap) (k : String) : k ∈ mapKeys m ↔ (mapGet m k).isSome := by
  induction m with
  | nil => simp [mapKeys, mapGet]
  | cons e m ih =>
    obtain ⟨a, b⟩ := e
    by_cases ha : a = k
    · simp [mapKeys, mapGet, ha]
    · simp only [mapKeys, List.map_cons, List.mem_cons, mapGet, ha, if_false] at ih ⊢
      rw [← ih]
      constructor
      · rintro (h | h)
        · exact absurd h.symm ha
        · exact h
      · exact Or.inr

theorem mapCheck_forall2 {α β : Type} (f : α → Option β) (l : List α) (r : List β)
    (h : mapCheck f l = some r) : List.Forall₂ (fun a b => f a = some b) l r := by
  induction l generalizing r with
  | nil =>
    simp only [mapCheck, Option.some.injEq] at h
    subst h
    exact List.Forall₂.nil
  | cons a l ih =>
    cases hfa : f a with
    | none => simp [mapCheck, hfa] at h
    | some b =>
      simp only [mapCheck, hfa, Option.map_eq_some'] at h
      obtain ⟨r1, hr1, rfl⟩ := h
      exact List.Forall₂.cons hfa (ih r1 hr1)

/-- C3: each torrent object that `TorrentGet` returns has as keys exactly the requested
names that are keys of the fully translated object of its id, with the values of that
object; `"hashString"` and `"status"` are always keys of the translated object. -/
theorem TorrentGet_projection (ext : Ext) (be : Backend) (c c1 : Connection) (args : String)
    (resp : JsonMap) (result : String)
    (h : TorrentGet ext be c args = some (c1, resp, result)) :
    ∃ (req : GetRequest) (ids : List Int) (objs : List JsonMap),
      ext.UnmarshalGetRequest args = some req ∧
      parseIDsArgument ext (listAndFill be c).1 req.Ids = some ids ∧
      resp = [("torrents", JVal.arr (objs.map JVal.obj))] ∧
      List.Forall₂
        (fun id obj => ∃ t : JsonMap,
          translate ext be (listAndFill be c).1 (listAndFill be c).2 id = some t ∧
          (mapGet t "hashString").isSome ∧ (mapGet t "status").isSome ∧
          mapGet t "id" = some (.int id) ∧
          (∀ k, k ∈ mapKeys obj ↔ k ∈ req.Fields ∧ k ∈ mapKeys t) ∧
          (∀ k, k ∉ req.Fields → mapGet obj k = none) ∧
          (∀ k, k ∈ req.Fields → mapGet obj k = mapGet t k))
        ids objs := by
  unfold TorrentGet at h
  cases hreq : ext.UnmarshalGetRequest args with
  | none => simp [hreq] at h
  | some req =>
    cases hids : parseIDsArgument ext (listAndFill be c).1 req.Ids with
    | none => simp [hreq, hids] at h
    | some ids =>
      simp only [hreq, hids, Option.some_bind, Option.map_eq_some'] at h
      obtain ⟨objs, hobjs, hres⟩ := h
      refine ⟨req, ids, objs, rfl, hids, ?_, ?_⟩
      · simp only [Option.some.injEq, Prod.mk.injEq] at hres
        exact hres.2.1.symm
      · refine List.Forall₂.imp ?_ (mapCheck_forall2 _ ids objs hobjs)
        intro id obj hobj
        simp only [Option.map_eq_some'] at hobj
        obtain ⟨t, ht, rfl⟩ := hobj
        refine ⟨t, ht, ?_, ?_, ?_, mapKeys_dropUnneeded req.Fields t, ?_, ?_⟩
        · simp only [translate, Option.map_eq_some'] at ht
          obtain ⟨g, hg, rfl⟩ := ht
          simp only [MapPropsGeneral, Option.map_eq_some'] at hg
          obtain ⟨pc, _, rfl⟩ := hg
          split_ifs <;>
            simp [MapPropsFiles, MapPropsTrackers, MapTorrentList, mapGet_mapSet_ne,
              mapGet_mapSet_same]
        · simp only [translate, Option.map_eq_some'] at ht
          obtain ⟨g, hg, rfl⟩ := ht
          simp only [MapPropsGeneral, Option.map_eq_some'] at hg
          obtain ⟨pc, _, rfl⟩ := hg
          split_ifs <;>
            simp [MapPropsFiles, MapPropsTrackers, MapTorrentList, mapGet_mapSet_ne,
              mapGet_mapSet_same]
        · simp only [translate, Option.map_eq_some'] at ht
          obtain ⟨g, _, rfl⟩ := ht
          exact mapGet_mapSet_same _ _ _
        · intro k hk
          rw [mapGet_dropUnneeded, if_neg hk]
        · intro k hk
          rw [mapGet_dropUnneeded, if_pos hk]

/-- C3 on the request for `["hashString", "status"]`: the object has these two keys only. -/
theorem TorrentGet_projection_witness :
    ∃ (c1 : Connection) (obj : JsonMap),
      TorrentGet sampleExt sampleBackend (sampleConn []) "two"
        = some (c1, [("torrents", JVal.arr [JVal.obj obj])], "success") ∧
      mapKeys obj = ["status", "hashString"] ∧
      ∃ (req : GetRequest) (ids : List Int) (objs : List JsonMap),
        sampleExt.UnmarshalGetRequest "two" = some req ∧
        parseIDsArgument sampleExt (listAndFill sampleBackend (sampleConn [])).1 req.Ids
          = some ids ∧
        [("torrents", JVal.arr [JVal.obj obj])] = [("torrents", JVal.arr (objs.map JVal.obj))] ∧
        List.Forall₂
          (fun id o => ∃ t : JsonMap,
            translate sampleExt sampleBackend (listAndFill sampleBackend (sampleConn [])).1
              (listAndFill sampleBackend (sampleConn [])).2 id = some t ∧
            (mapGet t "hashString").isSome ∧ (mapGet t "status").isSome ∧
            mapGet t "id" = some (.int id) ∧
            (∀ k, k ∈ mapKeys o ↔ k ∈ req.Fields ∧ k ∈ mapKeys t) ∧
            (∀ k, k ∉ req.Fields → mapGet o k = none) ∧
            (∀ k, k ∈ req.Fields → mapGet o k = mapGet t k))
          ids objs :=
  ⟨_, _, rfl, by decide,
    TorrentGet_projection sampleExt sampleBackend (sampleConn []) _ "two" _ "success" rfl⟩

/-! ### The identity table under reconcile -/

theorem FillIDs_nil (c : Connection) : FillIDs c [] = (c, []) := rfl

theorem fillLoop_inv (l : List TorrentsList) (acc : Connection × List String) :
    let r := l.foldl
      (fun (acc : Connection × List String) t =>
        match GetIdOfHash acc.1 t.Hash with
        | some _ => acc
        | none => ({ acc.1 with HashIds := acc.1.HashIds ++ [t.Hash] }, acc.2 ++ [t.Hash]))
      acc
    r.1.trace = acc.1.trace ∧ r.1.Auth = acc.1.Auth ∧
      (∃ ext, r.1.HashIds = acc.1.HashIds ++ ext) ∧
      ((∀ x ∈ acc.2, x ∈ acc.1.HashIds) → ∀ x ∈ r.2, x ∈ r.1.HashIds) := by
  induction l generalizing acc with
  | nil => exact ⟨rfl, rfl, ⟨[], by simp⟩, fun h => h⟩
  | cons t l ih =>
    simp only [List.foldl_cons]
    cases hg : GetIdOfHash acc.1 t.Hash with
    | some i => exact ih acc
    | none =>
      obtain ⟨h1, h2, ⟨e, h3⟩, h4⟩ :=
        ih ({ acc.1 with HashIds := acc.1.HashIds ++ [t.Hash] }, acc.2 ++ [t.Hash])
      refine ⟨h1, h2, ⟨[t.Hash] ++ e, by simp [h3]⟩, ?_⟩
      intro hacc
      apply h4
      intro x hx
      simp only [List.mem_append, List.mem_singleton] at hx ⊢
      rcases hx with hx | hx
      · exact Or.inl (hacc x hx)
      · exact Or.inr hx

theorem FillIDs_trace (c : Connection) (l : List TorrentsList) : (FillIDs c l).1.trace = c.trace :=
  (fillLoop_inv l (c, [])).1

theorem FillIDs_Auth (c : Connection) (l : List TorrentsList) : (FillIDs c l).1.Auth = c.Auth :=
  (fillLoop_inv l (c, [])).2.1

theorem FillIDs_new_mem (c : Connection) (l : List TorrentsList) (x : String)
    (hx : x ∈ (FillIDs c l).2) : x ∈ (FillIDs c l).1.HashIds :=
  (fillLoop_inv l (c, [])).2.2.2 (by simp) x hx

theorem GetIdOfHash_of_mem (c : Connection) (h : String) (hm : h ∈ c.HashIds) :
    ∃ id : Int, GetIdOfHash c h = some id ∧ 1 ≤ id ∧ GetHashForId c id = h := by
  refine ⟨(c.HashIds.indexOf h : Nat) + 1, by simp [GetIdOfHash, hm], by omega, ?_⟩
  have hlt : c.HashIds.indexOf h < c.HashIds.length := List.indexOf_lt_length.2 hm
  have h1 : (1 : Int) ≤ (c.HashIds.indexOf h : Nat) + 1 := by omega
  simp only [GetHashForId, h1, if_true]
  have : ((c.HashIds.indexOf h : Nat) + 1 - 1 : Int).toNat = c.HashIds.indexOf h := by omega
  rw [this, List.getD_eq_getElem?_getD, List.getElem?_eq_getElem hlt]
  simp

/-! ### Polling -/

theorem pollStep_trace (be : Backend) (c : Connection) :
    (pollStep be c).1.trace = c.trace ++ [Call.GetTorrentList] := by
  simp [pollStep, GetTorrentList, FillIDs_trace]

theorem afterAttempts_shift (be : Backend) (c : Connection) (k : Nat) :
    afterAttempts be c (k + 1) = afterAttempts be (pollStep be c).1 k := by
  induction k with
  | zero => rfl
  | succ k ih =>
    show (pollStep be (afterAttempts be c (k + 1))).1 = _
    rw [ih]
    rfl

theorem afterAttempts_trace (be : Backend) (c : Connection) (k : Nat) :
    (afterAttempts be c k).trace = c.trace ++ List.replicate k Call.GetTorrentList := by
  induction k with
  | zero => simp [afterAttempts]
  | succ k ih =>
    show (pollStep be (afterAttempts be c k)).1.trace = _
    rw [pollStep_trace, ih, List.replicate_succ', List.append_assoc]

theorem GetIdOfNewHash_not_mem (c : Connection) (l : List String) (h : String) (hm : h ∉ l) :
    GetIdOfNewHash c l h = none := by
  have : (l.any fun hash => hash == h) = false := by
    rw [← Bool.not_eq_true, List.any_eq_true]
    rintro ⟨x, hx, hxe⟩
    have hxh : x = h := by simpa using hxe
    exact hm (hxh ▸ hx)
  simp [GetIdOfNewHash, this]

theorem GetIdOfNewHash_mem (c : Connection) (l : List String) (h : String) (hm : h ∈ l) :
    GetIdOfNewHash c l h = GetIdOfHash c h := by
  have : (l.any fun hash => hash == h) = true := by
    rw [List.any_eq_true]
    exact ⟨h, hm, by simp⟩
  simp [GetIdOfNewHash, this]

/-- The loop gives up after `n` attempts when none of them reports the hash. -/
theorem pollNewId_fail (be : Backend) (h : String) (n : Nat) (c : Connection)
    (hnew : ∀ k, k < n → h ∉ newHashesAt be c k) :
    pollNewId be h n c = (afterAttempts be c n, -1) := by
  induction n generalizing c with
  | zero => rfl
  | succ n ih =>
    have h0 : h ∉ (pollStep be c).2 := hnew 0 (Nat.succ_pos n)
    have hrest : ∀ k, k < n → h ∉ newHashesAt be (pollStep be c).1 k := by
      intro k hk
      have := hnew (k + 1) (Nat.succ_lt_succ hk)
      simpa [newHashesAt, afterAttempts_shift] using this
    simp only [pollNewId, GetIdOfNewHash_not_mem _ _ _ h0]
    rw [ih _ hrest, afterAttempts_shift]

/-- The loop stops at the first attempt that reports the hash. -/
theorem pollNewId_found (be : Backend) (h : String) (n k : Nat) (c : Connection)
    (hk : k < n) (hbefore : ∀ j, j < k → h ∉ newHashesAt be c j)
    (hat : h ∈ newHashesAt be c k) :
    ∃ id : Int, pollNewId be h n c = (afterAttempts be c (k + 1), id) ∧
      GetIdOfHash (afterAttempts be c (k + 1)) h = some id ∧ 1 ≤ id := by
  induction k generalizing n c with
  | zero =>
    obtain ⟨n, rfl⟩ : ∃ m, n = m + 1 := ⟨n - 1, by omega⟩
    have hmem : h ∈ (pollStep be c).1.HashIds := by
      unfold pollStep
      exact FillIDs_new_mem _ _ _ hat
    obtain ⟨id, hid, hpos, _⟩ := GetIdOfHash_of_mem _ _ hmem
    refine ⟨id, ?_, hid, hpos⟩
    have hat' : h ∈ (pollStep be c).2 := hat
    simp only [pollNewId, GetIdOfNewHash_mem _ _ _ hat', hid]
    rfl
  | succ k ih =>
    obtain ⟨n, rfl⟩ : ∃ m, n = m + 1 := ⟨n - 1, by omega⟩
    have h0 : h ∉ (pollStep be c).2 := hbefore 0 (Nat.succ_pos k)
    have hrest : ∀ j, j < k → h ∉ newHashesAt be (pollStep be c).1 j := by
      intro j hj
      have := hbefore (j + 1) (Nat.succ_lt_succ hj)
      simpa [newHashesAt, afterAttempts_shift] using this
    have hat' : h ∈ newHashesAt be (pollStep be c).1 k := by
      simpa [newHashesAt, afterAttempts_shift] using hat
    obtain ⟨id, hp, hid, hpos⟩ := ih n (pollStep be c).1 (by omega) hrest hat'
    refine ⟨id, ?_, ?_, hpos⟩
    · simp only [pollNewId, GetIdOfNewHash_not_mem _ _ _ h0]
      rw [hp, afterAttempts_shift be c (k + 1)]
    · rw [afterAttempts_shift be c (k + 1)]
      exact hid

/-- The loop never makes more than its `n` attempts. -/
theorem pollNewId_bound (be : Backend) (h : String) (n : Nat) (c : Connection) :
    ∃ j, j ≤ n ∧ (pollNewId be h n c).1 = afterAttempts be c j := by
  induction n generalizing c with
  | zero => exact ⟨0, le_refl 0, rfl⟩
  | succ n ih =>
    cases hg : GetIdOfNewHash (pollStep be c).1 (pollStep be c).2 h with
    | some id =>
      refine ⟨1, by omega, ?_⟩
      simp only [pollNewId, hg]
      rfl
    | none =>
      obtain ⟨j, hj, he⟩ := ih (pollStep be c).1
      refine ⟨j + 1, by omega, ?_⟩
      simp only [pollNewId, hg]
      rw [he, afterAttempts_shift]

/-! ### Adding a torrent -/

/-- What the submission leaves: the table and the login untouched, and at most one
request, an upload or a download, sent exactly when the request has one of the three
forms. -/
theorem submitTorrent_calls (ext : Ext) (c c0 : Connection) (req : TorrentAddRequest)
    (h n : String) (hs : submitTorrent ext c req = some (c0, h, n)) :
    c0.HashIds = c.HashIds ∧ c0.Auth = c.Auth ∧
      ∃ sub, c0.trace = c.trace ++ sub ∧ mutations sub = sub ∧
        (isAddForm req = false → sub = []) ∧
        (isAddForm req = true → ∃ call, sub = [call] ∧
          (callPath call = "/command/upload" ∨ callPath call = "/command/download")) := by
  unfold submitTorrent at hs
  cases hm : req.Metainfo with
  | some text =>
    simp only [hm, Option.map_eq_some'] at hs
    obtain ⟨data, _, hd⟩ := hs
    simp only [Prod.mk.injEq] at hd
    obtain ⟨rfl, _, _⟩ := hd
    refine ⟨rfl, rfl, _, rfl, rfl, by simp [isAddForm, hm], fun _ => ⟨_, rfl, Or.inl rfl⟩⟩
  | none =>
    cases hf : req.Filename with
    | none =>
      simp only [hm, hf, Option.some.injEq, Prod.mk.injEq] at hs
      obtain ⟨rfl, _, _⟩ := hs
      exact ⟨rfl, rfl, [], by simp, rfl, fun _ => rfl, by simp [isAddForm, hm, hf]⟩
    | some path =>
      simp only [hm, hf] at hs
      by_cases hmag : startsWith path "magnet:?" = true
      · simp only [hmag, if_true, Option.map_eq_some'] at hs
        obtain ⟨parsed, _, hp⟩ := hs
        cases hdir : req.Download_dir with
        | none =>
          simp only [hdir, Prod.mk.injEq] at hp
          obtain ⟨rfl, _, _⟩ := hp
          exact ⟨rfl, rfl, _, rfl, rfl, by simp [isAddForm, hm, hf, hmag],
            fun _ => ⟨_, rfl, Or.inr rfl⟩⟩
        | some dir =>
          simp only [hdir, Prod.mk.injEq] at hp
          obtain ⟨rfl, _, _⟩ := hp
          exact ⟨rfl, rfl, _, rfl, rfl, by simp [isAddForm, hm, hf, hmag],
            fun _ => ⟨_, rfl, Or.inr rfl⟩⟩
      · by_cases hhttp : startsWith path "http" = true
        · simp only [hmag, hhttp, if_true, if_false, Option.some.injEq, Prod.mk.injEq] at hs
          obtain ⟨rfl, _, _⟩ := hs
          exact ⟨rfl, rfl, _, rfl, rfl, by simp [isAddForm, hm, hf, hhttp],
            fun _ => ⟨_, rfl, Or.inl rfl⟩⟩
        · simp only [hmag, hhttp, if_false, Option.some.injEq, Prod.mk.injEq] at hs
          obtain ⟨rfl, _, _⟩ := hs
          exact ⟨rfl, rfl, [], by simp, rfl, fun _ => rfl,
            by simp [isAddForm, hm, hf, hmag, hhttp]⟩

/-- Which request the submission sends for each form: an upload for metainfo, a download
for a magnet link, an upload for a URL. -/
theorem submitTorrent_form (ext : Ext) (c c0 : Connection) (req : TorrentAddRequest)
    (h n : String) (hs : submitTorrent ext c req = some (c0, h, n)) :
    (∀ text, req.Metainfo = some text →
      ∃ body, c0.trace = c.trace ++ [Call.DoPOST "/command/upload" body]) ∧
    (∀ path, req.Metainfo = none → req.Filename = some path →
      startsWith path "magnet:?" = true →
      ∃ params, c0.trace = c.trace ++ [Call.PostForm "/command/download" params]) ∧
    (∀ path, req.Metainfo = none → req.Filename = some path →
      startsWith path "magnet:?" = false → startsWith path "http" = true →
      ∃ body, c0.trace = c.trace ++ [Call.DoPOST "/command/upload" body]) := by
  unfold submitTorrent at hs
  refine ⟨?_, ?_, ?_⟩
  · intro text hm
    simp only [hm, Option.map_eq_some'] at hs
    obtain ⟨data, _, hd⟩ := hs
    simp only [Prod.mk.injEq] at hd
    obtain ⟨rfl, _, _⟩ := hd
    exact ⟨_, rfl⟩
  · intro path hm hf hmag
    simp only [hm, hf, hmag, if_true, Option.map_eq_some'] at hs
    obtain ⟨parsed, _, hp⟩ := hs
    cases hdir : req.Download_dir with
    | none =>
      simp only [hdir, Prod.mk.injEq] at hp
      obtain ⟨rfl, _, _⟩ := hp
      exact ⟨_, rfl⟩
    | some dir =>
      simp only [hdir, Prod.mk.injEq] at hp
      obtain ⟨rfl, _, _⟩ := hp
      exact ⟨_, rfl⟩
  · intro path hm hf hmag hhttp
    simp only [hm, hf, hmag, hhttp, if_true, Bool.false_eq_true, if_false, Option.some.injEq,
      Prod.mk.injEq] at hs
    obtain ⟨rfl, _, _⟩ := hs
    exact ⟨_, rfl⟩

theorem addInit_trace (be : Backend) (c : Connection) :
    (addInit be c).trace = c.trace ++ [Call.GetTorrentList] := by
  simp [addInit, GetTorrentList, FillIDs_trace]

theorem GetIdOfHash_congr (c c0 : Connection) (h : String) (he : c0.HashIds = c.HashIds) :
    GetIdOfHash c0 h = GetIdOfHash c h := by
  simp [GetIdOfHash, he]

theorem mutations_append (l1 l2 : List Call) :
    mutations (l1 ++ l2) = mutations l1 ++ mutations l2 := by
  simp [mutations]

theorem mutations_listings (j : Nat) : mutations (List.replicate j Call.GetTorrentList) = [] := by
  induction j with
  | zero => rfl
  | succ j ih =>
    rw [List.replicate_succ]
    simp only [mutations, List.filter_cons] at ih ⊢
    exact ih

/-- The trace after the submission, from the start of `TorrentAdd`: the first listing
and then the request of the submission, an upload or a download, when there is one. -/
theorem submitted_trace (ext : Ext) (be : Backend) (c c0 : Connection) (req : TorrentAddRequest)
    (h n : String) (hsub : submitTorrent ext (addInit be c) req = some (c0, h, n)) :
    ∃ sub : List Call, c0.trace = c.trace ++ [Call.GetTorrentList] ++ sub ∧
      mutations sub = sub ∧
      ∀ call ∈ sub, callPath call = "/command/upload" ∨ callPath call = "/command/download" := by
  obtain ⟨_, _, sub, htr, hmut, hno, hyes⟩ := submitTorrent_calls ext _ c0 req h n hsub
  refine ⟨sub, by rw [htr, addInit_trace], hmut, ?_⟩
  intro call hcall
  cases hform : isAddForm req with
  | false =>
    rw [hno hform] at hcall
    simp at hcall
  | true =>
    obtain ⟨call1, hs1, hp⟩ := hyes hform
    rw [hs1, List.mem_singleton] at hcall
    subst hcall
    exact hp

/-- The answer of `TorrentAdd` when the hash is known after the initial reconcile. -/
theorem TorrentAdd_known (ext : Ext) (be : Backend) (c c0 : Connection) (args : String)
    (req : TorrentAddRequest) (h n : String) (id : Int)
    (hreq : ext.UnmarshalTorrentAddRequest args = some req)
    (hsub : submitTorrent ext (addInit be c) req = some (c0, h, n))
    (hknown : GetIdOfHash (addInit be c) h = some id) :
    TorrentAdd ext be c args
      = some (c0, [("torrent-duplicate", JVal.obj (torrentRef id n h))], "success") := by
  have hid : GetIdOfHash c0 h = some id := by
    rw [GetIdOfHash_congr (addInit be c) c0 h (submitTorrent_calls ext _ c0 req h n hsub).1]
    exact hknown
  simp [TorrentAdd, hreq, hsub, hid]

/-- The answer of `TorrentAdd` when the hash is unknown after the initial reconcile:
what follows the polling loop. -/
theorem TorrentAdd_unknown (ext : Ext) (be : Backend) (c c0 : Connection) (args : String)
    (req : TorrentAddRequest) (h n : String)
    (hreq : ext.UnmarshalTorrentAddRequest args = some req)
    (hsub : submitTorrent ext (addInit be c) req = some (c0, h, n))
    (hunk : GetIdOfHash (addInit be c) h = none) :
    TorrentAdd ext be c args = some
      (if (pollNewId be h 100 c0).2 = -1 then
        ((pollNewId be h 100 c0).1, [], "Torrent-add timeout")
      else
        (PostForm (pollNewId be h 100 c0).1
            (if pausedOf req.Paused then "/command/pause" else "/command/resume") [("hash", h)],
          [("torrent-added", JVal.obj (torrentRef (pollNewId be h 100 c0).2 n h))],
          "success")) := by
  have hid : GetIdOfHash c0 h = none := by
    rw [GetIdOfHash_congr (addInit be c) c0 h (submitTorrent_calls ext _ c0 req h n hsub).1]
    exact hunk
  simp only [TorrentAdd, hreq, hsub, hid, Option.some_bind, Option.map_some']
  congr 1
  split_ifs <;> rfl

theorem count_listing_mutations (l : List Call) (h : mutations l = l) :
    l.count Call.GetTorrentList = 0 := by
  rw [List.count_eq_zero]
  intro hm
  rw [← h] at hm
  simp [mutations, List.mem_filter] at hm

theorem count_listing_replicate (j : Nat) :
    (List.replicate j Call.GetTorrentList).count Call.GetTorrentList = j := by
  simp

/-- Every run of `TorrentAdd` requests one listing at its start and at most 100 more. -/
theorem TorrentAdd_listings (ext : Ext) (be : Backend) (c : Connection) (args : String)
    (r : Connection × JsonMap × String) (hr : TorrentAdd ext be c args = some r) :
    r.1.trace.count Call.GetTorrentList ≤ c.trace.count Call.GetTorrentList + 1 + 100 := by
  unfold TorrentAdd at hr
  cases hreq : ext.UnmarshalTorrentAddRequest args with
  | none => simp [hreq] at hr
  | some req =>
    cases hsub : submitTorrent ext (addInit be c) req with
    | none => simp [hreq, hsub] at hr
    | some s =>
      obtain ⟨c0, h, n⟩ := s
      obtain ⟨_, _, sub, htr, hmut, _, _⟩ := submitTorrent_calls ext _ c0 req h n hsub
      have hc0 : c0.trace.count Call.GetTorrentList = c.trace.count Call.GetTorrentList + 1 := by
        rw [htr, addInit_trace]
        simp [List.count_append, count_listing_mutations sub hmut]
      cases hid : GetIdOfHash c0 h with
      | some id =>
        simp only [hreq, hsub, hid, Option.some_bind, Option.map_some',
          Option.some.injEq] at hr
        subst hr
        simp only [hc0]
        omega
      | none =>
        simp only [hreq, hsub, hid, Option.some_bind, Option.map_some',
          Option.some.injEq] at hr
        obtain ⟨j, hj, hp⟩ := pollNewId_bound be h 100 c0
        have hpc : (pollNewId be h 100 c0).1.trace.count Call.GetTorrentList
            = c.trace.count Call.GetTorrentList + 1 + j := by
          rw [hp, afterAttempts_trace, List.count_append, hc0, count_listing_replicate]
        subst hr
        split_ifs
        · simp only [hpc]
          omega
        · simp only [PostForm, List.count_append, hpc]
          simp
          omega
        · simp only [PostForm, List.count_append, hpc]
          simp
          omega

/-- C4, as the code has it: when the resolved hash is known after the initial
reconcile, `TorrentAdd` has already sent the submission of the request, exactly one
request for each of the three forms (`/command/upload` for metainfo and for a URL,
`/command/download` for a magnet link) and none for a request of no form, and it sends
nothing else: no pause, no resume, no listing. -/
theorem TorrentAdd_duplicate_calls (ext : Ext) (be : Backend) (c c0 : Connection)
    (args : String) (req : TorrentAddRequest) (h n : String) (id : Int)
    (hreq : ext.UnmarshalTorrentAddRequest args = some req)
    (hsub : submitTorrent ext (addInit be c) req = some (c0, h, n))
    (hknown : GetIdOfHash (addInit be c) h = some id) :
    ∃ (resp : JsonMap) (sub : List Call),
      TorrentAdd ext be c args = some (c0, resp, "success") ∧
      c0.trace = c.trace ++ [Call.GetTorrentList] ++ sub ∧
      mutations sub = sub ∧
      (∀ call ∈ sub, callPath call ≠ "/command/pause" ∧ callPath call ≠ "/command/resume") ∧
      (isAddForm req = true → ∃ call, sub = [call] ∧
        (callPath call = "/command/upload" ∨ callPath call = "/command/download")) ∧
      (isAddForm req = false → sub = []) ∧
      (∀ text, req.Metainfo = some text →
        ∃ body, sub = [Call.DoPOST "/command/upload" body]) ∧
      (∀ path, req.Metainfo = none → req.Filename = some path →
        startsWith path "magnet:?" = true →
        ∃ params, sub = [Call.PostForm "/command/download" params]) ∧
      (∀ path, req.Metainfo = none → req.Filename = some path →
        startsWith path "magnet:?" = false → startsWith path "http" = true →
        ∃ body, sub = [Call.DoPOST "/command/upload" body]) := by
  obtain ⟨_, _, sub, htr, hmut, hno, hyes⟩ := submitTorrent_calls ext _ c0 req h n hsub
  obtain ⟨hmeta, hmagnet, hurl⟩ := submitTorrent_form ext _ c0 req h n hsub
  refine ⟨_, sub, TorrentAdd_known ext be c c0 args req h n id hreq hsub hknown, ?_, hmut, ?_,
    hyes, hno, ?_, ?_, ?_⟩
  · rw [htr, addInit_trace]
  · intro call hcall
    cases hform : isAddForm req with
    | false =>
      rw [hno hform] at hcall
      simp at hcall
    | true =>
      obtain ⟨call1, hs1, hp⟩ := hyes hform
      rw [hs1, List.mem_singleton] at hcall
      subst hcall
      rcases hp with hp | hp <;> rw [hp] <;> exact ⟨by decide, by decide⟩
  · intro text hm
    obtain ⟨body, hb⟩ := hmeta text hm
    exact ⟨body, List.append_cancel_left (htr.symm.trans hb)⟩
  · intro path hm hf hmag
    obtain ⟨params, hb⟩ := hmagnet path hm hf hmag
    exact ⟨params, List.append_cancel_left (htr.symm.trans hb)⟩
  · intro path hm hf hmag hhttp
    obtain ⟨body, hb⟩ := hurl path hm hf hmag hhttp
    exact ⟨body, List.append_cancel_left (htr.symm.trans hb)⟩

/-- C4 refuted as stated: a magnet link whose hash `abc` is already in the table is
still posted to `/command/download`. -/
theorem TorrentAdd_duplicate_submits :
    GetIdOfHash (sampleConn ["abc"]) "abc" = some 1 ∧
    GetIdOfHash (addInit sampleBackend (sampleConn ["abc"])) "abc" = some 1 ∧
    (submitTorrent sampleExt (addInit sampleBackend (sampleConn ["abc"]))
        ⟨none, some "magnet:?xt=urn:btih:ABC", none, none, none⟩).map (fun r => r.2)
      = some ("abc", "Torrent name") ∧
    (TorrentAdd sampleExt sampleBackend (sampleConn ["abc"]) "magnet-abc").map
        (fun r => (mutations r.1.trace, r.2.2))
      = some ([Call.PostForm "/command/download" [("urls", "magnet:?xt=urn:btih:ABC")]],
          "success") ∧
    (TorrentAdd sampleExt sampleBackend (sampleConn ["abc"]) "magnet-abc").map
        (fun r => mutations r.1.trace) ≠ some [] := by
  decide

/-- C4, as the code has it, on the magnet link of a known hash. -/
theorem TorrentAdd_duplicate_calls_witness :
    (sampleExt.UnmarshalTorrentAddRequest "magnet-abc" = some magnetAbc ∧
      submitTorrent sampleExt (addInit sampleBackend (sampleConn ["abc"])) magnetAbc
        = some (sentAbc sampleBackend, "abc", "Torrent name") ∧
      GetIdOfHash (addInit sampleBackend (sampleConn ["abc"])) "abc" = some 1) ∧
    ∃ (resp : JsonMap) (sub : List Call),
      TorrentAdd sampleExt sampleBackend (sampleConn ["abc"]) "magnet-abc"
        = some (sentAbc sampleBackend, resp, "success") ∧
      (sentAbc sampleBackend).trace = (sampleConn ["abc"]).trace ++ [Call.GetTorrentList] ++ sub ∧
      mutations sub = sub ∧
      (∀ call ∈ sub, callPath call ≠ "/command/pause" ∧ callPath call ≠ "/command/resume") ∧
      (isAddForm magnetAbc = true → ∃ call, sub = [call] ∧
        (callPath call = "/command/upload" ∨ callPath call = "/command/download")) ∧
      (isAddForm magnetAbc = false → sub = []) ∧
      (∀ text, magnetAbc.Metainfo = some text →
        ∃ body, sub = [Call.DoPOST "/command/upload" body]) ∧
      (∀ path, magnetAbc.Metainfo = none → magnetAbc.Filename = some path →
        startsWith path "magnet:?" = true →
        ∃ params, sub = [Call.PostForm "/command/download" params]) ∧
      (∀ path, magnetAbc.Metainfo = none → magnetAbc.Filename = some path →
        startsWith path "magnet:?" = false → startsWith path "http" = true →
        ∃ body, sub = [Call.DoPOST "/command/upload" body]) :=
  ⟨⟨rfl, by decide, by decide⟩,
    TorrentAdd_duplicate_calls sampleExt sampleBackend (sampleConn ["abc"]) (sentAbc sampleBackend)
      "magnet-abc" magnetAbc "abc" "Torrent name" 1 rfl (by decide) (by decide)⟩

/-- C5: when the resolved hash is known after the initial reconcile, `TorrentAdd` answers
`"success"` with the single key `"torrent-duplicate"` holding the id of the hash, the
parsed name and the hash; it requests no further listing and the identity table is the
one the initial reconcile left. -/
theorem TorrentAdd_duplicate_result (ext : Ext) (be : Backend) (c c0 : Connection)
    (args : String) (req : TorrentAddRequest) (h n : String) (id : Int)
    (hreq : ext.UnmarshalTorrentAddRequest args = some req)
    (hsub : submitTorrent ext (addInit be c) req = some (c0, h, n))
    (hknown : GetIdOfHash (addInit be c) h = some id) :
    TorrentAdd ext be c args
      = some (c0,
          [("torrent-duplicate",
            JVal.obj [("id", .int id), ("name", .str n), ("hashString", .str h)])],
          "success") ∧
    c0.HashIds = (addInit be c).HashIds ∧
    c0.trace.count Call.GetTorrentList = c.trace.count Call.GetTorrentList + 1 := by
  obtain ⟨hids, _, sub, htr, hmut, _, _⟩ := submitTorrent_calls ext _ c0 req h n hsub
  refine ⟨TorrentAdd_known ext be c c0 args req h n id hreq hsub hknown, hids, ?_⟩
  rw [htr, addInit_trace]
  simp [List.count_append, count_listing_mutations sub hmut]

/-- C5 on the magnet link of a known hash. -/
theorem TorrentAdd_duplicate_result_witness :
    (sampleExt.UnmarshalTorrentAddRequest "magnet-abc" = some magnetAbc ∧
      submitTorrent sampleExt (addInit sampleBackend (sampleConn ["abc"])) magnetAbc
        = some (sentAbc sampleBackend, "abc", "Torrent name") ∧
      GetIdOfHash (addInit sampleBackend (sampleConn ["abc"])) "abc" = some 1) ∧
    TorrentAdd sampleExt sampleBackend (sampleConn ["abc"]) "magnet-abc"
      = some (sentAbc sampleBackend,
          [("torrent-duplicate",
            JVal.obj [("id", .int 1), ("name", .str "Torrent name"),
              ("hashString", .str "abc")])],
          "success") ∧
    (sentAbc sampleBackend).HashIds = (addInit sampleBackend (sampleConn ["abc"])).HashIds ∧
    (sentAbc sampleBackend).trace.count Call.GetTorrentList
      = (sampleConn ["abc"]).trace.count Call.GetTorrentList + 1 :=
  ⟨⟨rfl, by decide, by decide⟩,
    TorrentAdd_duplicate_result sampleExt sampleBackend (sampleConn ["abc"])
      (sentAbc sampleBackend) "magnet-abc" magnetAbc "abc" "Torrent name" 1 rfl (by decide)
      (by decide)⟩

/-- C6: when the hash is unknown after the initial reconcile and no polling attempt
reports it as newly assigned, `TorrentAdd` makes exactly 100 attempts, one listing and
one reconcile each, and answers `"Torrent-add timeout"` with an empty arguments object;
beyond the first listing and the submission it sends nothing but these 100 listings, so
no pause and no resume; and no run of `TorrentAdd` requests more than its first listing
and 100 polling listings. -/
theorem TorrentAdd_timeout (ext : Ext) (be : Backend) (c c0 : Connection)
    (args : String) (req : TorrentAddRequest) (h n : String)
    (hreq : ext.UnmarshalTorrentAddRequest args = some req)
    (hsub : submitTorrent ext (addInit be c) req = some (c0, h, n))
    (hunk : GetIdOfHash (addInit be c) h = none)
    (hnew : ∀ k, k < 100 → h ∉ newHashesAt be c0 k) :
    TorrentAdd ext be c args = some (afterAttempts be c0 100, [], "Torrent-add timeout") ∧
    (∃ sub : List Call,
      (afterAttempts be c0 100).trace
        = c.trace ++ [Call.GetTorrentList] ++ sub ++ List.replicate 100 Call.GetTorrentList ∧
      mutations (afterAttempts be c0 100).trace = mutations c.trace ++ sub ∧
      ∀ call ∈ sub, callPath call = "/command/upload" ∨ callPath call = "/command/download") ∧
    ∀ (ext1 : Ext) (be1 : Backend) (c1 : Connection) (args1 : String)
      (r : Connection × JsonMap × String), TorrentAdd ext1 be1 c1 args1 = some r →
      r.1.trace.count Call.GetTorrentList ≤ c1.trace.count Call.GetTorrentList + 1 + 100 := by
  obtain ⟨sub, htr, hmut, hpaths⟩ := submitted_trace ext be c c0 req h n hsub
  refine ⟨?_, ⟨sub, ?_, ?_, hpaths⟩, TorrentAdd_listings⟩
  · rw [TorrentAdd_unknown ext be c c0 args req h n hreq hsub hunk,
      pollNewId_fail be h 100 c0 hnew]
    rfl
  · rw [afterAttempts_trace, htr]
  · rw [afterAttempts_trace, htr]
    have h1 : mutations [Call.GetTorrentList] = [] := rfl
    simp only [mutations_append, mutations_listings, List.append_nil, hmut, h1]

/-- C7: when the hash is unknown after the initial reconcile and attempt `k + 1` is the
first to report it as newly assigned, `TorrentAdd` stops polling there, sends one
control request keyed by the hash, `/command/pause` exactly when `paused` is `true` or
a non-zero number and `/command/resume` otherwise, and answers `"success"` with
`"torrent-added"` holding the id of the hash, the name and the hash. -/
theorem TorrentAdd_added (ext : Ext) (be : Backend) (c c0 : Connection)
    (args : String) (req : TorrentAddRequest) (h n : String) (k : Nat)
    (hreq : ext.UnmarshalTorrentAddRequest args = some req)
    (hsub : submitTorrent ext (addInit be c) req = some (c0, h, n))
    (hunk : GetIdOfHash (addInit be c) h = none)
    (hk : k < 100)
    (hbefore : ∀ j, j < k → h ∉ newHashesAt be c0 j)
    (hat : h ∈ newHashesAt be c0 k) :
    ∃ (id : Int) (path : String) (sub : List Call),
      GetIdOfHash (afterAttempts be c0 (k + 1)) h = some id ∧
      TorrentAdd ext be c args
        = some (PostForm (afterAttempts be c0 (k + 1)) path [("hash", h)],
            [("torrent-added",
              JVal.obj [("id", .int id), ("name", .str n), ("hashString", .str h)])],
            "success") ∧
      (PostForm (afterAttempts be c0 (k + 1)) path [("hash", h)]).trace
        = c.trace ++ [Call.GetTorrentList] ++ sub ++ List.replicate (k + 1) Call.GetTorrentList
            ++ [Call.PostForm path [("hash", h)]] ∧
      (∀ call ∈ sub, callPath call = "/command/upload" ∨ callPath call = "/command/download") ∧
      (path = "/command/pause" ∨ path = "/command/resume") ∧
      (path = "/command/pause" ↔
        (req.Paused = some (.bool true) ∨ ∃ q : Rat, q ≠ 0 ∧ req.Paused = some (.num q))) := by
  obtain ⟨id, hp, hid, hpos⟩ := pollNewId_found be h 100 k c0 hk hbefore hat
  obtain ⟨sub, htr, _, hpaths⟩ := submitted_trace ext be c c0 req h n hsub
  have hne : ¬ id = -1 := by omega
  refine ⟨id, if pausedOf req.Paused then "/command/pause" else "/command/resume", sub, hid,
    ?_, ?_, hpaths, ?_, ?_⟩
  · rw [TorrentAdd_unknown ext be c c0 args req h n hreq hsub hunk, hp]
    simp only [hne, if_false]
    rfl
  · simp only [PostForm, afterAttempts_trace, htr]
  · split_ifs
    · exact Or.inl rfl
    · exact Or.inr rfl
  · cases hpa : req.Paused with
    | none => simp [pausedOf]
    | some v =>
      cases v with
      | bool b => cases b <;> simp [pausedOf]
      | num q =>
        by_cases hq : q = 0
        · simp [pausedOf, hq]
        · simp [pausedOf, hq]
      | _ => simp [pausedOf]

set_option maxRecDepth 100000 in
/-- C6 on a backend that never lists the hash `def`. -/
theorem TorrentAdd_timeout_witness :
    (sampleExt.UnmarshalTorrentAddRequest "magnet-def" = some magnetDef ∧
      submitTorrent sampleExt (addInit sampleBackend (sampleConn ["abc"])) magnetDef
        = some (sentDef sampleBackend, "def", "Film") ∧
      GetIdOfHash (addInit sampleBackend (sampleConn ["abc"])) "def" = none ∧
      ∀ k, k < 100 → "def" ∉ newHashesAt sampleBackend (sentDef sampleBackend) k) ∧
    (TorrentAdd sampleExt sampleBackend (sampleConn ["abc"]) "magnet-def").map
        (fun r => (mutations r.1.trace, r.1.trace.count Call.GetTorrentList, r.2.2))
      = some ([Call.PostForm "/command/download" [("urls", "magnet:?xt=urn:btih:DEF&dn=Film")]],
          101, "Torrent-add timeout") ∧
    TorrentAdd sampleExt sampleBackend (sampleConn ["abc"]) "magnet-def"
      = some (afterAttempts sampleBackend (sentDef sampleBackend) 100, [],
          "Torrent-add timeout") ∧
    (∃ sub : List Call,
      (afterAttempts sampleBackend (sentDef sampleBackend) 100).trace
        = (sampleConn ["abc"]).trace ++ [Call.GetTorrentList] ++ sub
            ++ List.replicate 100 Call.GetTorrentList ∧
      mutations (afterAttempts sampleBackend (sentDef sampleBackend) 100).trace
        = mutations (sampleConn ["abc"]).trace ++ sub ∧
      ∀ call ∈ sub, callPath call = "/command/upload" ∨ callPath call = "/command/download") ∧
    ∀ (ext1 : Ext) (be1 : Backend) (c1 : Connection) (args1 : String)
      (r : Connection × JsonMap × String), TorrentAdd ext1 be1 c1 args1 = some r →
      r.1.trace.count Call.GetTorrentList ≤ c1.trace.count Call.GetTorrentList + 1 + 100 :=
  ⟨⟨rfl, by decide, by decide, by decide⟩, by decide,
    TorrentAdd_timeout sampleExt sampleBackend (sampleConn ["abc"]) (sentDef sampleBackend)
      "magnet-def" magnetDef "def" "Film" rfl (by decide) (by decide) (by decide)⟩

/-- C7 on a backend that lists the hash `def` from the third polling attempt on. -/
theorem TorrentAdd_added_witness :
    (sampleExt.UnmarshalTorrentAddRequest "magnet-def" = some magnetDef ∧
      submitTorrent sampleExt (addInit lateBackend (sampleConn ["abc"])) magnetDef
        = some (sentDef lateBackend, "def", "Film") ∧
      GetIdOfHash (addInit lateBackend (sampleConn ["abc"])) "def" = none ∧
      2 < 100 ∧
      (∀ j, j < 2 → "def" ∉ newHashesAt lateBackend (sentDef lateBackend) j) ∧
      "def" ∈ newHashesAt lateBackend (sentDef lateBackend) 2) ∧
    (TorrentAdd sampleExt lateBackend (sampleConn ["abc"]) "magnet-def").map
        (fun r => (r.1.trace, r.1.HashIds))
      = some ([Call.GetTorrentList,
            Call.PostForm "/command/download" [("urls", "magnet:?xt=urn:btih:DEF&dn=Film")],
            Call.GetTorrentList, Call.GetTorrentList, Call.GetTorrentList,
            Call.PostForm "/command/pause" [("hash", "def")]],
          ["abc", "def"]) ∧
    ∃ (id : Int) (path : String) (sub : List Call),
      GetIdOfHash (afterAttempts lateBackend (sentDef lateBackend) (2 + 1)) "def" = some id ∧
      TorrentAdd sampleExt lateBackend (sampleConn ["abc"]) "magnet-def"
        = some (PostForm (afterAttempts lateBackend (sentDef lateBackend) (2 + 1)) path
              [("hash", "def")],
            [("torrent-added",
              JVal.obj [("id", .int id), ("name", .str "Film"), ("hashString", .str "def")])],
            "success") ∧
      (PostForm (afterAttempts lateBackend (sentDef lateBackend) (2 + 1)) path
          [("hash", "def")]).trace
        = (sampleConn ["abc"]).trace ++ [Call.GetTorrentList] ++ sub
            ++ List.replicate (2 + 1) Call.GetTorrentList
            ++ [Call.PostForm path [("hash", "def")]] ∧
      (∀ call ∈ sub, callPath call = "/command/upload" ∨ callPath call = "/command/download") ∧
      (path = "/command/pause" ∨ path = "/command/resume") ∧
      (path = "/command/pause" ↔
        (magnetDef.Paused = some (.bool true) ∨
          ∃ q : Rat, q ≠ 0 ∧ magnetDef.Paused = some (.num q))) :=
  ⟨⟨rfl, by decide, by decide, by decide, by decide, by decide⟩, by decide,
    TorrentAdd_added sampleExt lateBackend (sampleConn ["abc"]) (sentDef lateBackend)
      "magnet-def" magnetDef "def" "Film" 2 rfl (by decide) (by decide) (by decide) (by decide)
      (by decide)⟩

/-! ### Parsing ids -/

theorem GetHashForId_ne_empty (c : Connection) (id : Int) :
    GetHashForId c id ≠ "" ↔
      1 ≤ id ∧ ∃ h, c.HashIds[(id - 1).toNat]? = some h ∧ h ≠ "" := by
  unfold GetHashForId
  by_cases h1 : 1 ≤ id
  · simp only [h1, if_true, true_and, List.getD_eq_getElem?_getD]
    cases hg : c.HashIds[(id - 1).toNat]? with
    | none => simp
    | some h => simp
  · simp [h1]

theorem mem_allIds (c : Connection) (i : Int) :
    i ∈ allIds c ↔ 1 ≤ i ∧ i ≤ c.HashIds.length := by
  unfold allIds GetHashNum
  rw [Int.toNat_ofNat, List.mem_map]
  constructor
  · rintro ⟨a, ha, rfl⟩
    have := List.mem_range.1 ha
    omega
  · intro hi
    exact ⟨(i - 1).toNat, List.mem_range.2 (by omega), by omega⟩

theorem allIds_pairwise (c : Connection) : (allIds c).Pairwise (· < ·) := by
  unfold allIds
  rw [List.pairwise_map]
  refine (List.pairwise_lt_range _).imp ?_
  intro a b hab
  show (a : Int) + 1 < (b : Int) + 1
  omega

/-- Every id that `parseIDsArgument` returns resolves to a non-empty hash. -/
theorem parseIDsArgument_resolves (ext : Ext) (c : Connection) (args : Option String)
    (ids : List Int) (hp : parseIDsArgument ext c args = some ids) :
    ∀ id ∈ ids, GetHashForId c id ≠ "" := by
  intro id hid
  simp only [parseIDsArgument, Option.map_eq_some'] at hp
  obtain ⟨l, _, rfl⟩ := hp
  simpa using (List.mem_filter.1 hid).2

/-- C9: without an `ids` argument `parseIDsArgument` returns, strictly ascending and so
without repetition, exactly the positions `1 .. n` whose slot holds a non-empty hash;
and whatever the shape of the argument, every id it returns resolves to a non-empty
hash. -/
theorem parseIDsArgument_all (ext : Ext) (c : Connection) :
    (∃ ids : List Int, parseIDsArgument ext c none = some ids ∧
      ids.Pairwise (· < ·) ∧ ids.Nodup ∧
      ∀ i : Int, i ∈ ids ↔
        (1 ≤ i ∧ i ≤ c.HashIds.length ∧
          ∃ h, c.HashIds[(i - 1).toNat]? = some h ∧ h ≠ "")) ∧
    ∀ (args : Option String) (ids : List Int), parseIDsArgument ext c args = some ids →
      ∀ id ∈ ids, GetHashForId c id ≠ "" := by
  constructor
  · have hpw : ((allIds c).filter fun id => decide (GetHashForId c id ≠ "")).Pairwise (· < ·) :=
      (allIds_pairwise c).filter _
    refine ⟨_, rfl, hpw, hpw.imp (fun h => ne_of_lt h), ?_⟩
    intro i
    simp only [List.mem_filter, mem_allIds, decide_eq_true_eq, GetHashForId_ne_empty]
    constructor
    · rintro ⟨⟨h1, h2⟩, _, h3⟩
      exact ⟨h1, h2, h3⟩
    · rintro ⟨h1, h2, h3⟩
      exact ⟨⟨h1, h2⟩, h1, h3⟩
  · exact parseIDsArgument_resolves ext c

/-- C9 on a table whose second slot is tombstoned. -/
theorem parseIDsArgument_all_witness :
    parseIDsArgument sampleExt (sampleConn ["abc", "", "def"]) none = some [1, 3] ∧
    ((∃ ids : List Int, parseIDsArgument sampleExt (sampleConn ["abc", "", "def"]) none
          = some ids ∧
        ids.Pairwise (· < ·) ∧ ids.Nodup ∧
        ∀ i : Int, i ∈ ids ↔
          (1 ≤ i ∧ i ≤ (sampleConn ["abc", "", "def"]).HashIds.length ∧
            ∃ h, (sampleConn ["abc", "", "def"]).HashIds[(i - 1).toNat]? = some h ∧ h ≠ "")) ∧
      ∀ id ∈ [(1 : Int), 1], GetHashForId (sampleConn ["abc", "", "def"]) id ≠ "") :=
  ⟨by decide,
    (parseIDsArgument_all sampleExt (sampleConn ["abc", "", "def"])).1,
    (parseIDsArgument_all sampleExt (sampleConn ["abc", "", "def"])).2 (some "[1,1]")
      [1, 1] (by decide)⟩

/-! ### Removing torrents -/

theorem GetHashForId_in_range (c : Connection) (id : Int) (h : GetHashForId c id ≠ "") :
    1 ≤ id ∧ (id - 1).toNat < c.HashIds.length := by
  obtain ⟨h1, x, hx, _⟩ := (GetHashForId_ne_empty c id).1 h
  refine ⟨h1, ?_⟩
  by_contra hlt
  rw [List.getElem?_eq_none (by omega)] at hx
  exact Option.noConfusion hx

theorem getD_set_empty (l : List String) (k i : Nat) :
    (l.set k "").getD i "" = if i = k then "" else l.getD i "" := by
  rw [List.getD_eq_getElem?_getD, List.getD_eq_getElem?_getD, List.getElem?_set]
  by_cases hik : i = k
  · subst hik
    rw [if_pos rfl, if_pos rfl]
    split <;> rfl
  · rw [if_neg (Ne.symm hik), if_neg hik]

/-- The loop of `TorrentDelete` on ids that are all inside the table: it does not
panic, the table keeps its length, the slots of the ids are emptied and no other
slot changes; when no id is repeated the hashes are those the table held. -/
theorem collectAndClear_spec (ids : List Int) (c : Connection)
    (hin : ∀ id ∈ ids, 1 ≤ id ∧ (id - 1).toNat < c.HashIds.length) :
    ∃ (c1 : Connection) (hashes : List String),
      collectAndClear c ids = some (c1, hashes) ∧
      c1.HashIds.length = c.HashIds.length ∧ c1.trace = c.trace ∧ c1.Auth = c.Auth ∧
      (∀ i : Nat, c1.HashIds.getD i "" = if ((i : Int) + 1) ∈ ids then "" else c.HashIds.getD i "") ∧
      (ids.Nodup → hashes = ids.map (GetHashForId c)) := by
  induction ids generalizing c with
  | nil => exact ⟨c, [], rfl, rfl, rfl, rfl, by simp, fun _ => rfl⟩
  | cons id ids ih =>
    obtain ⟨h1, h2⟩ := hin id (List.mem_cons_self _ _)
    have hclear : clearSlot c id
        = some { c with HashIds := c.HashIds.set (id - 1).toNat "" } := by
      unfold clearSlot
      rw [if_pos ⟨h1, h2⟩]
    obtain ⟨c1, hashes, hrun, hlen, htr, hau, hget, hnd⟩ :=
      ih { c with HashIds := c.HashIds.set (id - 1).toNat "" } (by
        intro j hj
        have := hin j (List.mem_cons_of_mem _ hj)
        rw [List.length_set]
        exact this)
    refine ⟨c1, GetHashForId c id :: hashes, ?_, ?_, htr, hau, ?_, ?_⟩
    · simp only [collectAndClear, hclear, Option.some_bind, hrun, Option.map_some']
    · rw [hlen, List.length_set]
    · intro i
      rw [hget i, getD_set_empty]
      by_cases hi : ((i : Int) + 1) ∈ ids
      · rw [if_pos hi, if_pos (List.mem_cons_of_mem _ hi)]
      · rw [if_neg hi]
        by_cases hid : (i : Int) + 1 = id
        · have hik : i = (id - 1).toNat := by omega
          rw [if_pos hik, if_pos (hid ▸ List.mem_cons_self _ _)]
        · have hik : ¬ i = (id - 1).toNat := by omega
          have hmem : ¬ ((i : Int) + 1) ∈ id :: ids := by
            rw [List.mem_cons]
            exact fun h => h.elim hid hi
          rw [if_neg hik, if_neg hmem]
    · intro hnodup
      rw [List.nodup_cons] at hnodup
      rw [hnd hnodup.2, List.map_cons]
      congr 1
      apply List.map_congr_left
      intro j hj
      have hne : j ≠ id := fun h => hnodup.1 (h ▸ hj)
      unfold GetHashForId
      by_cases hj1 : 1 ≤ j
      · have hjk : ¬ (j - 1).toNat = (id - 1).toNat := by omega
        rw [if_pos hj1, if_pos hj1, getD_set_empty, if_neg hjk]
      · rw [if_neg hj1, if_neg hj1]

/-- What `TorrentDelete` does to the table, and what it sends when no id is repeated:
the table keeps its length, every selected slot is emptied, every other slot keeps its
hash, and the request carries the hashes that the selected ids had before. -/
theorem TorrentDelete_table (ext : Ext) (c : Connection) (args : String) (req : DeleteRequest)
    (ids : List Int)
    (hreq : ext.UnmarshalDeleteRequest args = some req)
    (hids : parseIDsArgument ext c (some req.Ids) = some ids) :
    ∃ c1 : Connection, TorrentDelete ext c args = some (c1, [], "success") ∧
      c1.HashIds.length = c.HashIds.length ∧
      (∀ id ∈ ids, GetHashForId c1 id = "") ∧
      (∀ i : Nat, ((i : Int) + 1) ∉ ids → c1.HashIds.getD i "" = c.HashIds.getD i "") ∧
      (ids.Nodup → c1.trace = c.trace ++
        [Call.PostForm
          (if deleteFilesOf req.Delete_local_data then "/command/deletePerm"
            else "/command/delete")
          [("hashes", joinHashes (ids.map (GetHashForId c)))]]) := by
  have hne : ∀ id ∈ ids, GetHashForId c id ≠ "" :=
    parseIDsArgument_resolves ext c (some req.Ids) ids hids
  obtain ⟨c1, hashes, hrun, hlen, htr, _, hget, hnd⟩ :=
    collectAndClear_spec ids c (fun id hid => GetHashForId_in_range c id (hne id hid))
  refine ⟨PostForm c1
      (if deleteFilesOf req.Delete_local_data then "/command/deletePerm" else "/command/delete")
      [("hashes", joinHashes hashes)], ?_, hlen, ?_, ?_, ?_⟩
  · simp only [TorrentDelete, hreq, hids, hrun, Option.some_bind, Option.map_some']
    cases deleteFilesOf req.Delete_local_data <;> rfl
  · intro id hid
    obtain ⟨h1, _⟩ := GetHashForId_in_range c id (hne id hid)
    have hg := hget (id - 1).toNat
    have hcast : (((id - 1).toNat : Nat) : Int) + 1 = id := by omega
    rw [hcast, if_pos hid] at hg
    unfold GetHashForId
    rw [if_pos h1]
    exact hg
  · intro i hi
    have hg := hget i
    rw [if_neg hi] at hg
    exact hg
  · intro hnodup
    rw [← hnd hnodup]
    simp only [PostForm, htr]

/-- C8 at a repeated id: for `ids = [1, 1]` on the table `["abc", "def"]` the second
round of the loop reads the slot that the first round emptied, and the request
carries `abc|` in place of the hash that id 1 had. -/
theorem TorrentDelete_repeated_id :
    parseIDsArgument sampleExt (sampleConn ["abc", "def"]) (some "[1,1]") = some [1, 1] ∧
    GetHashForId (sampleConn ["abc", "def"]) 1 = "abc" ∧
    (TorrentDelete sampleExt (sampleConn ["abc", "def"]) "twice").map
        (fun r => (r.1.HashIds, r.1.trace))
      = some (["", "def"], [Call.PostForm "/command/delete" [("hashes", "abc|")]]) := by
  decide

/-! ### Authentication -/

/-- C10, as the code has it: when auth is required and a pair is cached from a login, a
request whose Basic credentials differ from the cached pair is answered 401 with no
body; the state is untouched, so `Login` is not called and the cache keeps its pair. -/
theorem handler_other_credentials (ext : Ext) (be : Backend) (c : Connection)
    (r : HttpRequest) (req : RPCRequest) (u p : String)
    (hreq : ext.UnmarshalRPCRequest r.Body = some req)
    (hrequired : c.Auth.Required = true)
    (hlogged : c.Auth.LoggedIn = true)
    (hbasic : r.BasicAuth = some (u, p))
    (hother : (u, p) ≠ (c.Auth.Username, c.Auth.Password)) :
    handler ext be c r = some (c, ⟨401, none, none⟩) := by
  have hcmp : (decide (c.Auth.Username = u) && decide (c.Auth.Password = p)) = false := by
    rw [Bool.and_eq_false_iff]
    by_cases hu : c.Auth.Username = u
    · right
      by_cases hp : c.Auth.Password = p
      · exact absurd (by rw [hu, hp]) hother
      · simp [hp]
    · left
      simp [hu]
  simp [handler, hreq, authenticate, hrequired, hlogged, hbasic, hcmp]

/-- C10 refuted as stated: with `admin` / `secret` cached, a request carrying `root` /
`toor`, which the backend would accept, is answered 401 and no login is attempted. -/
theorem handler_no_fresh_login :
    lateBackend.Login "root" "toor" = true ∧
    (handler sampleExt lateBackend loggedInConn ⟨"get", some ("root", "toor")⟩).map
        (fun r => (r.1.Auth, r.1.trace, r.2.status, r.2.body.isSome))
      = some (⟨true, true, "admin", "secret"⟩, [], 401, false) := by
  decide

/-- C10, as the code has it, on the request of the refutation. -/
theorem handler_other_credentials_witness :
    (sampleExt.UnmarshalRPCRequest "get" = some ⟨"torrent-get", "two", none⟩ ∧
      loggedInConn.Auth.Required = true ∧ loggedInConn.Auth.LoggedIn = true ∧
      ("root", "toor") ≠ (loggedInConn.Auth.Username, loggedInConn.Auth.Password)) ∧
    handler sampleExt lateBackend loggedInConn ⟨"get", some ("root", "toor")⟩
      = some (loggedInConn, ⟨401, none, none⟩) :=
  ⟨⟨rfl, rfl, rfl, by decide⟩,
    handler_other_credentials sampleExt lateBackend loggedInConn ⟨"get", some ("root", "toor")⟩
      ⟨"torrent-get", "two", none⟩ "root" "toor" rfl rfl rfl rfl (by decide)⟩

/-! ### The handler -/

theorem dispatch_unknown (ext : Ext) (be : Backend) (c : Connection) (req : RPCRequest)
    (hm : req.Method ∉ supportedMethods) : dispatch ext be c req = some (c, none, "") := by
  simp only [supportedMethods, List.mem_cons, List.mem_singleton, List.not_mem_nil, not_or,
    or_false] at hm
  simp [dispatch, hm]

/-- The handler after a request that is decoded and passes authentication: the
dispatch, then the envelope with status 200. -/
theorem handler_dispatched (ext : Ext) (be : Backend) (c : Connection) (r : HttpRequest)
    (req : RPCRequest) (hreq : ext.UnmarshalRPCRequest r.Body = some req)
    (hauth : (authenticate be c r).2 = true) :
    handler ext be c r = (dispatch ext be (authenticate be c r).1 req).map
      fun d => (d.1, okResponse d.2.1 d.2.2 req.Tag) := by
  simp only [handler, hreq, Option.some_bind, hauth]
  rfl

/-- The handler after a request that is decoded and fails authentication: 401 and no
body, in the state that the authentication left. -/
theorem handler_rejected (ext : Ext) (be : Backend) (c : Connection) (r : HttpRequest)
    (req : RPCRequest) (hreq : ext.UnmarshalRPCRequest r.Body = some req)
    (hauth : (authenticate be c r).2 = false) :
    handler ext be c r = some ((authenticate be c r).1, ⟨401, none, none⟩) := by
  simp only [handler, hreq, Option.some_bind, hauth]
  rfl

theorem envelope_result (resp : Option JsonMap) (result : String) (tag : Option JVal) :
    mapGet (envelope resp result tag) "result" = some (.str result) := by
  cases tag <;> simp [envelope, mapGet, mapGet_mapSet_ne]

theorem envelope_arguments (resp : Option JsonMap) (result : String) (tag : Option JVal) :
    mapGet (envelope resp result tag) "arguments"
      = some (match resp with
        | some m => .obj m
        | none => .null) := by
  cases tag <;> simp [envelope, mapGet, mapGet_mapSet_ne]

theorem envelope_tag (resp : Option JsonMap) (result : String) (tag : Option JVal) :
    mapGet (envelope resp result tag) "tag" = tag := by
  cases tag <;> simp [envelope, mapGet, mapGet_mapSet_same]

/-- C11, as the code has it: for a decoded request that passes authentication and
names none of the eleven methods, `handler` writes status 200 and an envelope whose
`"result"` is the empty string and whose `"arguments"` is `null`: the `default` arm
assigns neither `resp` nor `result`. -/
theorem handler_unknown_method (ext : Ext) (be : Backend) (c : Connection) (r : HttpRequest)
    (req : RPCRequest) (hreq : ext.UnmarshalRPCRequest r.Body = some req)
    (hauth : (authenticate be c r).2 = true)
    (hm : req.Method ∉ supportedMethods) :
    handler ext be c r
      = some ((authenticate be c r).1,
          ⟨200, some "application/json; charset=UTF-8", some (envelope none "" req.Tag)⟩) ∧
    mapGet (envelope none "" req.Tag) "result" = some (.str "") ∧
    mapGet (envelope none "" req.Tag) "arguments" = some .null := by
  refine ⟨?_, envelope_result none "" req.Tag, envelope_arguments none "" req.Tag⟩
  rw [handler_dispatched ext be c r req hreq hauth, dispatch_unknown ext be _ req hm]
  rfl

/-- C11 refuted as stated: the method `session-close` is answered with `"result": ""`
and `"arguments": null`, not with `"success"` and an empty object. -/
theorem handler_unknown_not_success :
    "session-close" ∉ supportedMethods ∧
    (handler sampleExt sampleBackend (sampleConn []) ⟨"other", none⟩).map
        (fun r => (r.2.status, r.2.body))
      = some (200, some [("tag", .num 7), ("result", .str ""), ("arguments", .null)]) ∧
    mapGet [("tag", JVal.num 7), ("result", .str ""), ("arguments", .null)] "result"
      ≠ some (.str "success") ∧
    mapGet [("tag", JVal.num 7), ("result", .str ""), ("arguments", .null)] "arguments"
      ≠ some (.obj []) := by
  refine ⟨by decide, rfl, ?_, ?_⟩
  · simp [mapGet]
  · simp [mapGet]

/-- C11, as the code has it, on the method `session-close`. -/
theorem handler_unknown_method_witness :
    (sampleExt.UnmarshalRPCRequest "other" = some ⟨"session-close", "", some (.num 7)⟩ ∧
      (authenticate sampleBackend (sampleConn []) ⟨"other", none⟩).2 = true ∧
      "session-close" ∉ supportedMethods) ∧
    handler sampleExt sampleBackend (sampleConn []) ⟨"other", none⟩
      = some ((authenticate sampleBackend (sampleConn []) ⟨"other", none⟩).1,
          ⟨200, some "application/json; charset=UTF-8",
            some (envelope none "" (some (.num 7)))⟩) ∧
    mapGet (envelope none "" (some (.num 7))) "result" = some (.str "") ∧
    mapGet (envelope none "" (some (.num 7))) "arguments" = some .null :=
  ⟨⟨rfl, rfl, by decide⟩,
    handler_unknown_method sampleExt sampleBackend (sampleConn []) ⟨"other", none⟩
      ⟨"session-close", "", some (.num 7)⟩ rfl rfl (by decide)⟩

theorem authenticate_none (be : Backend) (c : Connection) (r : HttpRequest)
    (h : c.Auth.Required = true) (hb : r.BasicAuth = none) :
    authenticate be c r = (c, false) := by
  simp [authenticate, h, hb]

theorem authenticate_cached (be : Backend) (c : Connection) (r : HttpRequest) (u p : String)
    (h : c.Auth.Required = true) (hb : r.BasicAuth = some (u, p))
    (hl : c.Auth.LoggedIn = true) :
    authenticate be c r
      = (c, decide (c.Auth.Username = u) && decide (c.Auth.Password = p)) := by
  simp [authenticate, h, hb, hl]

theorem authenticate_fresh (be : Backend) (c : Connection) (r : HttpRequest) (u p : String)
    (h : c.Auth.Required = true) (hb : r.BasicAuth = some (u, p))
    (hl : c.Auth.LoggedIn = false) :
    authenticate be c r = Login be c u p := by
  simp [authenticate, h, hb, hl]

/-- The state and the verdict of the authentication block, case by case. -/
theorem authenticate_cases (be : Backend) (c : Connection) (r : HttpRequest) :
    (c.Auth.Required = false → authenticate be c r = (c, true)) ∧
    (c.Auth.Required = true →
      (authenticate be c r).2 = credentialsPass be c r ∧
      (authenticate be c r).1.HashIds = c.HashIds ∧
      ∃ logins : List Call, (authenticate be c r).1.trace = c.trace ++ logins ∧
        ∀ call ∈ logins, ∃ u p, call = Call.Login u p) := by
  constructor
  · intro h
    simp [authenticate, h]
  · intro h
    cases hb : r.BasicAuth with
    | none =>
      rw [authenticate_none be c r h hb]
      refine ⟨?_, rfl, [], ?_, ?_⟩
      · simp [credentialsPass, hb]
      · simp
      · simp
    | some up =>
      obtain ⟨u, p⟩ := up
      cases hl : c.Auth.LoggedIn with
      | true =>
        rw [authenticate_cached be c r u p h hb hl]
        refine ⟨?_, rfl, [], ?_, ?_⟩
        · simp only [credentialsPass, hb, hl, if_true, Prod.mk.injEq]
          by_cases hu : c.Auth.Username = u
          · by_cases hp : c.Auth.Password = p
            · simp [hu, hp]
            · have hp2 : ¬ p = c.Auth.Password := fun e => hp e.symm
              simp [hu, hp, hp2]
          · have hu2 : ¬ u = c.Auth.Username := fun e => hu e.symm
            simp [hu, hu2]
        · simp
        · simp
      | false =>
        rw [authenticate_fresh be c r u p h hb hl]
        cases hlog : be.Login u p with
        | true =>
          refine ⟨?_, ?_, [Call.Login u p], ?_, ?_⟩
          · simp [Login, hlog, credentialsPass, hb, hl]
          · simp [Login, hlog]
          · simp [Login, hlog]
          · simp
        | false =>
          refine ⟨?_, ?_, [Call.Login u p], ?_, ?_⟩
          · simp [Login, hlog, credentialsPass, hb, hl]
          · simp [Login, hlog]
          · simp [Login, hlog]
          · simp

/-- C12, as the code has it: for a request whose body decodes as an RPC request: when
auth is required, it is dispatched exactly when its
credentials are good (they pass `Login` when no login is cached, they equal the cached
pair when one is); otherwise, also without Basic credentials, the answer is 401 with no
body, no method handler runs, and the only request that may have reached the backend is
the login.  When auth is not required the request is dispatched in the state it found. -/
theorem handler_auth_gate (ext : Ext) (be : Backend) (c : Connection) (r : HttpRequest)
    (req : RPCRequest) (hreq : ext.UnmarshalRPCRequest r.Body = some req) :
    (c.Auth.Required = true → credentialsPass be c r = false →
      ∃ (c1 : Connection) (logins : List Call),
        handler ext be c r = some (c1, ⟨401, none, none⟩) ∧
        c1.HashIds = c.HashIds ∧ c1.trace = c.trace ++ logins ∧
        ∀ call ∈ logins, ∃ u p, call = Call.Login u p) ∧
    (c.Auth.Required = true → credentialsPass be c r = true →
      handler ext be c r = (dispatch ext be (authenticate be c r).1 req).map
        fun d => (d.1, okResponse d.2.1 d.2.2 req.Tag)) ∧
    (c.Auth.Required = false →
      handler ext be c r = (dispatch ext be c req).map
        fun d => (d.1, okResponse d.2.1 d.2.2 req.Tag)) ∧
    (∀ (c2 : Connection) (resp : HttpResponse), handler ext be c r = some (c2, resp) →
      c.Auth.Required = true → resp.status = 200 → credentialsPass be c r = true) := by
  obtain ⟨hoff, hon⟩ := authenticate_cases be c r
  refine ⟨?_, ?_, ?_, ?_⟩
  · intro hr hp
    obtain ⟨hv, hids, logins, htr, hl⟩ := hon hr
    exact ⟨_, logins, handler_rejected ext be c r req hreq (by rw [hv, hp]), hids, htr, hl⟩
  · intro hr hp
    exact handler_dispatched ext be c r req hreq (by rw [(hon hr).1, hp])
  · intro hr
    have := handler_dispatched ext be c r req hreq (by rw [hoff hr])
    rw [hoff hr] at this
    exact this
  · intro c2 resp hh hr hs
    by_contra hp
    have hp2 : credentialsPass be c r = false := by simpa using hp
    rw [handler_rejected ext be c r req hreq (by rw [(hon hr).1, hp2])] at hh
    simp only [Option.some.injEq, Prod.mk.injEq] at hh
    rw [← hh.2] at hs
    exact absurd hs (by decide)

/-- C12 refuted as stated: the backend requires auth and the request carries no
credentials, but its body is no JSON; `handler` decodes the body first (lines 691-694),
`Check` aborts there, and no 401 is written. -/
theorem handler_malformed_no_401 :
    loggedInConn.Auth.Required = true ∧
    credentialsPass sampleBackend loggedInConn ⟨"not json", none⟩ = false ∧
    sampleExt.UnmarshalRPCRequest "not json" = none ∧
    handler sampleExt sampleBackend loggedInConn ⟨"not json", none⟩ = none ∧
    (handler sampleExt sampleBackend loggedInConn ⟨"not json", none⟩).map
      (fun r => r.2.status) ≠ some 401 :=
  ⟨rfl, rfl, rfl, rfl, by decide⟩

/-- C12, as the code has it, on a request without Basic credentials and on one with the
cached pair. -/
theorem handler_auth_gate_witness :
    (sampleExt.UnmarshalRPCRequest "other" = some ⟨"session-close", "", some (.num 7)⟩ ∧
      loggedInConn.Auth.Required = true ∧
      credentialsPass sampleBackend loggedInConn ⟨"other", none⟩ = false ∧
      credentialsPass sampleBackend loggedInConn ⟨"other", some ("admin", "secret")⟩ = true) ∧
    (∃ (c1 : Connection) (logins : List Call),
      handler sampleExt sampleBackend loggedInConn ⟨"other", none⟩
        = some (c1, ⟨401, none, none⟩) ∧
      c1.HashIds = loggedInConn.HashIds ∧ c1.trace = loggedInConn.trace ++ logins ∧
      ∀ call ∈ logins, ∃ u p, call = Call.Login u p) ∧
    handler sampleExt sampleBackend loggedInConn ⟨"other", some ("admin", "secret")⟩
      = (dispatch sampleExt sampleBackend
          (authenticate sampleBackend loggedInConn ⟨"other", some ("admin", "secret")⟩).1
          ⟨"session-close", "", some (.num 7)⟩).map
        fun d => (d.1, okResponse d.2.1 d.2.2 (some (.num 7))) :=
  ⟨⟨rfl, rfl, by decide, by decide⟩,
    (handler_auth_gate sampleExt sampleBackend loggedInConn ⟨"other", none⟩
      ⟨"session-close", "", some (.num 7)⟩ rfl).1 rfl (by decide),
    (handler_auth_gate sampleExt sampleBackend loggedInConn
      ⟨"other", some ("admin", "secret")⟩ ⟨"session-close", "", some (.num 7)⟩ rfl).2.1 rfl
      (by decide)⟩

/-- C18, as the code has it: whenever a decoded, authenticated request is dispatched and
the method handler returns, the envelope written has the members `"result"` and `"arguments"`, and its
`"tag"` member is the tag of the request: present exactly when the request has one, and
then equal to it. -/
theorem handler_envelope (ext : Ext) (be : Backend) (c c2 : Connection) (r : HttpRequest)
    (req : RPCRequest) (resp : Option JsonMap) (result : String)
    (hreq : ext.UnmarshalRPCRequest r.Body = some req)
    (hauth : (authenticate be c r).2 = true)
    (hd : dispatch ext be (authenticate be c r).1 req = some (c2, resp, result)) :
    handler ext be c r
      = some (c2, ⟨200, some "application/json; charset=UTF-8",
          some (envelope resp result req.Tag)⟩) ∧
    mapGet (envelope resp result req.Tag) "result" = some (.str result) ∧
    "result" ∈ mapKeys (envelope resp result req.Tag) ∧
    "arguments" ∈ mapKeys (envelope resp result req.Tag) ∧
    ("tag" ∈ mapKeys (envelope resp result req.Tag) ↔ req.Tag.isSome) ∧
    mapGet (envelope resp result req.Tag) "tag" = req.Tag := by
  refine ⟨?_, envelope_result resp result req.Tag, ?_, ?_, ?_, envelope_tag resp result req.Tag⟩
  · rw [handler_dispatched ext be c r req hreq hauth, hd]
    rfl
  · rw [mem_mapKeys_iff, envelope_result]
    rfl
  · rw [mem_mapKeys_iff, envelope_arguments]
    rfl
  · rw [mem_mapKeys_iff, envelope_tag]

/-- C18 refuted as stated: a `torrent-get` request with the tag 7 is decoded, passes the
authentication block and reaches the dispatch; its `arguments` do not decode into a
`GetRequest`, `Check` aborts in `TorrentGet` (line 292), and `handler` writes no
envelope: no `result`, no `arguments`, no `tag`. -/
theorem handler_abort_no_envelope :
    abortExt.UnmarshalRPCRequest "get-bad" = some ⟨"torrent-get", "bad", some (.num 7)⟩ ∧
    (authenticate sampleBackend (sampleConn []) ⟨"get-bad", none⟩).2 = true ∧
    abortExt.UnmarshalGetRequest "bad" = none ∧
    dispatch abortExt sampleBackend (authenticate sampleBackend (sampleConn [])
        ⟨"get-bad", none⟩).1 ⟨"torrent-get", "bad", some (.num 7)⟩ = none ∧
    handler abortExt sampleBackend (sampleConn []) ⟨"get-bad", none⟩ = none ∧
    (handler abortExt sampleBackend (sampleConn []) ⟨"get-bad", none⟩).map
      (fun r => r.2.body.isSome) ≠ some true :=
  ⟨rfl, rfl, rfl, rfl, rfl, by decide⟩

/-- C18, as the code has it, on a request with the tag 7. -/
theorem handler_envelope_witness :
    (sampleExt.UnmarshalRPCRequest "other" = some ⟨"session-close", "", some (.num 7)⟩ ∧
      (authenticate sampleBackend (sampleConn []) ⟨"other", none⟩).2 = true ∧
      dispatch sampleExt sampleBackend (authenticate sampleBackend (sampleConn [])
          ⟨"other", none⟩).1 ⟨"session-close", "", some (.num 7)⟩
        = some (sampleConn [], none, "")) ∧
    handler sampleExt sampleBackend (sampleConn []) ⟨"other", none⟩
      = some (sampleConn [], ⟨200, some "application/json; charset=UTF-8",
          some (envelope none "" (some (.num 7)))⟩) ∧
    mapGet (envelope none "" (some (.num 7))) "result" = some (.str "") ∧
    "result" ∈ mapKeys (envelope none "" (some (.num 7))) ∧
    "arguments" ∈ mapKeys (envelope none "" (some (.num 7))) ∧
    ("tag" ∈ mapKeys (envelope none "" (some (.num 7))) ↔ (some (JVal.num 7)).isSome) ∧
    mapGet (envelope none "" (some (.num 7))) "tag" = some (.num 7) :=
  ⟨⟨rfl, rfl, rfl⟩,
    handler_envelope sampleExt sampleBackend (sampleConn []) (sampleConn []) ⟨"other", none⟩
      ⟨"session-close", "", some (.num 7)⟩ none "" rfl rfl rfl⟩

/-! ### The encoder outside `have <= total` -/

theorem forRange_none_succ {σ : Type} (n : Nat) (body : σ → Nat → Option σ) (s : σ)
    (h : forRange n body s = none) : forRange (n + 1) body s = none := by
  rw [forRange_succ, h]
  rfl

theorem forRange_none_le {σ : Type} (n m : Nat) (body : σ → Nat → Option σ) (s : σ)
    (h : forRange n body s = none) (hnm : n ≤ m) : forRange m body s = none := by
  induction m with
  | zero =>
    have : n = 0 := by omega
    rw [← this]
    exact h
  | succ m ih =>
    by_cases hn : n = m + 1
    · rw [← hn]
      exact h
    · exact forRange_none_succ m body s (ih (by omega))

/-- The first loop panics when it is asked to fill more bytes than the slice has. -/
theorem fill_loop_panics (arr : List Nat) (n : Nat) (hn : arr.length < n) :
    forRange n (fun a i => storeByte a i 255) arr = none := by
  obtain ⟨r, hr, hlen, _⟩ := fill_loop arr arr.length (le_refl _)
  have h1 : forRange (arr.length + 1) (fun a i => storeByte a i 255) arr = none := by
    rw [forRange_succ, hr]
    simp [storeByte, hlen]
  exact forRange_none_le _ n _ arr h1 (by omega)

/-- The second loop panics at its first round when its byte lies outside the slice. -/
theorem or_loop_panics (arr : List Nat) (i c : Nat) (hi : arr.length ≤ i) (hc : 0 < c) :
    forRange c (fun a k => orByte a i (128 >>> k)) arr = none := by
  have h1 : forRange (0 + 1) (fun a k => orByte a i (128 >>> k)) arr = none := by
    rw [forRange_succ]
    have hlt : ¬ i < arr.length := by omega
    simp [forRange, orByte, hlt]
  exact forRange_none_le _ c _ arr h1 (by omega)

theorem piecesBytes_ceil (total have_ : Int) :
    piecesBytes total have_ = piecesBytes (8 * ((total + 7) / 8)) have_ := by
  have h : ceilDiv8 total = ceilDiv8 (8 * ((total + 7) / 8)) := by
    unfold ceilDiv8
    omega
  simp only [piecesBytes, h]

/-- For non-negative arguments the encoder panics exactly when `have` exceeds the bits
of the `ceil(total/8)` bytes; otherwise the slice has `ceil(total/8)` bytes. -/
theorem piecesBytes_panics_iff (total have_ : Int) (ht : 0 ≤ total) (h0 : 0 ≤ have_) :
    (piecesBytes total have_ = none ↔ 8 * ((total + 7) / 8) < have_) ∧
    ∀ bytes, piecesBytes total have_ = some bytes → (bytes.length : Int) = (total + 7) / 8 := by
  have hlen : (ceilDiv8 total).toNat = ((total + 7) / 8).toNat := by
    unfold ceilDiv8; congr 1; omega
  by_cases hle : have_ ≤ 8 * ((total + 7) / 8)
  · obtain ⟨bytes, hb, hl, _⟩ := piecesBytes_getD (8 * ((total + 7) / 8)) have_ h0 hle
    rw [← piecesBytes_ceil total have_] at hb
    constructor
    · rw [hb]
      constructor
      · intro h
        exact absurd h (by simp)
      · intro h
        omega
    · intro b hbb
      rw [hb] at hbb
      have : bytes = b := by simpa using hbb
      rw [← this, hl]
      omega
  · have hgt : 8 * ((total + 7) / 8) < have_ := by omega
    have hnone : piecesBytes total have_ = none := by
      unfold piecesBytes
      simp only [floorDiv8, hlen]
      by_cases hfb : ((total + 7) / 8).toNat < (have_ / 8).toNat
      · rw [fill_loop_panics _ _ (by simpa using hfb)]
        rfl
      · have hfe : (have_ / 8).toNat = ((total + 7) / 8).toNat := by omega
        obtain ⟨a1, ha1, hl1, _⟩ :=
          fill_loop (List.replicate ((total + 7) / 8).toNat 0) (have_ / 8).toNat
            (by simp; omega)
        rw [ha1]
        simp only [Option.some_bind]
        apply or_loop_panics
        · rw [hl1]
          simp
          omega
        · omega
    exact ⟨⟨fun _ => hgt, fun _ => hnone⟩, fun b hb => by rw [hnone] at hb; exact absurd hb (by simp)⟩

/-- For non-negative arguments `MakePiecesBitArray` panics exactly when `have` exceeds
the bits of the `ceil(total/8)` bytes. -/
theorem MakePiecesBitArray_none_iff (total have_ : Int) (ht : 0 ≤ total) (h0 : 0 ≤ have_) :
    MakePiecesBitArray total have_ = none ↔ 8 * ((total + 7) / 8) < have_ := by
  have hneg : ¬ (total < 0 ∨ have_ < 0) := by omega
  rw [← (piecesBytes_panics_iff total have_ ht h0).1]
  simp [MakePiecesBitArray, hneg]

/-- C15: the encoder returns the empty string, the encoding of no byte, whenever `total`
or `have` is negative, whatever the other argument; on `(0, 0)` it builds a slice of
no byte and returns the empty string as well. -/
theorem MakePiecesBitArray_empty :
    (∀ total have_ : Int, total < 0 ∨ have_ < 0 → MakePiecesBitArray total have_ = some "") ∧
    EncodeToString [] = "" ∧
    piecesBytes 0 0 = some [] ∧
    MakePiecesBitArray 0 0 = some "" := by
  refine ⟨?_, by decide, by decide, by decide⟩
  intro total have_ h
  simp [MakePiecesBitArray, h]

/-- C15 on `(-1, 5)` and `(5, -1)`. -/
theorem MakePiecesBitArray_empty_witness :
    ((-1 : Int) < 0 ∨ (5 : Int) < 0) ∧ MakePiecesBitArray (-1) 5 = some "" ∧
    ((5 : Int) < 0 ∨ (-1 : Int) < 0) ∧ MakePiecesBitArray 5 (-1) = some "" :=
  ⟨by decide, MakePiecesBitArray_empty.1 (-1) 5 (by decide),
    by decide, MakePiecesBitArray_empty.1 5 (-1) (by decide)⟩

/-- C19 at `have > total`: on `(0, 1)` the second loop stores at `arr[0]` of an empty
slice, on `(8, 16)` the first loop stores at `arr[1]` of a one-byte slice, on
`(16, 17)` the second loop stores at `arr[2]` of a two-byte slice; each run panics. -/
theorem MakePiecesBitArray_panics :
    MakePiecesBitArray 0 1 = none ∧ MakePiecesBitArray 8 16 = none ∧
    MakePiecesBitArray 16 17 = none ∧
    orByte (List.replicate 0 0) 0 128 = none ∧
    storeByte (List.replicate 1 0) 1 255 = none := by
  decide

/-! ### The general properties -/

/-- The map that `MapPropsGeneral` builds once the pieces value is there. -/
theorem MapPropsGeneral_isSome (dst : JsonMap) (p : PropertiesGeneral) :
    (MapPropsGeneral dst p).isSome = (MakePiecesBitArray p.Pieces_num p.Pieces_have).isSome := by
  unfold MapPropsGeneral piecesValue
  cases MakePiecesBitArray p.Pieces_num p.Pieces_have <;> rfl

theorem wrapInt_eq (x : Int) (hlo : -(2 ^ 63) ≤ x) (hhi : x < 2 ^ 63) : wrapInt x = x := by
  unfold wrapInt
  norm_num at hlo hhi ⊢
  omega

theorem wrapInt_range (x : Int) : -(2 ^ 63) ≤ wrapInt x ∧ wrapInt x < 2 ^ 63 := by
  unfold wrapInt
  norm_num
  omega

/-- C13, as the code has it: `MapPropsGeneral` returns exactly when the piece encoder of
line 208 does, so on every record with a negative count or with `Pieces_have` inside
the byte slice; the map it returns has `uploadLimited` true exactly when `Up_limit` is
not negative, with `uploadLimit` then `Up_limit` and otherwise 0; the same for
`downloadLimited` and `downloadLimit` with `Dl_limit`; so neither limit is negative; and
`haveValid` is the Go product `Piece_size * Pieces_have`, the exact product reduced to
64 bits, which is the exact product whenever that fits an `int`. -/
theorem MapPropsGeneral_limits (dst : JsonMap) (p : PropertiesGeneral) :
    ((MapPropsGeneral dst p).isSome = (MakePiecesBitArray p.Pieces_num p.Pieces_have).isSome) ∧
    (p.Pieces_num < 0 ∨ p.Pieces_have < 0 ∨ p.Pieces_have ≤ 8 * ((p.Pieces_num + 7) / 8) →
      (MapPropsGeneral dst p).isSome = true) ∧
    ∀ r : JsonMap, MapPropsGeneral dst p = some r →
      mapGet r "uploadLimited" = some (.bool (decide (0 ≤ p.Up_limit))) ∧
      mapGet r "uploadLimit" = some (.int (if 0 ≤ p.Up_limit then p.Up_limit else 0)) ∧
      mapGet r "downloadLimited" = some (.bool (decide (0 ≤ p.Dl_limit))) ∧
      mapGet r "downloadLimit" = some (.int (if 0 ≤ p.Dl_limit then p.Dl_limit else 0)) ∧
      (∃ up down : Int, 0 ≤ up ∧ 0 ≤ down ∧ mapGet r "uploadLimit" = some (.int up) ∧
        mapGet r "downloadLimit" = some (.int down)) ∧
      mapGet r "haveValid" = some (.int (wrapInt (p.Piece_size * p.Pieces_have))) ∧
      (-(2 ^ 63) ≤ p.Piece_size * p.Pieces_have → p.Piece_size * p.Pieces_have < 2 ^ 63 →
        mapGet r "haveValid" = some (.int (p.Piece_size * p.Pieces_have))) := by
  refine ⟨MapPropsGeneral_isSome dst p, ?_, ?_⟩
  · intro h
    rw [MapPropsGeneral_isSome]
    by_cases hneg : p.Pieces_num < 0 ∨ p.Pieces_have < 0
    · simp [MakePiecesBitArray, hneg]
    · have hle : p.Pieces_have ≤ 8 * ((p.Pieces_num + 7) / 8) := by omega
      have hn : ¬ MakePiecesBitArray p.Pieces_num p.Pieces_have = none := by
        rw [MakePiecesBitArray_none_iff _ _ (by omega) (by omega)]
        omega
      cases hm : MakePiecesBitArray p.Pieces_num p.Pieces_have with
      | none => exact absurd hm hn
      | some v => rfl
  intro r hr
  simp only [MapPropsGeneral, Option.map_eq_some'] at hr
  obtain ⟨pieces, _, rfl⟩ := hr
  have hv : ∀ r2 : JsonMap, mapGet r2 "haveValid"
        = some (.int (wrapInt (p.Piece_size * p.Pieces_have))) →
      (-(2 ^ 63) ≤ p.Piece_size * p.Pieces_have → p.Piece_size * p.Pieces_have < 2 ^ 63 →
        mapGet r2 "haveValid" = some (.int (p.Piece_size * p.Pieces_have))) := by
    intro r2 h2 hlo hhi
    rw [h2, wrapInt_eq _ hlo hhi]
  by_cases hu : 0 ≤ p.Up_limit <;> by_cases hd : 0 ≤ p.Dl_limit
  all_goals
    refine ⟨?_, ?_, ?_, ?_, ⟨if 0 ≤ p.Up_limit then p.Up_limit else 0,
      if 0 ≤ p.Dl_limit then p.Dl_limit else 0, ?_, ?_, ?_, ?_⟩, ?_, hv _ ?_⟩ <;>
    simp [hu, hd, mapGet_mapSet_ne, mapGet_mapSet_same]

/-- C13 refuted as stated: on a record with `Pieces_num` 8, `Pieces_have` 16 and the
upload limit 3 `MapPropsGeneral` panics at line 208, before the limits are looked at,
and sets nothing; and on a record with the piece size `2^62` and four pieces there it
returns with `haveValid` 0, while `Piece_size * Pieces_have` is `2^64`. -/
theorem MapPropsGeneral_not_every_record :
    (0 ≤ panicProps.Up_limit ∧ MapPropsGeneral [] panicProps = none) ∧
    (MapPropsGeneral [] overflowProps).bind (fun r => mapGet r "haveValid")
      = some (.int 0) ∧
    overflowProps.Piece_size * overflowProps.Pieces_have = 18446744073709551616 ∧
    (0 : Int) ≠ 18446744073709551616 :=
  ⟨⟨by decide, rfl⟩, rfl, by decide, by decide⟩

/-- C13, as the code has it, on a record without upload limit and with the download
limit 5. -/
theorem MapPropsGeneral_limits_witness :
    (sampleProps.Pieces_have ≤ 8 * ((sampleProps.Pieces_num + 7) / 8) ∧
      (MapPropsGeneral [] sampleProps).isSome = true) ∧
    ∃ r : JsonMap, MapPropsGeneral [] sampleProps = some r ∧
      mapGet r "uploadLimited" = some (.bool false) ∧
      mapGet r "uploadLimit" = some (.int 0) ∧
      mapGet r "downloadLimited" = some (.bool true) ∧
      mapGet r "downloadLimit" = some (.int 5) ∧
      (∃ up down : Int, 0 ≤ up ∧ 0 ≤ down ∧ mapGet r "uploadLimit" = some (.int up) ∧
        mapGet r "downloadLimit" = some (.int down)) ∧
      mapGet r "haveValid" = some (.int (wrapInt (16384 * 4))) ∧
      (-(2 ^ 63) ≤ sampleProps.Piece_size * sampleProps.Pieces_have →
        sampleProps.Piece_size * sampleProps.Pieces_have < 2 ^ 63 →
        mapGet r "haveValid" = some (.int (16384 * 4))) :=
  ⟨⟨by decide, (MapPropsGeneral_limits [] sampleProps).2.1 (Or.inr (Or.inr (by decide)))⟩,
    _, rfl, (MapPropsGeneral_limits [] sampleProps).2.2 _ rfl⟩

/-! ### Magnet links -/

theorem isUpper_iff_toNat (c : Char) : c.isUpper = true ↔ 65 ≤ c.toNat ∧ c.toNat ≤ 90 := by
  unfold Char.isUpper Char.toNat
  simp only [Bool.and_eq_true, decide_eq_true_eq, ge_iff_le, UInt32.le_def, BitVec.le_def]
  rfl

theorem ofNat_lowered : ∀ n < 91, 65 ≤ n → (Char.ofNat (n + 32)).isUpper = false := by decide

theorem toLower_isUpper (c : Char) : (Char.toLower c).isUpper = false := by
  unfold Char.toLower
  by_cases h : c.toNat ≥ 65 ∧ c.toNat ≤ 90
  · simp only [h, and_self, if_true]
    exact ofNat_lowered c.toNat (by omega) h.1
  · simp only [h, if_false]
    rw [← Bool.not_eq_true, isUpper_iff_toNat]
    exact h

theorem lowerRune_ascii (ext : Ext) (c : Char) (h : c.toNat < 128) :
    lowerRune ext c = Char.toLower c := by
  simp only [lowerRune, h, if_true]

theorem ToLower_no_upper (ext : Ext) (s : String) (hs : isASCII s = true) :
    ∀ ch ∈ (ToLower ext s).toList, ch.isUpper = false := by
  intro ch hch
  simp only [ToLower, String.toList, List.mem_map] at hch
  obtain ⟨c, hc, rfl⟩ := hch
  simp only [isASCII, String.toList, List.all_eq_true, decide_eq_true_eq] at hs
  rw [lowerRune_ascii ext c (hs c hc)]
  exact toLower_isUpper c

theorem trimStart_append (pre s : String) : trimStart (pre ++ s) pre = s := by
  have hp : startsWith (pre ++ s) pre = true := by
    simp [startsWith, String.toList, String.data_append]
  simp only [trimStart, hp, if_true, String.toList, String.data_append, String.length,
    List.drop_left]

theorem ParseMagnetLink_eq (ext : Ext) (query : String) (params : List (String × List String))
    (x : String) (xs : List String)
    (hq : ext.ParseQuery query = some params)
    (hxt : valuesGet params "xt" = some (x :: xs)) :
    ParseMagnetLink ext ("magnet:?" ++ query)
      = match valuesGet params "dn" with
        | some name => name.head?.map fun n => (ToLower ext (trimStart x "urn:btih:"), n)
        | none => some (ToLower ext (trimStart x "urn:btih:"), "Torrent name") := by
  simp only [ParseMagnetLink, trimStart_append, hq, Option.some_bind, hxt, Option.getD_some,
    List.head?_cons]

theorem lower_of_upper : ∀ n < 123, 97 ≤ n →
    Char.toLower (Char.ofNat (n - 32)) = Char.ofNat n := by decide

theorem upper_is_ascii : ∀ n < 123, 97 ≤ n → (Char.ofNat (n - 32)).toNat < 128 := by decide

theorem toLower_toUpper (c : Char) : Char.toLower (Char.toUpper c) = Char.toLower c := by
  by_cases h : c.toNat ≥ 97 ∧ c.toNat ≤ 122
  · have h1 : Char.toUpper c = Char.ofNat (c.toNat - 32) := by
      simp only [Char.toUpper, h, and_self, if_true]
    have h2 : Char.toLower c = c := by
      have : ¬ (c.toNat ≥ 65 ∧ c.toNat ≤ 90) := by omega
      simp only [Char.toLower, this, if_false]
    rw [h1, h2, lower_of_upper c.toNat (by omega) h.1, Char.ofNat_toNat]
  · have h1 : Char.toUpper c = c := by
      simp only [Char.toUpper, h, if_false]
    rw [h1]

/-- Lower-casing does not see the case of an ASCII letter; a rune that is no small ASCII
letter is the same in both spellings. -/
theorem lowerRune_toUpper (ext : Ext) (c : Char) :
    lowerRune ext (Char.toUpper c) = lowerRune ext c := by
  by_cases h : c.toNat ≥ 97 ∧ c.toNat ≤ 122
  · have h1 : Char.toUpper c = Char.ofNat (c.toNat - 32) := by
      simp only [Char.toUpper, h, and_self, if_true]
    have h2 : (Char.toUpper c).toNat < 128 := by
      rw [h1]
      exact upper_is_ascii c.toNat (by omega) h.1
    rw [lowerRune_ascii ext _ h2, lowerRune_ascii ext c (by omega), toLower_toUpper]
  · have h1 : Char.toUpper c = c := by
      simp only [Char.toUpper, h, if_false]
    rw [h1]

theorem ToLower_asciiUpper (ext : Ext) (t : String) :
    ToLower ext (asciiUpper t) = ToLower ext t := by
  simp only [ToLower, asciiUpper, String.toList, List.map_map]
  congr 1
  apply List.map_congr_left
  intro c _
  exact lowerRune_toUpper ext c

/-- C14, as the code has it: for a link `magnet:?` + query whose query `url.ParseQuery`
decodes, with an `xt` value, `ParseMagnetLink` returns as hash the first `xt` value
without its prefix `urn:btih:` and lower-cased by `strings.ToLower`; a hash of ASCII
runes then has no upper-case letter, and two links whose hashes differ only in the case
of ASCII letters get the same answer; as name it returns the first `dn` value when there
is one and `"Torrent name"` when the query has no `dn`. -/
theorem ParseMagnetLink_spec (ext : Ext) (query : String)
    (params : List (String × List String)) (x : String) (xs : List String)
    (hq : ext.ParseQuery query = some params)
    (hxt : valuesGet params "xt" = some (x :: xs)) :
    (∀ d ds, valuesGet params "dn" = some (d :: ds) →
      ParseMagnetLink ext ("magnet:?" ++ query)
        = some (ToLower ext (trimStart x "urn:btih:"), d)) ∧
    (valuesGet params "dn" = none →
      ParseMagnetLink ext ("magnet:?" ++ query)
        = some (ToLower ext (trimStart x "urn:btih:"), "Torrent name")) ∧
    (∀ t, x = "urn:btih:" ++ t → trimStart x "urn:btih:" = t) ∧
    (isASCII (trimStart x "urn:btih:") = true →
      ∀ ch ∈ (ToLower ext (trimStart x "urn:btih:")).toList, ch.isUpper = false) ∧
    (∀ (query2 : String) (params2 : List (String × List String)) (y : String)
      (ys : List String),
      ext.ParseQuery query2 = some params2 → valuesGet params2 "xt" = some (y :: ys) →
      valuesGet params2 "dn" = valuesGet params "dn" →
      asciiUpper (trimStart y "urn:btih:") = asciiUpper (trimStart x "urn:btih:") →
      ParseMagnetLink ext ("magnet:?" ++ query2) = ParseMagnetLink ext ("magnet:?" ++ query)) := by
  have heq := ParseMagnetLink_eq ext query params x xs hq hxt
  refine ⟨?_, ?_, ?_, ToLower_no_upper ext _, ?_⟩
  · intro d ds hdn
    rw [heq, hdn]
    rfl
  · intro hdn
    rw [heq, hdn]
  · intro t ht
    rw [ht, trimStart_append]
  · intro query2 params2 y ys hq2 hxt2 hdn hy
    rw [heq, ParseMagnetLink_eq ext query2 params2 y ys hq2 hxt2, hdn,
      ← ToLower_asciiUpper ext (trimStart y "urn:btih:"), hy, ToLower_asciiUpper]

/-- C14 refuted as stated: the query of the link `magnet:?xt=urn:btih:ABC&dn=%zz` has an
`xt` parameter, but `url.ParseQuery` reports the invalid escape `%zz`, `Check` aborts at
line 481, and `ParseMagnetLink` returns no hash and no name. -/
theorem ParseMagnetLink_bad_escape :
    startsWith "xt=urn:btih:ABC&dn=%zz" "xt=" = true ∧
    escapeExt.ParseQuery "xt=urn:btih:ABC&dn=%zz" = none ∧
    ParseMagnetLink escapeExt ("magnet:?" ++ "xt=urn:btih:ABC&dn=%zz") = none := by
  decide

/-- C14, as the code has it, on a link with a name and on a link without. -/
theorem ParseMagnetLink_spec_witness :
    (sampleExt.ParseQuery "xt=urn:btih:DEF&dn=Film"
        = some [("xt", ["urn:btih:DEF"]), ("dn", ["Film"])] ∧
      valuesGet [("xt", ["urn:btih:DEF"]), ("dn", ["Film"])] "xt" = some ["urn:btih:DEF"] ∧
      valuesGet [("xt", ["urn:btih:DEF"]), ("dn", ["Film"])] "dn" = some ["Film"] ∧
      sampleExt.ParseQuery "xt=urn:btih:ABC" = some [("xt", ["urn:btih:ABC"])] ∧
      valuesGet [("xt", ["urn:btih:ABC"])] "xt" = some ["urn:btih:ABC"] ∧
      valuesGet [("xt", ["urn:btih:ABC"])] "dn" = none ∧
      isASCII (trimStart "urn:btih:ABC" "urn:btih:") = true) ∧
    ParseMagnetLink sampleExt ("magnet:?" ++ "xt=urn:btih:DEF&dn=Film") = some ("def", "Film") ∧
    ParseMagnetLink sampleExt ("magnet:?" ++ "xt=urn:btih:ABC")
      = some ("abc", "Torrent name") ∧
    (∀ ch ∈ (ToLower sampleExt (trimStart "urn:btih:ABC" "urn:btih:")).toList,
      ch.isUpper = false) :=
  ⟨⟨rfl, by decide, by decide, rfl, by decide, by decide, by decide⟩,
    (ParseMagnetLink_spec sampleExt "xt=urn:btih:DEF&dn=Film"
      [("xt", ["urn:btih:DEF"]), ("dn", ["Film"])] "urn:btih:DEF" [] rfl (by decide)).1
      "Film" [] (by decide),
    (ParseMagnetLink_spec sampleExt "xt=urn:btih:ABC" [("xt", ["urn:btih:ABC"])]
      "urn:btih:ABC" [] rfl (by decide)).2.1 (by decide),
    (ParseMagnetLink_spec sampleExt "xt=urn:btih:ABC" [("xt", ["urn:btih:ABC"])]
      "urn:btih:ABC" [] rfl (by decide)).2.2.2.1 (by decide)⟩

/-- C16: when the `ids` argument decodes to a JSON string, `parseIDsField` and
`parseIDsArgument` return what they return without argument: the ids of all slots, and
of these the ones whose slot is not empty. -/
theorem parseIDs_marker (ext : Ext) (c : Connection) (raw s : String)
    (h : ext.Unmarshal raw = some (.str s)) :
    parseIDsField ext c (some raw) = parseIDsField ext c none ∧
    parseIDsArgument ext c (some raw) = parseIDsArgument ext c none ∧
    parseIDsField ext c none = some (allIds c) := by
  have hf : parseIDsField ext c (some raw) = parseIDsField ext c none := by
    simp only [parseIDsField, h]
  exact ⟨hf, by simp only [parseIDsArgument, hf], rfl⟩

/-- C16 on the marker `"recently-active"` and a table with a tombstone. -/
theorem parseIDs_marker_witness :
    sampleExt.Unmarshal "\"recently-active\"" = some (.str "recently-active") ∧
    parseIDsField sampleExt (sampleConn ["abc", "", "def"]) (some "\"recently-active\"")
      = some [1, 2, 3] ∧
    parseIDsArgument sampleExt (sampleConn ["abc", "", "def"]) (some "\"recently-active\"")
      = some [1, 3] ∧
    parseIDsField sampleExt (sampleConn ["abc", "", "def"]) (some "\"recently-active\"")
      = parseIDsField sampleExt (sampleConn ["abc", "", "def"]) none ∧
    parseIDsArgument sampleExt (sampleConn ["abc", "", "def"]) (some "\"recently-active\"")
      = parseIDsArgument sampleExt (sampleConn ["abc", "", "def"]) none ∧
    parseIDsField sampleExt (sampleConn ["abc", "", "def"]) none
      = some (allIds (sampleConn ["abc", "", "def"])) :=
  ⟨rfl, by decide, by decide,
    parseIDs_marker sampleExt (sampleConn ["abc", "", "def"]) "\"recently-active\""
      "recently-active" rfl⟩

/-! ### File priorities -/

theorem mem_prioSet (m : List (Int × Int)) (f0 p0 f p : Int) :
    (f, p) ∈ prioSet m f0 p0 ↔ (f = f0 ∧ p = p0) ∨ (f ≠ f0 ∧ (f, p) ∈ m) := by
  unfold prioSet
  by_cases hany : (m.any fun e => e.1 == f0) = true
  · rw [if_pos hany]
    rw [List.any_eq_true] at hany
    obtain ⟨e0, he0, hk⟩ := hany
    have hk0 : e0.1 = f0 := by simpa using hk
    simp only [List.mem_map]
    constructor
    · rintro ⟨e, he, hfe⟩
      by_cases hef : e.1 = f0
      · rw [if_pos hef] at hfe
        simp only [Prod.mk.injEq] at hfe
        exact Or.inl ⟨hfe.1.symm, hfe.2.symm⟩
      · rw [if_neg hef] at hfe
        subst hfe
        exact Or.inr ⟨hef, he⟩
    · rintro (⟨rfl, rfl⟩ | ⟨hne, hmem⟩)
      · exact ⟨e0, he0, by rw [if_pos hk0]⟩
      · exact ⟨(f, p), hmem, by rw [if_neg hne]⟩
  · rw [if_neg hany]
    have hno : ∀ e ∈ m, e.1 ≠ f0 := by
      intro e he hef
      apply hany
      rw [List.any_eq_true]
      exact ⟨e, he, by simpa using hef⟩
    simp only [List.mem_append, List.mem_singleton, Prod.mk.injEq]
    constructor
    · rintro (hmem | ⟨rfl, rfl⟩)
      · exact Or.inr ⟨hno _ hmem, hmem⟩
      · exact Or.inl ⟨rfl, rfl⟩
    · rintro (⟨rfl, rfl⟩ | ⟨_, hmem⟩)
      · exact Or.inr ⟨rfl, rfl⟩
      · exact Or.inl hmem

theorem prioSet_keys_nodup (m : List (Int × Int)) (f0 p0 : Int)
    (h : (m.map Prod.fst).Nodup) : ((prioSet m f0 p0).map Prod.fst).Nodup := by
  unfold prioSet
  by_cases hany : (m.any fun e => e.1 == f0) = true
  · rw [if_pos hany]
    have : (m.map fun e => if e.1 = f0 then (f0, p0) else e).map Prod.fst = m.map Prod.fst := by
      rw [List.map_map]
      apply List.map_congr_left
      intro e _
      by_cases hef : e.1 = f0
      · simp [hef]
      · simp [hef]
    rw [this]
    exact h
  · rw [if_neg hany]
    rw [List.map_append, List.nodup_append]
    refine ⟨h, by simp, ?_⟩
    intro a ha hb
    simp only [List.map_cons, List.map_nil, List.mem_singleton] at hb
    subst hb
    apply hany
    rw [List.any_eq_true]
    obtain ⟨e, he, hea⟩ := List.mem_map.1 ha
    exact ⟨e, he, by simpa using hea⟩

theorem mem_prioLoop (l : List Int) (p0 : Int) (m : List (Int × Int)) (f p : Int) :
    (f, p) ∈ l.foldl (fun m fileId => prioSet m fileId p0) m
      ↔ (f ∈ l ∧ p = p0) ∨ (f ∉ l ∧ (f, p) ∈ m) := by
  induction l generalizing m with
  | nil => simp
  | cons a l ih =>
    rw [List.foldl_cons, ih, mem_prioSet]
    simp only [List.mem_cons]
    constructor
    · rintro (⟨hl, hp⟩ | ⟨hnl, (⟨hfa, hp⟩ | ⟨hfa, hm⟩)⟩)
      · exact Or.inl ⟨Or.inr hl, hp⟩
      · exact Or.inl ⟨Or.inl hfa, hp⟩
      · exact Or.inr ⟨fun h => h.elim hfa hnl, hm⟩
    · rintro (⟨hfa | hl, hp⟩ | ⟨hn, hm⟩)
      · by_cases hl : f ∈ l
        · exact Or.inl ⟨hl, hp⟩
        · exact Or.inr ⟨hl, Or.inl ⟨hfa, hp⟩⟩
      · exact Or.inl ⟨hl, hp⟩
      · exact Or.inr ⟨fun h => hn (Or.inr h), Or.inr ⟨fun h => hn (Or.inl h), hm⟩⟩

theorem prioLoop_keys_nodup (l : List Int) (p0 : Int) (m : List (Int × Int))
    (h : (m.map Prod.fst).Nodup) :
    ((l.foldl (fun m fileId => prioSet m fileId p0) m).map Prod.fst).Nodup := by
  induction l generalizing m with
  | nil => exact h
  | cons a l ih => exact ih _ (prioSet_keys_nodup m a p0 h)

/-- The map `newFilesPriorities`: one entry per file index, priority 0 for an unwanted
index and 1 for an index that is wanted only. -/
theorem newFilesPriorities_spec (wanted unwanted : Option (List Int)) :
    ((newFilesPriorities wanted unwanted).map Prod.fst).Nodup ∧
    ∀ f p : Int, (f, p) ∈ newFilesPriorities wanted unwanted ↔
      (f ∈ unwanted.getD [] ∧ p = 0) ∨
      (f ∈ wanted.getD [] ∧ f ∉ unwanted.getD [] ∧ p = 1) := by
  constructor
  · exact prioLoop_keys_nodup _ 0 _ (prioLoop_keys_nodup _ 1 [] (by simp))
  · intro f p
    unfold newFilesPriorities
    simp only [mem_prioLoop, List.not_mem_nil, and_false, or_false]
    constructor
    · rintro (h | ⟨hn, hw, hp⟩)
      · exact Or.inl h
      · exact Or.inr ⟨hw, hn, hp⟩
    · rintro (h | ⟨hw, hn, hp⟩)
      · exact Or.inl h
      · exact Or.inr ⟨hn, hw, hp⟩

/-- The loop of `TorrentSet` over the priorities: one form post per entry, keyed by the
hash of the id, and nothing else changes. -/
theorem setFilePrio_loop (id : Int) (l : List (Int × Int)) (c : Connection) :
    (l.foldl
        (fun c e =>
          PostForm c "/command/setFilePrio"
            [("hash", GetHashForId c id), ("id", toString e.1), ("priority", toString e.2)])
        c).HashIds = c.HashIds ∧
    (l.foldl
        (fun c e =>
          PostForm c "/command/setFilePrio"
            [("hash", GetHashForId c id), ("id", toString e.1), ("priority", toString e.2)])
        c).trace
      = c.trace ++ l.map fun e =>
          Call.PostForm "/command/setFilePrio"
            [("hash", GetHashForId c id), ("id", toString e.1), ("priority", toString e.2)] := by
  induction l generalizing c with
  | nil => simp
  | cons e l ih =>
    rw [List.foldl_cons]
    obtain ⟨h1, h2⟩ := ih (PostForm c "/command/setFilePrio"
      [("hash", GetHashForId c id), ("id", toString e.1), ("priority", toString e.2)])
    refine ⟨h1, ?_⟩
    rw [h2]
    simp [PostForm, GetHashForId]

/-- C20: a torrent-set request without `files-wanted` and `files-unwanted` sends nothing
and answers `"success"`; with one of them, ids that do not parse to exactly one id send
nothing and answer `"Unsupported torrent-set request"`, and a single id gets one
`setFilePrio` post per distinct file index, keyed by the hash of the id, with priority 0
for an index in `files-unwanted` and 1 for an index in `files-wanted` only, and the
answer `"success"`. -/
theorem TorrentSet_priorities (ext : Ext) (c : Connection) (args : String) (req : SetRequest)
    (hreq : ext.UnmarshalSetRequest args = some req) :
    (req.Files_wanted = none → req.Files_unwanted = none →
      TorrentSet ext c args = some (c, [], "success")) ∧
    ((req.Files_wanted.isSome || req.Files_unwanted.isSome) = true →
      ∀ ids : List Int, parseIDsField ext c req.Ids = some ids →
        (ids.length ≠ 1 →
          TorrentSet ext c args = some (c, [], "Unsupported torrent-set request")) ∧
        (∀ id : Int, ids = [id] →
          ∃ c1 : Connection, TorrentSet ext c args = some (c1, [], "success") ∧
            c1.HashIds = c.HashIds ∧
            c1.trace = c.trace ++
              (newFilesPriorities req.Files_wanted req.Files_unwanted).map fun e =>
                Call.PostForm "/command/setFilePrio"
                  [("hash", GetHashForId c id), ("id", toString e.1),
                    ("priority", toString e.2)])) ∧
    ((newFilesPriorities req.Files_wanted req.Files_unwanted).map Prod.fst).Nodup ∧
    ∀ f p : Int, (f, p) ∈ newFilesPriorities req.Files_wanted req.Files_unwanted ↔
      (f ∈ req.Files_unwanted.getD [] ∧ p = 0) ∨
      (f ∈ req.Files_wanted.getD [] ∧ f ∉ req.Files_unwanted.getD [] ∧ p = 1) := by
  refine ⟨?_, ?_, (newFilesPriorities_spec _ _).1, (newFilesPriorities_spec _ _).2⟩
  · intro hw hu
    simp [TorrentSet, hreq, hw, hu]
  · intro hsome ids hids
    constructor
    · intro hlen
      simp only [TorrentSet, hreq, Option.some_bind, hsome, if_true, hids, Option.map_some']
      match ids, hlen with
      | [], _ => rfl
      | _ :: _ :: _, _ => rfl
      | [a], h => exact absurd rfl h
    · intro id hid
      subst hid
      obtain ⟨h1, h2⟩ :=
        setFilePrio_loop id (newFilesPriorities req.Files_wanted req.Files_unwanted) c
      refine ⟨_, ?_, h1, h2⟩
      simp only [TorrentSet, hreq, Option.some_bind, hsome, if_true, hids, Option.map_some']

/-- C20 on a request that wants the files 1 and 2 and does not want 2 and 5. -/
theorem TorrentSet_priorities_witness :
    (setExt.UnmarshalSetRequest "files" = some ⟨some "[1]", some [1, 2], some [2, 5]⟩ ∧
      parseIDsField setExt (sampleConn ["abc"]) (some "[1]") = some [1]) ∧
    (TorrentSet setExt (sampleConn ["abc"]) "files").map (fun r => (r.1.trace, r.2.2))
      = some ([Call.PostForm "/command/setFilePrio"
                [("hash", "abc"), ("id", "1"), ("priority", "1")],
              Call.PostForm "/command/setFilePrio"
                [("hash", "abc"), ("id", "2"), ("priority", "0")],
              Call.PostForm "/command/setFilePrio"
                [("hash", "abc"), ("id", "5"), ("priority", "0")]], "success") ∧
    ∃ c1 : Connection, TorrentSet setExt (sampleConn ["abc"]) "files"
        = some (c1, [], "success") ∧
      c1.HashIds = (sampleConn ["abc"]).HashIds ∧
      c1.trace = (sampleConn ["abc"]).trace ++
        (newFilesPriorities (some [1, 2]) (some [2, 5])).map fun e =>
          Call.PostForm "/command/setFilePrio"
            [("hash", GetHashForId (sampleConn ["abc"]) 1), ("id", toString e.1),
              ("priority", toString e.2)] :=
  ⟨⟨rfl, by decide⟩, by decide,
    ((TorrentSet_priorities setExt (sampleConn ["abc"]) "files"
      ⟨some "[1]", some [1, 2], some [2, 5]⟩ rfl).2.1 rfl [1] (by decide)).2 1 rfl⟩

/-! ### Repeating torrent-get -/

theorem GetHashForId_congr (c c2 : Connection) (h : c2.HashIds = c.HashIds) (id : Int) :
    GetHashForId c2 id = GetHashForId c id := by
  simp [GetHashForId, h]

theorem parseIDsArgument_congr (ext : Ext) (c c2 : Connection) (h : c2.HashIds = c.HashIds)
    (args : Option String) : parseIDsArgument ext c2 args = parseIDsArgument ext c args := by
  have hg : GetHashForId c2 = GetHashForId c := funext (GetHashForId_congr c c2 h)
  have hi : GetIdOfHash c2 = GetIdOfHash c := funext fun x => GetIdOfHash_congr c c2 x h
  have he : idOfElement c2 = idOfElement c := by
    funext v
    cases v <;> simp [idOfElement, hi]
  have ha : allIds c2 = allIds c := by simp [allIds, GetHashNum, h]
  simp only [parseIDsArgument, parseIDsField, hg, he, ha]

theorem translate_congr (ext : Ext) (be : Backend) (c c2 : Connection)
    (h : c2.HashIds = c.HashIds) (tl : List TorrentsList) (id : Int) :
    translate ext be c2 tl id = translate ext be c tl id := by
  have hg : GetHashForId c2 = GetHashForId c := funext (GetHashForId_congr c c2 h)
  simp only [translate, MapTorrentList, findSrc, hg]

theorem fillLoop_congr (l : List TorrentsList) (acc acc2 : Connection × List String)
    (h : acc2.1.HashIds = acc.1.HashIds) :
    (l.foldl
      (fun (acc : Connection × List String) t =>
        match GetIdOfHash acc.1 t.Hash with
        | some _ => acc
        | none => ({ acc.1 with HashIds := acc.1.HashIds ++ [t.Hash] }, acc.2 ++ [t.Hash]))
      acc2).1.HashIds
    = (l.foldl
      (fun (acc : Connection × List String) t =>
        match GetIdOfHash acc.1 t.Hash with
        | some _ => acc
        | none => ({ acc.1 with HashIds := acc.1.HashIds ++ [t.Hash] }, acc.2 ++ [t.Hash]))
      acc).1.HashIds := by
  induction l generalizing acc acc2 with
  | nil => exact h
  | cons t l ih =>
    simp only [List.foldl_cons]
    rw [GetIdOfHash_congr acc.1 acc2.1 t.Hash h]
    cases hg : GetIdOfHash acc.1 t.Hash with
    | some i => exact ih acc acc2 h
    | none =>
      apply ih
      simp [h]

theorem FillIDs_congr (c c2 : Connection) (h : c2.HashIds = c.HashIds) (l : List TorrentsList) :
    (FillIDs c2 l).1.HashIds = (FillIDs c l).1.HashIds :=
  fillLoop_congr l (c, []) (c2, []) h

/-- The table that `listAndFill` leaves depends on the table it finds and on the
listing it receives. -/
theorem listAndFill_HashIds (be : Backend) (c : Connection) :
    (listAndFill be c).2 = be.GetTorrentList (c.trace.count Call.GetTorrentList) ∧
    (listAndFill be c).1.HashIds
      = (if c.HashIds = [] then
          (FillIDs c (be.GetTorrentList (c.trace.count Call.GetTorrentList))).1.HashIds
        else c.HashIds) ∧
    (listAndFill be c).1.trace = c.trace ++ [Call.GetTorrentList] := by
  refine ⟨rfl, ?_, ?_⟩
  · by_cases he : c.HashIds = []
    · rw [if_pos he]
      simp only [listAndFill, GetTorrentList, GetHashNum, he, List.length_nil, Nat.cast_zero,
        if_true]
      exact FillIDs_congr c _ (by simp [he]) _
    · rw [if_neg he]
      have : ¬ ((c.HashIds.length : Int) = 0) := by
        intro h0
        apply he
        exact List.length_eq_zero.1 (by exact_mod_cast h0)
      simp only [listAndFill, GetTorrentList, GetHashNum, this, if_false]
  · by_cases h0 : (c.HashIds.length : Int) = 0
    · simp only [listAndFill, GetTorrentList, GetHashNum, h0, if_true, FillIDs_trace]
    · simp only [listAndFill, GetTorrentList, GetHashNum, h0, if_false]

theorem TorrentGet_eq (ext : Ext) (be : Backend) (c : Connection) (args : String) :
    TorrentGet ext be c args
      = (ext.UnmarshalGetRequest args).bind fun req =>
          (parseIDsArgument ext (listAndFill be c).1 req.Ids).bind fun ids =>
            (mapCheck
              (fun id => (translate ext be (listAndFill be c).1 (listAndFill be c).2 id).map
                (dropUnneeded req.Fields)) ids).map fun resultList =>
              ({ (listAndFill be c).1 with
                  trace := (listAndFill be c).1.trace ++ ids.flatMap propsCalls },
                [("torrents", JVal.arr (resultList.map JVal.obj))], "success") :=
  rfl

theorem count_listing_props (ids : List Int) :
    (ids.flatMap propsCalls).count Call.GetTorrentList = 0 := by
  rw [List.count_eq_zero]
  intro hm
  simp only [List.mem_flatMap, propsCalls, List.mem_cons, List.mem_singleton,
    List.not_mem_nil, or_false] at hm
  obtain ⟨id, _, h | h | h⟩ := hm <;> exact Call.noConfusion h

/-- C17: when the backend answers the next listing as it answered the last one, a
second `TorrentGet` with the same arguments, started in the state that the first one
left, returns the same arguments object and result as the first, and leaves the
identity table as it found it. -/
theorem TorrentGet_repeatable (ext : Ext) (be : Backend) (c c1 : Connection) (args : String)
    (resp : JsonMap) (result : String)
    (hsame : be.GetTorrentList (c.trace.count Call.GetTorrentList + 1)
      = be.GetTorrentList (c.trace.count Call.GetTorrentList))
    (h1 : TorrentGet ext be c args = some (c1, resp, result)) :
    ∃ c2 : Connection, TorrentGet ext be c1 args = some (c2, resp, result) ∧
      c2.HashIds = c1.HashIds := by
  rw [TorrentGet_eq] at h1
  cases hreq : ext.UnmarshalGetRequest args with
  | none => simp [hreq] at h1
  | some req =>
    cases hids : parseIDsArgument ext (listAndFill be c).1 req.Ids with
    | none => simp [hreq, hids] at h1
    | some ids =>
      simp only [hreq, hids, Option.some_bind, Option.map_eq_some'] at h1
      obtain ⟨objs, hobjs, hres⟩ := h1
      simp only [Prod.mk.injEq] at hres
      obtain ⟨hc1, hresp, hresult⟩ := hres
      obtain ⟨htl, hhash, htrace⟩ := listAndFill_HashIds be c
      have hc1ids : c1.HashIds = (listAndFill be c).1.HashIds := by rw [← hc1]
      have hc1tr : c1.trace = c.trace ++ [Call.GetTorrentList] ++ ids.flatMap propsCalls := by
        rw [← hc1, ← htrace]
      have hcount : c1.trace.count Call.GetTorrentList
          = c.trace.count Call.GetTorrentList + 1 := by
        rw [hc1tr]
        simp [List.count_append, count_listing_props]
      obtain ⟨htl2, hhash2, _⟩ := listAndFill_HashIds be c1
      have htl_eq : (listAndFill be c1).2 = (listAndFill be c).2 := by
        rw [htl2, htl, hcount, hsame]
      have hids_eq : (listAndFill be c1).1.HashIds = (listAndFill be c).1.HashIds := by
        rw [hhash2]
        by_cases he : c1.HashIds = []
        · rw [if_pos he, hcount, hsame]
          have hce : c.HashIds = [] := by
            by_contra hne
            rw [if_neg hne] at hhash
            rw [hc1ids, hhash] at he
            exact hne he
          rw [FillIDs_congr c c1 (by rw [he, hce]), hhash, if_pos hce]
        · rw [if_neg he, hc1ids]
      have hp : parseIDsArgument ext (listAndFill be c1).1 req.Ids = some ids := by
        rw [parseIDsArgument_congr ext _ _ hids_eq, hids]
      have ht : (fun id => (translate ext be (listAndFill be c1).1 (listAndFill be c1).2 id).map
            (dropUnneeded req.Fields))
          = fun id => (translate ext be (listAndFill be c).1 (listAndFill be c).2 id).map
            (dropUnneeded req.Fields) := by
        funext id
        rw [htl_eq, translate_congr ext be _ _ hids_eq]
      refine ⟨{ (listAndFill be c1).1 with
          trace := (listAndFill be c1).1.trace ++ ids.flatMap propsCalls }, ?_, ?_⟩
      · rw [TorrentGet_eq]
        simp only [hreq, hp, Option.some_bind, ht, hobjs, Option.map_some', hresp, hresult]
      · show (listAndFill be c1).1.HashIds = c1.HashIds
        rw [hids_eq, hc1ids]

/-- C17 on the request of two fields against a backend with one torrent. -/
theorem TorrentGet_repeatable_witness :
    ∃ (c1 : Connection) (resp : JsonMap),
      sampleBackend.GetTorrentList ((sampleConn []).trace.count Call.GetTorrentList + 1)
        = sampleBackend.GetTorrentList ((sampleConn []).trace.count Call.GetTorrentList) ∧
      TorrentGet sampleExt sampleBackend (sampleConn []) "two" = some (c1, resp, "success") ∧
      c1.HashIds = ["abc"] ∧
      ∃ c2 : Connection, TorrentGet sampleExt sampleBackend c1 "two"
          = some (c2, resp, "success") ∧
        c2.HashIds = c1.HashIds :=
  ⟨_, _, rfl, rfl, rfl,
    TorrentGet_repeatable sampleExt sampleBackend (sampleConn []) _ "two" _ "success" rfl rfl⟩

/-! ### When torrent-get reconciles -/

theorem findSrc_loop_hash (target : String) (l : List TorrentsList) (src : TorrentsList)
    (h : src = TorrentsList.zero ∨ src.Hash = target) :
    l.foldl (fun src value => if value.Hash = target then value else src) src
        = TorrentsList.zero ∨
      (l.foldl (fun src value => if value.Hash = target then value else src) src).Hash
        = target := by
  induction l generalizing src with
  | nil => exact h
  | cons t l ih =>
    rw [List.foldl_cons]
    apply ih
    by_cases ht : t.Hash = target
    · rw [if_pos ht]
      exact Or.inr ht
    · rw [if_neg ht]
      exact h

/-- The record that `MapTorrentList` reads is the zero record or a listed torrent
with the hash of the id. -/
theorem findSrc_hash (c : Connection) (l : List TorrentsList) (id : Int) :
    (findSrc c l id).Hash = "" ∨ (findSrc c l id).Hash = GetHashForId c id := by
  rcases findSrc_loop_hash (GetHashForId c id) l TorrentsList.zero (Or.inl rfl) with h | h
  · left
    unfold findSrc
    rw [h]
    rfl
  · exact Or.inr h

theorem translate_hashString (ext : Ext) (be : Backend) (c : Connection)
    (tl : List TorrentsList) (id : Int) (t : JsonMap)
    (ht : translate ext be c tl id = some t) :
    mapGet t "hashString" = some (.str (findSrc c tl id).Hash) := by
  simp only [translate, Option.map_eq_some'] at ht
  obtain ⟨g, hg, rfl⟩ := ht
  simp only [MapPropsGeneral, Option.map_eq_some'] at hg
  obtain ⟨pc, _, rfl⟩ := hg
  split_ifs <;>
    simp [MapPropsFiles, MapPropsTrackers, MapTorrentList, mapGet_mapSet_ne,
      mapGet_mapSet_same]

theorem GetHashForId_mem (c : Connection) (id : Int) (h : GetHashForId c id ≠ "") :
    GetHashForId c id ∈ c.HashIds := by
  obtain ⟨h1, x, hx, _⟩ := (GetHashForId_ne_empty c id).1 h
  have hg : GetHashForId c id = x := by
    unfold GetHashForId
    rw [if_pos h1, List.getD_eq_getElem?_getD, hx]
    rfl
  rw [hg]
  exact List.getElem?_mem hx

theorem GetIdOfHash_some_mem (c : Connection) (h : String) (id : Int)
    (hs : GetIdOfHash c h = some id) : h ∈ c.HashIds := by
  unfold GetIdOfHash at hs
  by_contra hn
  rw [if_neg hn] at hs
  exact Option.noConfusion hs

theorem fillLoop_listed (l : List TorrentsList) (acc : Connection × List String) :
    ∀ t ∈ l, t.Hash ∈ (l.foldl
      (fun (acc : Connection × List String) t =>
        match GetIdOfHash acc.1 t.Hash with
        | some _ => acc
        | none => ({ acc.1 with HashIds := acc.1.HashIds ++ [t.Hash] }, acc.2 ++ [t.Hash]))
      acc).1.HashIds := by
  induction l generalizing acc with
  | nil => intro t ht; simp at ht
  | cons a l ih =>
    intro t ht
    rw [List.foldl_cons]
    rcases List.mem_cons.1 ht with hta | htl
    · subst hta
      obtain ⟨_, _, ⟨e, he⟩, _⟩ := fillLoop_inv l
        (match GetIdOfHash acc.1 t.Hash with
          | some _ => acc
          | none => ({ acc.1 with HashIds := acc.1.HashIds ++ [t.Hash] }, acc.2 ++ [t.Hash]))
      rw [he]
      apply List.mem_append_left
      cases hg : GetIdOfHash acc.1 t.Hash with
      | some i => exact GetIdOfHash_some_mem _ _ i hg
      | none => simp
    · exact ih _ t htl

/-- After a reconcile every listed hash has a slot. -/
theorem FillIDs_listed (c : Connection) (l : List TorrentsList) :
    ∀ t ∈ l, t.Hash ∈ (FillIDs c l).1.HashIds :=
  fillLoop_listed l (c, [])

theorem forall2_mem_right {α β : Type} {R : α → β → Prop} {l : List α} {os : List β}
    (h : List.Forall₂ R l os) : ∀ o ∈ os, ∃ a ∈ l, R a o := by
  induction h with
  | nil => intro o ho; simp at ho
  | cons hhead _ ih =>
    intro o ho
    rcases List.mem_cons.1 ho with rfl | hrest
    · exact ⟨_, List.mem_cons_self _ _, hhead⟩
    · obtain ⟨a, ha, hr⟩ := ih o hrest
      exact ⟨a, List.mem_cons_of_mem _ ha, hr⟩

/-- C21: `TorrentGet` reconciles the identity table with the listing exactly when the
table has no slot.  On a table without slot the table after the call is the reconciled
one, in which every listed hash has a slot.  On a table with a slot, tombstoned or not,
the table is left as it was, and a hash without slot is absent from the response
whatever the `ids` argument: no returned id resolves to it and no returned object
carries it as `hashString`. -/
theorem TorrentGet_reconciles_empty_only (ext : Ext) (be : Backend) (c c1 : Connection)
    (args : String) (resp : JsonMap) (result : String)
    (h1 : TorrentGet ext be c args = some (c1, resp, result)) :
    (c.HashIds = [] →
      c1.HashIds
          = (FillIDs c (be.GetTorrentList (c.trace.count Call.GetTorrentList))).1.HashIds ∧
      ∀ t ∈ be.GetTorrentList (c.trace.count Call.GetTorrentList), t.Hash ∈ c1.HashIds) ∧
    (c.HashIds ≠ [] →
      c1.HashIds = c.HashIds ∧
      ∃ (req : GetRequest) (ids : List Int) (objs : List JsonMap),
        ext.UnmarshalGetRequest args = some req ∧
        parseIDsArgument ext c req.Ids = some ids ∧
        resp = [("torrents", JVal.arr (objs.map JVal.obj))] ∧
        objs.length = ids.length ∧
        ∀ h : String, h ∉ c.HashIds →
          (∀ id ∈ ids, GetHashForId c id ≠ h) ∧
          (h ≠ "" → ∀ obj ∈ objs, mapGet obj "hashString" ≠ some (.str h))) := by
  rw [TorrentGet_eq] at h1
  obtain ⟨_, hhash, _⟩ := listAndFill_HashIds be c
  cases hreq : ext.UnmarshalGetRequest args with
  | none => simp [hreq] at h1
  | some req =>
    cases hids : parseIDsArgument ext (listAndFill be c).1 req.Ids with
    | none => simp [hreq, hids] at h1
    | some ids =>
      simp only [hreq, hids, Option.some_bind, Option.map_eq_some'] at h1
      obtain ⟨objs, hobjs, hres⟩ := h1
      simp only [Prod.mk.injEq] at hres
      obtain ⟨hc1, hresp, _⟩ := hres
      have hc1ids : c1.HashIds = (listAndFill be c).1.HashIds := by rw [← hc1]
      constructor
      · intro he
        rw [if_pos he] at hhash
        refine ⟨by rw [hc1ids, hhash], ?_⟩
        intro t ht
        rw [hc1ids, hhash]
        exact FillIDs_listed c _ t ht
      · intro hne
        rw [if_neg hne] at hhash
        have hp : parseIDsArgument ext c req.Ids = some ids := by
          rw [← parseIDsArgument_congr ext c (listAndFill be c).1 hhash, hids]
        have hall := mapCheck_forall2 _ ids objs hobjs
        refine ⟨by rw [hc1ids, hhash], req, ids, objs, rfl, hp, hresp.symm,
          hall.length_eq.symm, ?_⟩
        intro h hh
        have hidne : ∀ id ∈ ids, GetHashForId c id ≠ h := by
          intro id hid heq
          apply hh
          rw [← heq]
          exact GetHashForId_mem c id (parseIDsArgument_resolves ext c req.Ids ids hp id hid)
        refine ⟨hidne, ?_⟩
        intro hnonempty
        intro obj hobj
        obtain ⟨id, hid, hrel⟩ := forall2_mem_right hall obj hobj
        simp only [Option.map_eq_some'] at hrel
        obtain ⟨t, ht, rfl⟩ := hrel
        rw [mapGet_dropUnneeded]
        split
        · rw [translate_hashString ext be _ _ id t ht]
          intro heq
          have hsrc : (findSrc (listAndFill be c).1 (listAndFill be c).2 id).Hash = h := by
            simpa using heq
          rcases findSrc_hash (listAndFill be c).1 (listAndFill be c).2 id with hz | hg
          · exact hnonempty (by rw [← hsrc, hz])
          · rw [GetHashForId_congr c (listAndFill be c).1 hhash id] at hg
            exact hidne id hid (by rw [← hg, hsrc])
        · intro heq
          exact Option.noConfusion heq

/-- C21 on a table whose only slot is tombstoned, against a backend that lists `abc`,
and on a table without slot. -/
theorem TorrentGet_reconciles_empty_only_witness :
    ((sampleConn [""]).HashIds ≠ [] ∧ "abc" ∉ (sampleConn [""]).HashIds ∧
      (sampleBackend.GetTorrentList 0).map (fun t => t.Hash) = ["abc"]) ∧
    (∃ c1 : Connection,
      TorrentGet sampleExt sampleBackend (sampleConn [""]) "two"
        = some (c1, [("torrents", JVal.arr [])], "success") ∧
      c1.HashIds = (sampleConn [""]).HashIds ∧
      ∃ (req : GetRequest) (ids : List Int) (objs : List JsonMap),
        sampleExt.UnmarshalGetRequest "two" = some req ∧
        parseIDsArgument sampleExt (sampleConn [""]) req.Ids = some ids ∧
        [("torrents", JVal.arr [])] = [("torrents", JVal.arr (objs.map JVal.obj))] ∧
        objs.length = ids.length ∧
        ∀ h : String, h ∉ (sampleConn [""]).HashIds →
          (∀ id ∈ ids, GetHashForId (sampleConn [""]) id ≠ h) ∧
          (h ≠ "" → ∀ obj ∈ objs, mapGet obj "hashString" ≠ some (.str h))) ∧
    (∃ c1 : Connection,
      TorrentGet sampleExt sampleBackend (sampleConn ["def"]) "two"
        = some (c1,
            [("torrents", JVal.arr [JVal.obj [("status", .int 0), ("hashString", .str "")]])],
            "success") ∧
      c1.HashIds = ["def"]) ∧
    (∃ (c1 : Connection) (resp : JsonMap),
      TorrentGet sampleExt sampleBackend (sampleConn []) "two" = some (c1, resp, "success") ∧
      c1.HashIds = ["abc"] ∧
      c1.HashIds = (FillIDs (sampleConn []) (sampleBackend.GetTorrentList
        ((sampleConn []).trace.count Call.GetTorrentList))).1.HashIds ∧
      ∀ t ∈ sampleBackend.GetTorrentList ((sampleConn []).trace.count Call.GetTorrentList),
        t.Hash ∈ c1.HashIds) :=
  ⟨⟨by decide, by decide, by decide⟩,
    ⟨_, rfl,
      (TorrentGet_reconciles_empty_only sampleExt sampleBackend (sampleConn [""]) _ "two"
        [("torrents", JVal.arr [])] "success" rfl).2 (by decide)⟩,
    ⟨_, rfl, rfl⟩,
    ⟨_, _, rfl, rfl,
      (TorrentGet_reconciles_empty_only sampleExt sampleBackend (sampleConn []) _ "two" _
        "success" rfl).1 rfl⟩⟩

end Reflection
